import Mathlib

/-! # ISO 8583 message codec

A shallow embedding of `iso8583.go` (package `iso8583`): the message model
(`IsoStruct`), its mutators (`AddMTI`, `AddField`, `RemoveField`), the
serializer (`ToString`, `packElements`) and the parser (`Parse`,
`extractTpdu`, `extractMTI`, `extractBitmap`, `extractFieldFromElements`,
`getFieldValue`, `unpackElements`).

Conventions of the embedding.

* A Go `string` and a Go `[]byte` are both byte sequences: `GoString`.
* A Go `int`/`int64` is an `Int`.  Every length that the code computes is
  bounded by the length of an input string or by a four-digit length prefix,
  except the `maxLen + 1` that `getFieldValue` computes from a registry
  length: that sum is taken in Go's 64-bit `int` (`wrapInt`), where it wraps
  for `maxLen = 2^63 - 1`.
* A function that returns a Go `error` returns `Except Fault _`; the value
  `Fault.err` is a returned error, `Fault.panic` is a run-time panic (a slice
  expression out of range).
* A method with a pointer receiver that writes to the receiver returns the
  receiver's new value next to its result.
* The map inside `ElementsType` is an association list with unique keys, next
  to a flag that tells the nil map of Go's zero `ElementsType` from an
  allocated map.  Both constructors of a message (`NewISOStruct`,
  `unpackElements`) allocate the map; a message written as a struct literal
  has the nil map, on which `AddField` and `RemoveField` panic.
* The diagnostics printed with `fmt.Printf`/`fmt.Println` are dropped.
-/

namespace Iso8583

/-! ## Bytes and strings -/

/-- A Go byte. -/
abbrev Byte := Fin 256

/-- A Go string, or a byte slice: a sequence of bytes. -/
abbrev GoString := List Byte

/-- The byte of an ASCII character. -/
def charByte (c : Char) : Byte := Fin.ofNat c.toNat

/-- The bytes of a text literal (the texts used here are ASCII). -/
def str (s : String) : GoString := s.toList.map charByte

/-- The two ways a call can fail: a returned `error`, or a panic. -/
inductive Fault where
  | err
  | panic
  deriving DecidableEq, Repr

instance instDecidableEqExcept {ε α : Type} [DecidableEq ε] [DecidableEq α] :
    DecidableEq (Except ε α) := fun a b =>
  match a, b with
  | .ok x, .ok y =>
    if h : x = y then isTrue (by rw [h]) else isFalse (by intro e; cases e; exact h rfl)
  | .error x, .error y =>
    if h : x = y then isTrue (by rw [h]) else isFalse (by intro e; cases e; exact h rfl)
  | .ok _, .error _ => isFalse (by intro e; cases e)
  | .error _, .ok _ => isFalse (by intro e; cases e)

/-- The slice expression `s[0:hi]`; it panics unless `0 ≤ hi ≤ len(s)`. -/
def sliceTo (s : GoString) (hi : Int) : Except Fault GoString :=
  if 0 ≤ hi ∧ hi ≤ s.length then .ok (s.take hi.toNat) else .error .panic

/-- The slice expression `s[lo:len(s)]`; it panics unless `0 ≤ lo ≤ len(s)`. -/
def sliceFrom (s : GoString) (lo : Int) : Except Fault GoString :=
  if 0 ≤ lo ∧ lo ≤ s.length then .ok (s.drop lo.toNat) else .error .panic

/-! ## The Go standard library functions the code calls -/

/-- The entry `hextable[n]` of `encoding/hex`, `"0123456789abcdef"`. -/
def hexDigit (n : Nat) : Byte :=
  if n < 10 then Fin.ofNat (48 + n) else Fin.ofNat (87 + n)

/-- The value of a hex digit, either case (`fromHexChar` of `encoding/hex`). -/
def fromHexChar (c : Byte) : Option Nat :=
  if 48 ≤ c.val ∧ c.val ≤ 57 then some (c.val - 48)
  else if 97 ≤ c.val ∧ c.val ≤ 102 then some (c.val - 97 + 10)
  else if 65 ≤ c.val ∧ c.val ≤ 70 then some (c.val - 65 + 10)
  else none

/-- The function `hex.EncodeToString`: two lowercase hex digits per byte. -/
def hex.EncodeToString : GoString → GoString
  | [] => []
  | b :: bs => hexDigit (b.val / 16) :: hexDigit (b.val % 16) :: hex.EncodeToString bs

/-- The function `hex.DecodeString`: the bytes decoded before the first bad
pair, and whether an error is returned (a byte that is no hex digit, or an odd
length).  The callers that write `x, _ := hex.DecodeString(..)` keep the bytes
and drop the flag. -/
def hex.DecodeString : GoString → GoString × Bool
  | [] => ([], false)
  | [_] => ([], true)
  | p :: q :: rest =>
    match fromHexChar p, fromHexChar q with
    | some a, some b =>
      (Fin.ofNat (a * 16 + b) :: (hex.DecodeString rest).1, (hex.DecodeString rest).2)
    | _, _ => ([], true)

/-- The decimal digits read by `strconv.ParseUint` in base 10. -/
def parseDigits : GoString → Nat → Option Nat
  | [], acc => some acc
  | c :: cs, acc =>
    if 48 ≤ c.val ∧ c.val ≤ 57 then parseDigits cs (acc * 10 + (c.val - 48)) else none

/-- The call `strconv.ParseInt(s, 10, 64)`: an optional sign, then one or more
decimal digits, the value within the range of `int64`. -/
def strconv.ParseInt (s : GoString) : Except Fault Int :=
  match s with
  | [] => .error .err
  | c :: cs =>
    let neg : Bool := c = charByte '-'
    let ds : GoString := if c = charByte '+' ∨ c = charByte '-' then cs else s
    match ds with
    | [] => .error .err
    | d :: ds1 =>
      match parseDigits (d :: ds1) 0 with
      | none => .error .err
      | some un =>
        if neg then (if un > 2 ^ 63 then .error .err else .ok (-(un : Int)))
        else (if un ≥ 2 ^ 63 then .error .err else .ok (un : Int))

/-- The function `strconv.Itoa`. -/
def strconv.Itoa (n : Int) : GoString :=
  if n < 0 then charByte '-' :: (Nat.toDigits 10 n.natAbs).map charByte
  else (Nat.toDigits 10 n.natAbs).map charByte

/-- The call `fmt.Sprintf("%8b", v)`: the binary digits of `v`, padded with
spaces on the left to width 8. -/
def fmtSprintf8b (v : Byte) : GoString :=
  List.leftpad 8 (charByte ' ') ((Nat.toDigits 2 v.val).map charByte)

/-! ## The registry -/

/-- Modelled from the spec: the `FieldDescription` type is declared outside
`iso8583.go`; the fields are those the codec reads (`FieldDescriptor` of the
data model: length kind, maximal length, packed-hex flag, content kind). -/
structure FieldDescription where
  LenType : String
  HeaderHex : Bool
  MaxLen : Int
  Contain : String
  deriving DecidableEq, Repr

/-- Modelled from the spec: the `Spec` type is declared outside `iso8583.go`
(`FieldSpecRegistry`: a mapping from index to descriptor).  Its `fields` are a
Go map; the first entry for a key is the one the map holds. -/
structure Spec where
  fields : List (Int × FieldDescription)
  deriving DecidableEq, Repr

/-- The index expression `spec.fields[k]`: the zero descriptor for a key the
map does not hold. -/
def Spec.field (s : Spec) (k : Int) : FieldDescription :=
  (s.fields.lookup k).getD ⟨"", false, 0, ""⟩

/-! ## The message model -/

/-- The message type identifier. -/
structure MtiType where
  mti : GoString
  deriving DecidableEq, Repr

/-- The method `MtiType.String`. -/
def MtiType.String (m : MtiType) : GoString := m.mti

/-- The element table, a Go `map[int64]string`: its entries, and whether it is
the nil map, which Go's zero `ElementsType` holds.  The nil map has no entry
(`elements = []`), reads like the empty map, and panics when an entry is
assigned; `NewISOStruct` and `unpackElements` allocate the map they store. -/
structure ElementsType where
  elements : List (Int × GoString)
  isNil : Bool := false
  deriving DecidableEq, Repr

/-- The method `GetElements`. -/
def ElementsType.GetElements (e : ElementsType) : List (Int × GoString) := e.elements

/-- The index expression `m[k]` on a Go map: the empty string for a missing key. -/
def mapGet (m : List (Int × GoString)) (k : Int) : GoString := (m.lookup k).getD []

/-- Whether the Go map holds the key `k`. -/
def mapHas (m : List (Int × GoString)) (k : Int) : Bool := (m.lookup k).isSome

/-- The map without its entry for the key `k`. -/
def mapDelete : List (Int × GoString) → Int → List (Int × GoString)
  | [], _ => []
  | (a, v) :: m, k => if a = k then mapDelete m k else (a, v) :: mapDelete m k

/-- The assignment `m[k] = v` on a Go map: the entry for `k` is replaced. -/
def mapSet (m : List (Int × GoString)) (k : Int) (v : GoString) : List (Int × GoString) :=
  (k, v) :: mapDelete m k

/-- The message container. -/
structure IsoStruct where
  Spec : Spec
  Mti : MtiType
  Bitmap : List Int
  Elements : ElementsType
  Tpdu : GoString
  deriving DecidableEq, Repr

/-! ## Helpers of the package that live outside `iso8583.go` -/

/-- The four bits of a hex digit value, most significant first. -/
def nibbleBits (n : Nat) : List Int :=
  [((n / 8 % 2 : Nat) : Int), ((n / 4 % 2 : Nat) : Int), ((n / 2 % 2 : Nat) : Int),
    ((n % 2 : Nat) : Int)]

/-- Modelled from the spec: `HexToBitmapArray` is defined outside `iso8583.go`.
Bitmap Codec `decode`: each hex digit expands to 4 bits, most significant bit
first, concatenated in input order (length `4 × len(hex_text)`), either case
accepted on input; a character that is no hex digit is an error. -/
def HexToBitmapArray : GoString → Except Fault (List Int)
  | [] => .ok []
  | c :: cs =>
    match fromHexChar c with
    | none => .error .err
    | some n =>
      match HexToBitmapArray cs with
      | .ok bits => .ok (nibbleBits n ++ bits)
      | .error e => .error e

/-- Modelled from the spec: `BitMapArrayToHex` is defined outside `iso8583.go`.
Bitmap Codec `encode`: the inverse of `decode`; the bits are grouped into
nibbles of 4 and each nibble is emitted as one lowercase hex digit (the case
`hex.EncodeToString` uses on the rest of the wire).  The spec gives the
function for bit vectors whose length is a multiple of 4; an entry that is
neither 0 nor 1, or a last group of fewer than 4 bits, is an error here. -/
def BitMapArrayToHex : List Int → Except Fault GoString
  | [] => .ok []
  | b3 :: b2 :: b1 :: b0 :: rest =>
    if (b3 = 0 ∨ b3 = 1) ∧ (b2 = 0 ∨ b2 = 1) ∧ (b1 = 0 ∨ b1 = 1) ∧ (b0 = 0 ∨ b0 = 1) then
      match BitMapArrayToHex rest with
      | .ok s => .ok (hexDigit (8 * b3 + 4 * b2 + 2 * b1 + b0).toNat :: s)
      | .error e => .error e
    else .error .err
  | _ => .error .err

/-- Whether a byte is an ASCII decimal digit. -/
def isDigit (c : Byte) : Bool := 48 ≤ c.val ∧ c.val ≤ 57

/-- Modelled from the spec: `MtiValidator` is defined outside `iso8583.go`.
Parse step 3: the identifier is exactly 4 ASCII decimal digits, an error
otherwise. -/
def MtiValidator (mti : MtiType) : Except Fault Bool :=
  if mti.mti.length = 4 ∧ mti.mti.all isDigit then .ok true else .error .err

/-- Modelled from the spec: `leftPad` is defined outside `iso8583.go`.
Packing step 3: the text is padded on the left with the pad byte up to the
given width (a text already that long is returned as it is). -/
def leftPad (s : GoString) (length : Int) (pad : Byte) : GoString :=
  List.replicate (length.toNat - s.length) pad ++ s

/-! ## The functions of `iso8583.go` -/

/-- The value that Go's 64-bit `int` holds for the integer `x`: `x` itself
between `-2^63` and `2^63 - 1`, its two's-complement wrap-around otherwise. -/
def wrapInt (x : Int) : Int := (x + 2 ^ 63) % 2 ^ 64 - 2 ^ 63

/-- The function `getVariableLengthFromString`. -/
def getVariableLengthFromString (s : String) : Except Fault Int :=
  if s = "llvar" then .ok 2
  else if s = "lllvar" then .ok 3
  else if s = "llllvar" then .ok 4
  else .error .err

/-- The loop of `packElements`: `index` runs over the bitmap positions from 1,
`str` is the text packed so far. -/
def packLoop (elementsSpec : Spec) (elementsMap : List (Int × GoString)) :
    List Int → Nat → GoString → Except Fault GoString
  | [], _, str => .ok str
  | bit :: rest, index, str =>
    if bit = 1 then
      let field : Int := (index : Int) + 1
      let fieldDescription := elementsSpec.field field
      if fieldDescription.LenType = "fixed" then
        if fieldDescription.HeaderHex then
          let strtemp := mapGet elementsMap field
          let strByte := (hex.DecodeString strtemp).1
          packLoop elementsSpec elementsMap rest (index + 1) (str ++ strByte)
        else
          packLoop elementsSpec elementsMap rest (index + 1) (str ++ mapGet elementsMap field)
      else
        match getVariableLengthFromString fieldDescription.LenType with
        | .error e => .error e
        | .ok lengthType =>
          let actualLength : Int := ((mapGet elementsMap field).length : Int)
          let paddedLength := leftPad (strconv.Itoa actualLength) lengthType (charByte '0')
          if fieldDescription.HeaderHex then
            let strtemp := paddedLength ++ mapGet elementsMap field
            let strByte := (hex.DecodeString strtemp).1
            packLoop elementsSpec elementsMap rest (index + 1) (str ++ strByte)
          else
            packLoop elementsSpec elementsMap rest (index + 1) (str ++ mapGet elementsMap field)
    else packLoop elementsSpec elementsMap rest (index + 1) str

/-- The method `packElements`. -/
def IsoStruct.packElements (iso : IsoStruct) : Except Fault GoString :=
  packLoop iso.Spec iso.Elements.GetElements (iso.Bitmap.drop 1) 1 []

/-- The method `ToString`: it packs the mti, the bitmap and the elements. -/
def IsoStruct.ToString (iso : IsoStruct) : Except Fault GoString :=
  match BitMapArrayToHex iso.Bitmap with
  | .error e => .error e
  | .ok bitmapString =>
    match iso.packElements with
    | .error e => .error e
    | .ok elementsStr =>
      if (iso.Spec.field 0).HeaderHex then
        let mtiByte := (hex.DecodeString iso.Mti.String).1
        let bitmapByte : GoString :=
          if (iso.Spec.field 1).HeaderHex then (hex.DecodeString bitmapString).1 else []
        let isomsgByte : GoString :=
          if iso.Tpdu.length > 0 then iso.Tpdu ++ (mtiByte ++ bitmapByte)
          else mtiByte ++ bitmapByte
        .ok (isomsgByte ++ elementsStr)
      else if iso.Tpdu.length > 0 then
        .ok (iso.Tpdu ++ iso.Mti.String ++ bitmapString ++ elementsStr)
      else
        .ok (iso.Mti.String ++ bitmapString ++ elementsStr)

/-- The method `AddMTI`: the receiver after the call, and the returned error. -/
def IsoStruct.AddMTI (iso : IsoStruct) (data : GoString) : IsoStruct × Except Fault Unit :=
  let mti : MtiType := { mti := data }
  match MtiValidator mti with
  | .error e => (iso, .error e)
  | .ok _ => ({ iso with Mti := mti }, .ok ())

/-- The method `AddField`: the receiver after the call, and the returned error.
The bitmap entry is written first; the assignment to the map entry panics on
the nil map. -/
def IsoStruct.AddField (iso : IsoStruct) (field : Int) (data : GoString) :
    IsoStruct × Except Fault Unit :=
  if field < 2 ∨ field > (iso.Bitmap.length : Int) then (iso, .error .err)
  else if iso.Elements.isNil then
    ({ iso with Bitmap := iso.Bitmap.set (field - 1).toNat 1 }, .error .panic)
  else
    ({ iso with
        Bitmap := iso.Bitmap.set (field - 1).toNat 1
        Elements := { elements := mapSet iso.Elements.elements field data } }, .ok ())

/-- The method `RemoveField`: the receiver after the call, and the returned
error.  The bitmap entry is written first; the assignment to the map entry
panics on the nil map. -/
def IsoStruct.RemoveField (iso : IsoStruct) (field : Int) : IsoStruct × Except Fault Unit :=
  if field < 2 ∨ field > (iso.Bitmap.length : Int) then (iso, .error .err)
  else if iso.Elements.isNil then
    ({ iso with Bitmap := iso.Bitmap.set (field - 1).toNat 0 }, .error .panic)
  else
    ({ iso with
        Bitmap := iso.Bitmap.set (field - 1).toNat 0
        Elements := { elements := mapSet iso.Elements.elements field [] } }, .ok ())

/-- The function `extractTpdu`: the header and the rest of the message. -/
def extractTpdu (rest : GoString) : Except Fault (GoString × GoString) :=
  if rest.length < 5 then .error .err
  else .ok (rest.take 5, rest.drop 5)

/-- The function `extractMTI`; both slice expressions are guarded by the
length test in front of them. -/
def extractMTI (str : GoString) (isHex : Bool) : MtiType × GoString :=
  if !isHex then
    if str.length < 4 then ({ mti := [] }, [])
    else ({ mti := str.take 4 }, str.drop 4)
  else
    if str.length < 2 then ({ mti := [] }, [])
    else ({ mti := hex.EncodeToString (str.take 2) }, str.drop 2)

/-- The function `extractBitmap`: the bitmap and the text behind it. -/
def extractBitmap (rest : GoString) (isHex : Bool) : Except Fault (List Int × GoString) :=
  if rest.length < 1 then .error .err
  else
    match (if !isHex then sliceTo rest 2 else (sliceTo rest 1).map hex.EncodeToString) with
    | .error e => .error e
    | .ok frontHex =>
      if (hex.DecodeString frontHex).2 then .error .err
      else
        match (hex.DecodeString frontHex).1 with
        | [] => .error .panic
        | inDec0 :: _ =>
          let inBinary := fmtSprintf8b inDec0
          let bitmapHexLength : Int := if inBinary.head? = some (charByte '1') then 32 else 16
          let bitmapHexLength : Int := if isHex then bitmapHexLength.tdiv 2 else bitmapHexLength
          match (if !isHex then sliceTo rest bitmapHexLength
              else (sliceTo rest bitmapHexLength).map hex.EncodeToString) with
          | .error e => .error e
          | .ok bitmapHexString =>
            match sliceFrom rest bitmapHexLength with
            | .error e => .error e
            | .ok elementsString =>
              match HexToBitmapArray bitmapHexString with
              | .error e => .error e
              | .ok bitmap => .ok (bitmap, elementsString)

/-- The function `getFieldValue`: the extracted field and the text behind it.
The sum `maxLen + 1` is taken in Go's `int`: it wraps for `maxLen = 2^63 - 1`,
the one `int` for which it leaves the range (the doubling for chip-tag stays
in range for every `int`). -/
def getFieldValue (headerHex : Bool) (maxLen : Int) (contain : String) (str : GoString) :
    Except Fault (GoString × GoString) :=
  if headerHex then
    let length : Int :=
      if maxLen.tmod 2 ≠ 0 then (wrapInt (maxLen + 1)).tdiv 2 else maxLen.tdiv 2
    let length : Int := if contain = "chip-tag" then length * 2 else length
    if (str.length : Int) < length then .error .err
    else
      match sliceTo str length with
      | .error e => .error e
      | .ok extractedFieldTemp =>
        match sliceFrom str length with
        | .error e => .error e
        | .ok substr => .ok (hex.EncodeToString extractedFieldTemp, substr)
  else
    if (str.length : Int) < maxLen then .error .err
    else
      match sliceTo str maxLen with
      | .error e => .error e
      | .ok extractedField =>
        match sliceFrom str maxLen with
        | .error e => .error e
        | .ok substr => .ok (extractedField, substr)

/-- The function `extractFieldFromElements`: the field and the text behind it. -/
def extractFieldFromElements (spec : Spec) (field : Int) (str : GoString) :
    Except Fault (GoString × GoString) :=
  let fieldDescription := spec.field field
  if fieldDescription.LenType = "fixed" then
    getFieldValue fieldDescription.HeaderHex fieldDescription.MaxLen fieldDescription.Contain str
  else
    match getVariableLengthFromString fieldDescription.LenType with
    | .error e => .error e
    | .ok length0 =>
      let length : Int :=
        if fieldDescription.HeaderHex then
          (if length0.tmod 2 ≠ 0 then (length0 + 1).tdiv 2 else length0.tdiv 2)
        else length0
      match (if fieldDescription.HeaderHex then (sliceTo str length).map hex.EncodeToString
          else sliceTo str length) with
      | .error e => .error e
      | .ok fieldLength =>
        match sliceFrom str length with
        | .error e => .error e
        | .ok tempSubstr =>
          match strconv.ParseInt fieldLength with
          | .error e => .error e
          | .ok fieldLengthInt0 =>
            let fieldLengthInt : Int :=
              if fieldDescription.Contain = "string" then fieldLengthInt0 * 2 else fieldLengthInt0
            getFieldValue fieldDescription.HeaderHex fieldLengthInt fieldDescription.Contain
              tempSubstr

/-- The loop of `unpackElements`: `index` runs over the bitmap positions from
1, `m` is the map filled so far, `currentString` the text not yet consumed. -/
def unpackLoop (spec : Spec) :
    List Int → Nat → GoString → List (Int × GoString) → Except Fault (List (Int × GoString))
  | [], _, _, m => .ok m
  | bit :: rest, index, currentString, m =>
    if bit = 1 then
      let field : Int := (index : Int) + 1
      match extractFieldFromElements spec field currentString with
      | .ok (extractedField, substr) =>
        unpackLoop spec rest (index + 1) substr (mapSet m field extractedField)
      | .error e => .error e
    else unpackLoop spec rest (index + 1) currentString m

/-- The function `unpackElements`. -/
def unpackElements (bitmap : List Int) (elements : GoString) (spec : Spec) :
    Except Fault ElementsType :=
  match unpackLoop spec (bitmap.drop 1) 1 elements [] with
  | .ok m => .ok { elements := m }
  | .error e => .error e

/-- The function `NewISOStruct`; the registry that `SpecFromFile` loads from
the named file is passed in. -/
def NewISOStruct (spec : Spec) (secondaryBitmap : Bool) : IsoStruct :=
  let bitmap : List Int :=
    if secondaryBitmap = true then (List.replicate 128 (0 : Int)).set 0 1
    else List.replicate 64 (0 : Int)
  { Spec := spec, Mti := { mti := [] }, Bitmap := bitmap, Elements := { elements := [] },
    Tpdu := List.replicate 5 (0 : Byte) }

/-- The method `Parse`: the receiver after the call (its `Tpdu` is written
when `useTpdu` is set), and the parsed message or the failure. -/
def IsoStruct.Parse (iso : IsoStruct) (i : GoString) (useTpdu : Bool) :
    IsoStruct × Except Fault IsoStruct :=
  let spec := iso.Spec
  let tm : GoString × GoString :=
    if useTpdu then
      match extractTpdu i with
      | .ok (tpdu, msg) => (tpdu, msg)
      | .error _ => ([], [])
    else ([], i)
  let tpdu := tm.1
  let msg := tm.2
  let iso1 : IsoStruct := if useTpdu then { iso with Tpdu := tpdu } else iso
  let mr := extractMTI msg (spec.field 0).HeaderHex
  (iso1,
    match extractBitmap mr.2 (spec.field 1).HeaderHex with
    | .error e => .error e
    | .ok (bitmap, elementString) =>
      match MtiValidator mr.1 with
      | .error e => .error e
      | .ok _ =>
        match unpackElements bitmap elementString spec with
        | .error e => .error e
        | .ok elements =>
          .ok { Spec := spec, Mti := mr.1, Bitmap := bitmap, Elements := elements, Tpdu := tpdu })

/-! ## Call sequences on a message -/

/-- One call of a mutator. -/
inductive Op where
  | addMTI (data : GoString)
  | addField (field : Int) (data : GoString)
  | removeField (field : Int)
  deriving DecidableEq, Repr

/-- The message after one mutator call, whether the call returned an error or not. -/
def applyOp (iso : IsoStruct) : Op → IsoStruct
  | .addMTI data => (iso.AddMTI data).1
  | .addField field data => (iso.AddField field data).1
  | .removeField field => (iso.RemoveField field).1

/-- The message after a sequence of mutator calls. -/
def runOps (iso : IsoStruct) (ops : List Op) : IsoStruct := ops.foldl applyOp iso

/-! ## The registries and messages of the scenarios -/

/-- Modelled from the spec: the registry file `spec1987.yml` is not part of the
sources.  Scenario A fixes an ASCII registry (message type and bitmap
transmitted as text) in which fields 3, 4, 7, 11, 41 and 49 are fixed-length
text fields of 6, 12, 10, 6, 8 and 3 characters. -/
def scenarioASpec : Spec :=
  ⟨[(0, ⟨"fixed", false, 4, "numeric"⟩), (1, ⟨"fixed", false, 16, "binary"⟩),
    (3, ⟨"fixed", false, 6, "numeric"⟩), (4, ⟨"fixed", false, 12, "numeric"⟩),
    (7, ⟨"fixed", false, 10, "numeric"⟩), (11, ⟨"fixed", false, 6, "numeric"⟩),
    (41, ⟨"fixed", false, 8, "string"⟩), (49, ⟨"fixed", false, 3, "string"⟩)]⟩

/-- The message text of scenario A (`TestISOParse`, `TestEmpty`). -/
def scenarioARaw : GoString :=
  str "02003220000000808000000010000000001500120604120000000112340001840"

/-- The calls of scenario A after `NewISOStruct` (`TestEmpty`). -/
def scenarioAOps : List Op :=
  [Op.addMTI (str "0200"), Op.addField 3 (str "000010"), Op.addField 4 (str "000000001500"),
    Op.addField 7 (str "1206041200"), Op.addField 11 (str "000001"),
    Op.addField 41 (str "12340001"), Op.addField 49 (str "840")]

/-- The fields of scenario A are fixed-length text fields of the registry, and
the message type is transmitted as text. -/
def IsScenarioARegistry (spec : Spec) : Prop :=
  (spec.field 0).HeaderHex = false ∧
  ∀ f ∈ [(3 : Int), 4, 7, 11, 41, 49],
    (spec.field f).LenType = "fixed" ∧ (spec.field f).HeaderHex = false

/-- Modelled from the spec: the registry file `spec1987pos.yml` is not part of
the sources.  Scenario B fixes a packed-hex registry: message type and bitmap
packed, fields 3, 11 and 24 fixed-length packed fields of 6, 6 and 3 digits,
field 41 a fixed-length text field of 8 characters, field 62 a packed
three-digit length-prefixed field of content kind `string`. -/
def scenarioBSpec : Spec :=
  ⟨[(0, ⟨"fixed", true, 4, "numeric"⟩), (1, ⟨"fixed", true, 16, "binary"⟩),
    (3, ⟨"fixed", true, 6, "numeric"⟩), (11, ⟨"fixed", true, 6, "numeric"⟩),
    (24, ⟨"fixed", true, 3, "numeric"⟩), (41, ⟨"fixed", false, 8, "ans"⟩),
    (62, ⟨"lllvar", true, 999, "string"⟩)]⟩

/-- The byte sequence of scenario B (`TestMessageFromSample1`), as hex text. -/
def scenarioBHex : GoString :=
  str ("6000180000" ++ "0800" ++ "2020010000800004" ++ "920000" ++ "000299" ++ "0018"
    ++ "3737303030303333" ++ "0037"
    ++ "48544c45303331303031303031373730303030333330303030303030378ca64de98ca64de9")

/-- The byte sequence of scenario B. -/
def scenarioBRaw : GoString := (hex.DecodeString scenarioBHex).1

/-- The bit vector of the given length whose set positions are those of the
listed field numbers (field `f` at position `f-1`). -/
def bitsOfFields (length : Nat) (fields : List Nat) : List Int :=
  (List.range length).map (fun i => if (i + 1) ∈ fields then (1 : Int) else 0)

/-- The bitmap of scenario A: the positions 2, 3, 6, 10, 40 and 48 are set. -/
def scenarioABitmap : List Int := bitsOfFields 64 [3, 4, 7, 11, 41, 49]

/-- The message that parsing the text of scenario A returns. -/
def scenarioAParsed : IsoStruct :=
  { Spec := scenarioASpec, Mti := { mti := str "0200" }, Bitmap := scenarioABitmap,
    Elements := { elements := [(49, str "840"), (41, str "12340001"), (11, str "000001"),
      (7, str "1206041200"), (4, str "000000001500"), (3, str "000010")] },
    Tpdu := [] }

/-- The message that parsing the byte sequence of scenario B returns: message
type `0800`, transport header `60 00 18 00 00`, fields 3, 11, 24, 41 and 62. -/
def scenarioBParsed : IsoStruct :=
  { Spec := scenarioBSpec, Mti := { mti := str "0800" },
    Bitmap := bitsOfFields 64 [3, 11, 24, 41, 62],
    Elements := { elements :=
      [(62, str "48544c45303331303031303031373730303030333330303030303030378ca64de98ca64de9"),
       (41, str "77000033"), (24, str "0018"), (11, str "000299"), (3, str "920000")] },
    Tpdu := [0x60, 0x00, 0x18, 0x00, 0x00] }

/-- The bytes that `ToString` returns for the parsed message of scenario B, as
hex text: the length prefix of field 62 comes out as `07 44 ..` in place of
`00 37 48 ..`, and the last half byte of the value is lost. -/
def scenarioBOutHex : GoString :=
  str ("6000180000" ++ "0800" ++ "2020010000800004" ++ "920000" ++ "000299" ++ "0018"
    ++ "3737303030303333"
    ++ "07448544c45303331303031303031373730303030333330303030303030378ca64de98ca64de")

/-- The field texts of scenario A in wire order. -/
def scenarioAChunks : List GoString :=
  [str "000010", str "000000001500", str "1206041200", str "000001", str "12340001", str "840"]

/-- A registry whose message type is transmitted as text and whose bitmap is
transmitted packed; it describes no data field. -/
def mixedFlagSpec : Spec :=
  ⟨[(0, ⟨"fixed", false, 4, "numeric"⟩), (1, ⟨"fixed", true, 16, "binary"⟩)]⟩

/-- A message for `mixedFlagSpec`: the message type `0200` as text, then the
empty 64-bit bitmap as 8 raw bytes, and no field. -/
def mixedFlagRaw : GoString := str "0200" ++ List.replicate 8 (0 : Byte)

/-- An ASCII registry in which fields 5 and 7 are fixed-length text fields of 3
characters. -/
def upperCaseSpec : Spec :=
  ⟨[(0, ⟨"fixed", false, 4, "numeric"⟩), (1, ⟨"fixed", false, 16, "binary"⟩),
    (5, ⟨"fixed", false, 3, "string"⟩), (7, ⟨"fixed", false, 3, "string"⟩)]⟩

/-- A message for `upperCaseSpec` whose bitmap text (fields 5 and 7) is written
with an uppercase hex digit. -/
def upperCaseRaw : GoString := str ("0200" ++ "0A00000000000000" ++ "abc" ++ "def")

/-- The `ToString` output of a parse result; a failed parse has none. -/
def reserialize (r : Except Fault IsoStruct) : Except Fault GoString :=
  match r with
  | .ok p => p.ToString
  | .error e => .error e

/-- The secondary-bitmap flag of the Bitmap Codec (`secondary_present`), in the
spec's words: the most significant bit of the first transmitted bitmap unit,
that is of the first raw byte when the bitmap is packed, and of the byte that
the first two hex characters denote (the high bit of the first hex digit)
when it is text. -/
def secondaryPresent (rest : GoString) (isHex : Bool) : Bool :=
  match rest with
  | [] => false
  | c :: _ =>
    if isHex then decide (128 ≤ c.val)
    else
      match fromHexChar c with
      | some a => decide (8 ≤ a)
      | none => false

/-- The number of units (characters, or bytes when packed) that a bitmap takes
on the wire: 32 characters or 16 bytes with a secondary bitmap, 16 characters
or 8 bytes without. -/
def bitmapUnits (secondary isHex : Bool) : Nat :=
  if secondary then (if isHex then 16 else 32) else (if isHex then 8 else 16)

/-- A bit vector of the shape the data model prescribes for a bitmap: entries 0
or 1, length 64 or 128, and position 0 set exactly when the length is 128. -/
def BitmapShape (b : List Int) : Prop :=
  (∀ x ∈ b, x = 0 ∨ x = 1) ∧ (b.length = 64 ∨ b.length = 128) ∧
    (b[0]? = some 1 ↔ b.length = 128)

/-- The bitmap as `ToString` puts it on the wire for a packed or a text
bitmap: the bytes that the hex text decodes to, or the hex text itself. -/
def bitmapWire (bitmapString : GoString) (isHex : Bool) : GoString :=
  if isHex then (hex.DecodeString bitmapString).1 else bitmapString

/-- The spec's `ceil(n / 2)`. -/
def ceilHalf (n : Int) : Int := (n + 1) / 2

/-- The `ceil(n / 2)` of `getFieldValue`: `(n + 1) / 2` for an odd `n`, the sum
taken in Go's `int`, and `n / 2` for an even `n`.  It is the spec's
`ceil(n / 2)` for every `int` but `2^63 - 1`, where the sum wraps and the
result is `-2^62`. -/
def intCeilHalf (n : Int) : Int :=
  if n.tmod 2 ≠ 0 then (wrapInt (n + 1)).tdiv 2 else n.tdiv 2

/-- The declared size of a fixed-length field on the wire, in the words of the
Scalar Field Codec: `max_length` characters for a text field, and
`ceil(max_length/2)` raw bytes for a packed field, doubled when the content
kind is chip-tag.  The ceiling is taken in Go's `int`, as the code takes it: a
packed field of `max_length = 2^63 - 1` has a negative size, which no text
has. -/
def fixedUnits (fd : FieldDescription) : Int :=
  if fd.HeaderHex then
    (if fd.Contain = "chip-tag" then intCeilHalf fd.MaxLen * 2 else intCeilHalf fd.MaxLen)
  else fd.MaxLen

/-- The value text that the element table holds for a field transmitted as
`chunk`: the hex-digit text of the bytes for a packed field, the characters
themselves for a text field. -/
def fieldValue (fd : FieldDescription) (chunk : GoString) : GoString :=
  if fd.HeaderHex then hex.EncodeToString chunk else chunk

/-- The field region of a well-formed message of fixed-length fields: `chunks`
holds exactly one text per set position of `bits` (the first of which is the
bitmap position `index`), in ascending order; each such field is fixed-length
in the registry and its text has the declared size. -/
def fixedFields (spec : Spec) : List Int → Nat → List GoString → Bool
  | [], _, chunks => chunks.isEmpty
  | bit :: rest, index, chunks =>
    if bit = 1 then
      match chunks with
      | [] => false
      | c :: cs =>
        decide ((spec.field ((index : Int) + 1)).LenType = "fixed") &&
        decide ((c.length : Int) = fixedUnits (spec.field ((index : Int) + 1))) &&
        fixedFields spec rest (index + 1) cs
    else fixedFields spec rest (index + 1) chunks

/-- The element table `M` holds, for every set position of `bits`, the value
text of the chunk transmitted for it. -/
def Stored (spec : Spec) (M : List (Int × GoString)) : List Int → Nat → List GoString → Prop
  | [], _, _ => True
  | bit :: rest, index, chunks =>
    if bit = 1 then
      match chunks with
      | [] => True
      | c :: cs =>
        mapGet M ((index : Int) + 1) = fieldValue (spec.field ((index : Int) + 1)) c ∧
        Stored spec M rest (index + 1) cs
    else Stored spec M rest (index + 1) chunks

/-- The message type identifier on the wire: the two bytes that the four
digits decode to when packed, the four digits themselves otherwise. -/
def mtiWire (mti : GoString) (isHex : Bool) : GoString :=
  if isHex then (hex.DecodeString mti).1 else mti

/-- The round trip of a raw message: `Parse` succeeds and `ToString` of the
parsed message is the raw message. -/
def RoundTrips (iso : IsoStruct) (raw : GoString) (useTpdu : Bool) : Prop :=
  ∃ p, (iso.Parse raw useTpdu).2 = .ok p ∧ p.ToString = .ok raw

/-- The keys of a Go map are pairwise different. -/
def NodupKeys (m : List (Int × GoString)) : Prop := (m.map Prod.fst).Nodup

/-- The message that `TestMessageFromSample1` builds next to a parsed message
`p`: `NewISOStruct` with a bitmap of the length of `p`'s, `AddMTI` with `p`'s
message type, `Tpdu` set to `p`'s transport header, and one `AddField` call
per entry of `es`. -/
def rebuild (spec : Spec) (p : IsoStruct) (es : List (Int × GoString)) : IsoStruct :=
  runOps
    { ((NewISOStruct spec (decide (p.Bitmap.length = 128))).AddMTI p.Mti.String).1 with
      Tpdu := p.Tpdu }
    (es.map (fun e => Op.addField e.1 e.2))

/-- A text of lowercase hex digits, as `hex.EncodeToString` and
`BitMapArrayToHex` produce it. -/
def LowerHex (s : GoString) : Prop := ∀ c ∈ s, ∃ n, n < 16 ∧ c = hexDigit n

/-- The lock-step property as the data model words it: the element table has
a key for field `f` (`f ≥ 2`) if and only if bitmap position `f-1` is set. -/
def LockStep (iso : IsoStruct) : Prop :=
  ∀ f : Int, 2 ≤ f →
    (mapHas iso.Elements.elements f = true ↔ iso.Bitmap[(f - 1).toNat]? = some 1)

/-- The lock-step property that the mutators keep: a set position has its key,
every key is a field number of the bitmap, and a key whose position is not set
holds the empty text. -/
def BlankedLockStep (iso : IsoStruct) : Prop :=
  ∀ f : Int,
    (2 ≤ f → iso.Bitmap[(f - 1).toNat]? = some 1 → mapHas iso.Elements.elements f = true) ∧
    (mapHas iso.Elements.elements f = true →
      2 ≤ f ∧ f ≤ (iso.Bitmap.length : Int) ∧
      (iso.Bitmap[(f - 1).toNat]? ≠ some 1 → mapGet iso.Elements.elements f = []))

/-- The number of raw bytes that a packed fixed-length field of `max_length = n`
takes, in the words of the Scalar Field Codec: `ceil(n/2)`, doubled when the
content kind is chip-tag. -/
def packedBytes (n : Int) (contain : String) : Int :=
  if contain = "chip-tag" then ceilHalf n * 2 else ceilHalf n

/-- A registry whose message type is transmitted packed and whose bitmap is
transmitted as text; it describes no data field. -/
def mixedFlagSpecPacked : Spec :=
  ⟨[(0, ⟨"fixed", true, 4, "numeric"⟩), (1, ⟨"fixed", false, 16, "binary"⟩)]⟩

/-- The message of type `0200` with an empty 64-bit bitmap, no field and no
transport header, over the given registry. -/
def emptyMessage (spec : Spec) : IsoStruct :=
  { Spec := spec, Mti := { mti := str "0200" }, Bitmap := bitsOfFields 64 [],
    Elements := { elements := [] }, Tpdu := [] }

/-- A packed-hex registry in which field 2 is a packed field with a three-digit
length prefix. -/
def lllvarSpec : Spec :=
  ⟨[(0, ⟨"fixed", true, 4, "numeric"⟩), (1, ⟨"fixed", true, 16, "binary"⟩),
    (2, ⟨"lllvar", true, 999, "binary"⟩)]⟩

/-- A message over `lllvarSpec` whose field 2 holds the hex text `abcd`. -/
def lllvarMessage : IsoStruct :=
  { Spec := lllvarSpec, Mti := { mti := str "0200" }, Bitmap := bitsOfFields 64 [2],
    Elements := { elements := [(2, str "abcd")] }, Tpdu := [] }

/-- A descriptor whose length kind is one of `fixed`, `llvar`, `lllvar` and
`llllvar`.  A field number the registry does not hold has the zero descriptor,
whose length kind is the empty text. -/
def KnownKind (fd : FieldDescription) : Prop :=
  fd.LenType = "fixed" ∨ fd.LenType = "llvar" ∨ fd.LenType = "lllvar" ∨ fd.LenType = "llllvar"

/-- The field numbers that a bitmap marks, in ascending order: the numbers
`i + 1` of the set positions `i` between 1 and the last position. -/
def presentFields (bitmap : List Int) : List Int :=
  ((List.range bitmap.length).filter
    (fun i => decide (1 ≤ i) && decide (bitmap[i]? = some 1))).map
    (fun (i : Nat) => (i : Int) + 1)

/-- The field numbers that the loops of `packElements` and `unpackElements`
visit on the bits `bits`, the first of which is the bitmap position `index`. -/
def fieldsFrom : List Int → Nat → List Int
  | [], _ => []
  | bit :: rest, index =>
    if bit = 1 then ((index : Int) + 1) :: fieldsFrom rest (index + 1)
    else fieldsFrom rest (index + 1)

/-- An ASCII registry in which field 2 is a text field with a two-digit length
prefix and field 4 a fixed-length text field of 3 characters; field 3 has no
descriptor. -/
def llvarTextSpec : Spec :=
  ⟨[(0, ⟨"fixed", false, 4, "numeric"⟩), (1, ⟨"fixed", false, 16, "binary"⟩),
    (2, ⟨"llvar", false, 99, "numeric"⟩), (4, ⟨"fixed", false, 3, "string"⟩)]⟩

/-- A message over `llvarTextSpec` that holds field 2 and field 4. -/
def llvarTextMessage : IsoStruct :=
  { Spec := llvarTextSpec, Mti := { mti := str "0200" }, Bitmap := bitsOfFields 64 [2, 4],
    Elements := { elements := [(4, str "abc"), (2, str "hello")] }, Tpdu := [] }

/-- A text of one or more decimal digits, the spec's non-negative decimal
integer. -/
def isDecimal (t : GoString) : Bool := !t.isEmpty && t.all isDigit

/-- The number that a text of decimal digits denotes. -/
def decimalValue (t : GoString) : Nat := t.foldl (fun acc c => acc * 10 + (c.val - 48)) 0

/-- A text without its leading sign character, if it has one. -/
def unsigned (t : GoString) : GoString :=
  match t with
  | [] => []
  | c :: cs => if c = charByte '+' ∨ c = charByte '-' then cs else c :: cs

/-- The number of units that the length prefix of a field of prefix width `w`
takes on the wire: `w` characters for a text field, `ceil(w/2)` raw bytes for
a packed field. -/
def prefixUnits (fd : FieldDescription) (w : Int) : Nat :=
  if fd.HeaderHex then (ceilHalf w).toNat else w.toNat

/-- The prefix text of a length-prefixed field at the head of the payload `s`:
the first `w` characters, or the hex-digit text of the first `ceil(w/2)` raw
bytes when the field is packed. -/
def prefixText (fd : FieldDescription) (w : Int) (s : GoString) : GoString :=
  if fd.HeaderHex then hex.EncodeToString (s.take (prefixUnits fd w))
  else s.take (prefixUnits fd w)

/-- The receiver of a call holds after the call what it held before it:
registry, MTI, bitmap, element table and transport header. -/
def Unchanged (before after : IsoStruct) : Prop :=
  after.Spec = before.Spec ∧ after.Mti = before.Mti ∧ after.Bitmap = before.Bitmap ∧
    after.Elements = before.Elements ∧ after.Tpdu = before.Tpdu

/-- The transport header that `Parse` takes off the input: the first 5 bytes
when `useTpdu` is set and the input has them, the empty header otherwise. -/
def headerOf (i : GoString) (useTpdu : Bool) : GoString :=
  if useTpdu = true ∧ 5 ≤ i.length then i.take 5 else []

/-- Whether a text is an even-length string of hex digits. -/
def isHexText (v : GoString) : Bool :=
  decide (v.length % 2 = 0) && v.all (fun c => (fromHexChar c).isSome)

/-- The length that `max_length` prescribes for the stored text of a
fixed-length field: `max_length` characters for a text field, two hex digits
for each raw byte of a packed field. -/
def fixedTextLength (fd : FieldDescription) : Int :=
  if fd.HeaderHex then 2 * packedBytes fd.MaxLen fd.Contain else fd.MaxLen

/-- A stored value that conforms to its descriptor: the value of a packed-hex
field is an even-length string of hex digits, and the value of a fixed-length
field has the length that `max_length` prescribes. -/
def Conforms (fd : FieldDescription) (v : GoString) : Prop :=
  (fd.HeaderHex = true → isHexText v = true) ∧
  (fd.LenType = "fixed" → (v.length : Int) = fixedTextLength fd)

/-- What one turn of the loop of `packElements` appends for a present field
with descriptor `fd` and stored value `v`: the value itself for a text field,
and for a packed field the bytes that `hex.DecodeString` returns for the value
(with the padded length in front of it when the field is length-prefixed),
its error dropped. -/
def packField (fd : FieldDescription) (v : GoString) : GoString :=
  if fd.HeaderHex then
    if fd.LenType = "fixed" then (hex.DecodeString v).1
    else
      match getVariableLengthFromString fd.LenType with
      | .ok w =>
        (hex.DecodeString (leftPad (strconv.Itoa (v.length : Int)) w (charByte '0') ++ v)).1
      | .error _ => []
  else v

/-- A message built over the registry of scenario A whose fixed-length text
field 3 (6 characters) holds 8 characters. -/
def badLengthMessage : IsoStruct :=
  runOps (NewISOStruct scenarioASpec false) [Op.addMTI (str "0200"), Op.addField 3 (str "12345678")]

/-- A message built over the registry of scenario B whose packed field 3 holds
a text that is not hex digits throughout. -/
def badHexMessage : IsoStruct :=
  runOps (NewISOStruct scenarioBSpec false) [Op.addMTI (str "0800"), Op.addField 3 (str "12zz56")]

/-- The message `IsoStruct{Bitmap: make([]int64, 64)}`, written as a literal
in place of a call of `NewISOStruct`: every other field has Go's zero value,
so the element table is the nil map. -/
def nilTableMessage : IsoStruct :=
  { Spec := ⟨[]⟩, Mti := { mti := [] }, Bitmap := List.replicate 64 0,
    Elements := { elements := [], isNil := true }, Tpdu := [] }

/-! # Theorems -/

/-! ## Facts about Go maps -/

theorem lookup_mapDelete (m : List (Int × GoString)) (k k2 : Int) :
    (mapDelete m k).lookup k2 = if k2 = k then none else m.lookup k2 := by
  induction m with
  | nil => simp [mapDelete]
  | cons e m ih =>
    obtain ⟨a, v⟩ := e
    by_cases hak : a = k
    · subst hak
      by_cases h2 : k2 = a
      · rw [mapDelete, if_pos rfl, ih, if_pos h2, if_pos h2]
      · have hb : (k2 == a) = false := by simpa using h2
        simp [mapDelete, ih, h2, List.lookup_cons, hb]
    · by_cases h3 : k2 = a
      · subst h3
        have h4 : ¬ k2 = k := hak
        simp [mapDelete, hak, List.lookup_cons]
      · have hb : (k2 == a) = false := by simpa using h3
        simp [mapDelete, hak, List.lookup_cons, hb, ih]

theorem mapGet_mapSet (m : List (Int × GoString)) (k k2 : Int) (v : GoString) :
    mapGet (mapSet m k v) k2 = if k2 = k then v else mapGet m k2 := by
  unfold mapGet mapSet
  by_cases h : k2 = k
  · subst h
    simp [List.lookup_cons]
  · have hb : (k2 == k) = false := by simpa using h
    simp [List.lookup_cons, hb, lookup_mapDelete, h]

theorem mapHas_mapSet (m : List (Int × GoString)) (k k2 : Int) (v : GoString) :
    mapHas (mapSet m k v) k2 = (decide (k2 = k) || mapHas m k2) := by
  unfold mapHas mapSet
  by_cases h : k2 = k
  · subst h
    simp [List.lookup_cons]
  · have hb : (k2 == k) = false := by simpa using h
    simp [List.lookup_cons, hb, lookup_mapDelete, h]

/-! ## The mutators -/

theorem AddField_allocated (iso : IsoStruct) (field : Int) (data : GoString)
    (hmap : iso.Elements.isNil = false) :
    iso.AddField field data
      = if field < 2 ∨ field > (iso.Bitmap.length : Int) then (iso, .error .err)
        else
          ({ iso with
              Bitmap := iso.Bitmap.set (field - 1).toNat 1
              Elements := { elements := mapSet iso.Elements.elements field data } }, .ok ()) := by
  unfold IsoStruct.AddField
  simp only [hmap, Bool.false_eq_true, if_false]

theorem RemoveField_allocated (iso : IsoStruct) (field : Int)
    (hmap : iso.Elements.isNil = false) :
    iso.RemoveField field
      = if field < 2 ∨ field > (iso.Bitmap.length : Int) then (iso, .error .err)
        else
          ({ iso with
              Bitmap := iso.Bitmap.set (field - 1).toNat 0
              Elements := { elements := mapSet iso.Elements.elements field [] } }, .ok ()) := by
  unfold IsoStruct.RemoveField
  simp only [hmap, Bool.false_eq_true, if_false]

theorem AddField_fst_isNil (iso : IsoStruct) (field : Int) (data : GoString) :
    (iso.AddField field data).1.Elements.isNil = iso.Elements.isNil := by
  unfold IsoStruct.AddField
  split
  · rfl
  · split
    · rfl
    · rename_i h
      simpa using h

theorem RemoveField_fst_isNil (iso : IsoStruct) (field : Int) :
    (iso.RemoveField field).1.Elements.isNil = iso.Elements.isNil := by
  unfold IsoStruct.RemoveField
  split
  · rfl
  · split
    · rfl
    · rename_i h
      simpa using h

theorem AddField_fst_length (iso : IsoStruct) (field : Int) (data : GoString) :
    (iso.AddField field data).1.Bitmap.length = iso.Bitmap.length := by
  unfold IsoStruct.AddField
  split
  · rfl
  · split <;> simp

theorem RemoveField_fst_length (iso : IsoStruct) (field : Int) :
    (iso.RemoveField field).1.Bitmap.length = iso.Bitmap.length := by
  unfold IsoStruct.RemoveField
  split
  · rfl
  · split <;> simp

theorem AddMTI_fst_Bitmap (iso : IsoStruct) (data : GoString) :
    (iso.AddMTI data).1.Bitmap = iso.Bitmap := by
  unfold IsoStruct.AddMTI
  dsimp only
  cases MtiValidator { mti := data } <;> rfl

theorem AddMTI_fst_Elements (iso : IsoStruct) (data : GoString) :
    (iso.AddMTI data).1.Elements = iso.Elements := by
  unfold IsoStruct.AddMTI
  dsimp only
  cases MtiValidator { mti := data } <;> rfl

/-- C5 (as the claim states it, refuted): on the message
`IsoStruct{Bitmap: make([]int64, 64)}`, whose element table is the nil map,
`AddField(3, "x")` with the index 3 inside `2 .. 64` neither succeeds nor
returns: it sets bit 2 and panics on the map assignment, so the call fails on
an index in range and the message is not as it was. -/
theorem AddField_nil_table :
    nilTableMessage.Elements.isNil = true ∧
    ¬ ((3 : Int) < 2 ∨ (3 : Int) > (nilTableMessage.Bitmap.length : Int)) ∧
    (nilTableMessage.AddField 3 (str "x")).2 = .error .panic ∧
    (nilTableMessage.AddField 3 (str "x")).2 ≠ .ok () ∧
    nilTableMessage.Bitmap[2]? = some 0 ∧
    (nilTableMessage.AddField 3 (str "x")).1.Bitmap[2]? = some 1 ∧
    (nilTableMessage.AddField 3 (str "x")).1 ≠ nilTableMessage := by
  decide

/-- C5 (amended): on a message whose element table is allocated (every message
that `NewISOStruct` or `Parse` returns), `AddField(field, data)` returns an
error exactly when `field < 2` or `field > len(Bitmap)`; a failing call leaves
the message as it was; a succeeding call leaves bit `field-1` equal to 1 and
the element table mapping `field` to `data`. -/
theorem AddField_range (iso : IsoStruct) (field : Int) (data : GoString)
    (hmap : iso.Elements.isNil = false) :
    ((iso.AddField field data).2 ≠ .ok () ↔ (field < 2 ∨ field > (iso.Bitmap.length : Int))) ∧
    ((iso.AddField field data).2 ≠ .ok () →
      (iso.AddField field data).2 = .error .err ∧ (iso.AddField field data).1 = iso) ∧
    ((iso.AddField field data).2 = .ok () →
      (iso.AddField field data).1.Bitmap[(field - 1).toNat]? = some 1 ∧
      mapHas (iso.AddField field data).1.Elements.elements field = true ∧
      mapGet (iso.AddField field data).1.Elements.elements field = data) := by
  rw [AddField_allocated iso field data hmap]
  by_cases h : field < 2 ∨ field > (iso.Bitmap.length : Int)
  · simp [h]
  · have hlt : (field - 1).toNat < iso.Bitmap.length := by omega
    have hlt2 : field.toNat - 1 < iso.Bitmap.length := by omega
    simp [h, mapGet_mapSet, mapHas_mapSet, List.getElem?_set, hlt2]

/-- C6 (as the claim states it, refuted): on the message
`IsoStruct{Bitmap: make([]int64, 64)}`, whose element table is the nil map,
and the index 3 inside `2 .. 64`, `AddField(3, "x")` does not succeed, and
neither does `RemoveField(3)` on the message it leaves: each writes its bit
and panics on the map assignment. -/
theorem RemoveField_nil_table :
    nilTableMessage.Elements.isNil = true ∧
    ((2 : Int) ≤ 3 ∧ (3 : Int) ≤ (nilTableMessage.Bitmap.length : Int)) ∧
    (nilTableMessage.AddField 3 (str "x")).2 = .error .panic ∧
    ((nilTableMessage.AddField 3 (str "x")).1.RemoveField 3).2 = .error .panic ∧
    (nilTableMessage.RemoveField 3).2 = .error .panic := by
  decide

/-- C6 (amended): on a message whose element table is allocated (every message
that `NewISOStruct` or `Parse` returns) and for a valid index `i`,
`AddField(i, v)` followed by `RemoveField(i)` both succeed and leave bit `i-1`
equal to 0 and the stored value of field `i` equal to the empty text;
`RemoveField` returns an error on exactly the indices on which `AddField`
does, those outside `2 .. len(Bitmap)`. -/
theorem RemoveField_after_AddField (iso : IsoStruct) (i : Int) (v : GoString)
    (hmap : iso.Elements.isNil = false) :
    (2 ≤ i ∧ i ≤ (iso.Bitmap.length : Int) →
      (iso.AddField i v).2 = .ok () ∧
      ((iso.AddField i v).1.RemoveField i).2 = .ok () ∧
      ((iso.AddField i v).1.RemoveField i).1.Bitmap[(i - 1).toNat]? = some 0 ∧
      mapGet ((iso.AddField i v).1.RemoveField i).1.Elements.elements i = []) ∧
    ((iso.RemoveField i).2 ≠ .ok () ↔ (i < 2 ∨ i > (iso.Bitmap.length : Int))) ∧
    ((iso.RemoveField i).2 ≠ .ok () ↔ (iso.AddField i v).2 ≠ .ok ()) := by
  have hmap2 : (iso.AddField i v).1.Elements.isNil = false := by
    rw [AddField_fst_isNil, hmap]
  rw [RemoveField_allocated _ i hmap2, RemoveField_allocated iso i hmap,
    AddField_allocated iso i v hmap]
  refine ⟨?_, ?_, ?_⟩
  · intro h
    have hn : ¬ (i < 2 ∨ i > (iso.Bitmap.length : Int)) := by omega
    have hlt : (i - 1).toNat < iso.Bitmap.length := by omega
    have hlt2 : i.toNat - 1 < iso.Bitmap.length := by omega
    simp [hn, mapGet_mapSet, List.getElem?_set, hlt2]
  · by_cases h : i < 2 ∨ i > (iso.Bitmap.length : Int) <;> simp [h]
  · by_cases h : i < 2 ∨ i > (iso.Bitmap.length : Int) <;> simp [h]

/-- A witness of `AddField_range`: field 3 on a fresh message, and the rejected
indices 1 and 65. -/
theorem AddField_range_witness :
    ((NewISOStruct ⟨[]⟩ false).AddField 3 (str "000010")).2 = .ok () ∧
    ((NewISOStruct ⟨[]⟩ false).AddField 3 (str "000010")).1.Bitmap[(3 - 1 : Int).toNat]? = some 1 ∧
    mapGet ((NewISOStruct ⟨[]⟩ false).AddField 3 (str "000010")).1.Elements.elements 3
      = str "000010" ∧
    ((NewISOStruct ⟨[]⟩ false).AddField 1 (str "x")).1 = NewISOStruct ⟨[]⟩ false ∧
    ((NewISOStruct ⟨[]⟩ false).AddField 65 (str "x")).1 = NewISOStruct ⟨[]⟩ false :=
  ⟨by decide,
   ((AddField_range (NewISOStruct ⟨[]⟩ false) 3 (str "000010") rfl).2.2 (by decide)).1,
   ((AddField_range (NewISOStruct ⟨[]⟩ false) 3 (str "000010") rfl).2.2 (by decide)).2.2,
   ((AddField_range (NewISOStruct ⟨[]⟩ false) 1 (str "x") rfl).2.1 (by decide)).2,
   ((AddField_range (NewISOStruct ⟨[]⟩ false) 65 (str "x") rfl).2.1 (by decide)).2⟩

/-- A witness of `RemoveField_after_AddField`: field 3 set and cleared on a
fresh message. -/
theorem RemoveField_after_AddField_witness :
    (((NewISOStruct ⟨[]⟩ false).AddField 3 (str "000010")).1.RemoveField 3).2 = .ok () ∧
    (((NewISOStruct ⟨[]⟩ false).AddField 3 (str "000010")).1.RemoveField 3).1.Bitmap[
      (3 - 1 : Int).toNat]? = some 0 ∧
    mapGet (((NewISOStruct ⟨[]⟩ false).AddField 3 (str "000010")).1.RemoveField
      3).1.Elements.elements 3 = [] :=
  ((RemoveField_after_AddField (NewISOStruct ⟨[]⟩ false) 3 (str "000010") rfl).1
    (by decide)).2

theorem applyOp_length (iso : IsoStruct) (op : Op) :
    (applyOp iso op).Bitmap.length = iso.Bitmap.length := by
  cases op with
  | addMTI data => simp [applyOp, AddMTI_fst_Bitmap]
  | addField field data => simp [applyOp, AddField_fst_length]
  | removeField field => simp [applyOp, RemoveField_fst_length]

theorem applyOp_bit0 (iso : IsoStruct) (op : Op) :
    (applyOp iso op).Bitmap[0]? = iso.Bitmap[0]? := by
  cases op with
  | addMTI data => simp [applyOp, AddMTI_fst_Bitmap]
  | addField field data =>
    simp only [applyOp, IsoStruct.AddField]
    split
    · rfl
    · rename_i h
      have hne : field.toNat - 1 ≠ 0 := by omega
      split <;> simp [List.getElem?_set, hne]
  | removeField field =>
    simp only [applyOp, IsoStruct.RemoveField]
    split
    · rfl
    · rename_i h
      have hne : field.toNat - 1 ≠ 0 := by omega
      split <;> simp [List.getElem?_set, hne]

theorem runOps_length (ops : List Op) (iso : IsoStruct) :
    (runOps iso ops).Bitmap.length = iso.Bitmap.length := by
  induction ops generalizing iso with
  | nil => rfl
  | cons op ops ih =>
    show (runOps (applyOp iso op) ops).Bitmap.length = _
    rw [ih, applyOp_length]

theorem runOps_bit0 (ops : List Op) (iso : IsoStruct) :
    (runOps iso ops).Bitmap[0]? = iso.Bitmap[0]? := by
  induction ops generalizing iso with
  | nil => rfl
  | cons op ops ih =>
    show (runOps (applyOp iso op) ops).Bitmap[0]? = _
    rw [ih, applyOp_bit0]

/-- C8: `NewISOStruct(_, secondary)` yields a bitmap of 64 zero bits, or of 128
bits of which only bit 0 is set when `secondary` is true, an empty element
table and an empty MTI; every sequence of `AddMTI`/`AddField`/`RemoveField`
calls keeps the bitmap length and bit 0 of any message, so that in a message
built from `NewISOStruct` the length is 128 exactly when position 0 is set, and
64 otherwise. -/
theorem NewISOStruct_bitmap_shape (spec : Spec) (secondaryBitmap : Bool) (ops : List Op) :
    (NewISOStruct spec secondaryBitmap).Bitmap
      = (if secondaryBitmap then (1 : Int) :: List.replicate 127 0 else List.replicate 64 0) ∧
    (NewISOStruct spec secondaryBitmap).Elements.elements = [] ∧
    (NewISOStruct spec secondaryBitmap).Mti.String = [] ∧
    (∀ iso : IsoStruct, (runOps iso ops).Bitmap.length = iso.Bitmap.length ∧
      (runOps iso ops).Bitmap[0]? = iso.Bitmap[0]?) ∧
    ((runOps (NewISOStruct spec secondaryBitmap) ops).Bitmap.length
      = if secondaryBitmap then 128 else 64) ∧
    ((runOps (NewISOStruct spec secondaryBitmap) ops).Bitmap.length = 128 ↔
      (runOps (NewISOStruct spec secondaryBitmap) ops).Bitmap[0]? = some 1) := by
  have hb : (NewISOStruct spec secondaryBitmap).Bitmap
      = (if secondaryBitmap then (1 : Int) :: List.replicate 127 0 else List.replicate 64 0) := by
    cases secondaryBitmap <;> rfl
  refine ⟨hb, rfl, rfl, fun iso => ⟨runOps_length ops iso, runOps_bit0 ops iso⟩, ?_, ?_⟩
  · rw [runOps_length, hb]
    cases secondaryBitmap <;> simp
  · rw [runOps_length, runOps_bit0, hb]
    cases secondaryBitmap <;> simp

/-! ## What a successful `Parse` went through -/

/-- The header and the message text that `Parse` works on. -/
theorem Parse_ok (iso : IsoStruct) (i : GoString) (useTpdu : Bool) (p : IsoStruct)
    (h : (iso.Parse i useTpdu).2 = .ok p) :
    ∃ tpdu msg bitmap elementString m,
      (tpdu, msg) = (if useTpdu then
          (match extractTpdu i with
            | .ok (t, r) => (t, r)
            | .error _ => (([] : GoString), ([] : GoString)))
        else (([] : GoString), i)) ∧
      extractBitmap (extractMTI msg (iso.Spec.field 0).HeaderHex).2 (iso.Spec.field 1).HeaderHex
        = .ok (bitmap, elementString) ∧
      (∃ b, MtiValidator (extractMTI msg (iso.Spec.field 0).HeaderHex).1 = .ok b) ∧
      unpackLoop iso.Spec (bitmap.drop 1) 1 elementString [] = .ok m ∧
      p = { Spec := iso.Spec, Mti := (extractMTI msg (iso.Spec.field 0).HeaderHex).1,
            Bitmap := bitmap, Elements := { elements := m }, Tpdu := tpdu } := by
  unfold IsoStruct.Parse at h
  dsimp only at h
  split at h
  · cases h
  · rename_i bitmap elementString hb
    split at h
    · cases h
    · rename_i b hv
      unfold unpackElements at h
      split at h
      · cases h
      · rename_i elements hu
        split at hu
        · rename_i m hm
          cases hu
          cases h
          exact ⟨_, _, bitmap, elementString, m, rfl, hb, ⟨b, hv⟩, hm, rfl⟩
        · cases hu

theorem NewISOStruct_allocated (spec : Spec) (secondaryBitmap : Bool) :
    (NewISOStruct spec secondaryBitmap).Elements.isNil = false := rfl

theorem Parse_allocated (iso : IsoStruct) (i : GoString) (useTpdu : Bool) (p : IsoStruct)
    (h : (iso.Parse i useTpdu).2 = .ok p) : p.Elements.isNil = false := by
  obtain ⟨tpdu, msg, bitmap, elementString, m, -, -, -, -, rfl⟩ := Parse_ok iso i useTpdu p h
  rfl

/-! ## Keys of the element table and bits of the bitmap -/

theorem unpackLoop_mapHas (spec : Spec) (bits : List Int) :
    ∀ (index : Nat) (cur : GoString) (m m2 : List (Int × GoString)),
      unpackLoop spec bits index cur m = .ok m2 →
      ∀ f : Int, mapHas m2 f = true ↔
        (mapHas m f = true ∨ ∃ j : Nat, bits[j]? = some 1 ∧ f = (index : Int) + j + 1) := by
  induction bits with
  | nil =>
    intro index cur m m2 h f
    simp only [unpackLoop, Except.ok.injEq] at h
    subst h
    simp
  | cons bit rest ih =>
    intro index cur m m2 h f
    rw [unpackLoop] at h
    split at h
    · rename_i hbit
      dsimp only at h
      split at h
      · rename_i v substr hx
        rw [ih (index + 1) substr _ m2 h f, mapHas_mapSet]
        constructor
        · rintro (h1 | ⟨j, hj, hf⟩)
          · simp only [Bool.or_eq_true, decide_eq_true_eq] at h1
            rcases h1 with h1 | h1
            · exact Or.inr ⟨0, by simp [hbit], by simp [h1]⟩
            · exact Or.inl h1
          · exact Or.inr ⟨j + 1, by simpa using hj, by push_cast at hf ⊢; omega⟩
        · rintro (h1 | ⟨j, hj, hf⟩)
          · exact Or.inl (by simp [h1])
          · cases j with
            | zero => exact Or.inl (by simp at hf; simp [hf])
            | succ j =>
              exact Or.inr ⟨j, by simpa using hj, by push_cast at hf ⊢; omega⟩
      · cases h
    · rename_i hbit
      rw [ih (index + 1) cur m m2 h f]
      constructor
      · rintro (h1 | ⟨j, hj, hf⟩)
        · exact Or.inl h1
        · exact Or.inr ⟨j + 1, by simpa using hj, by push_cast at hf ⊢; omega⟩
      · rintro (h1 | ⟨j, hj, hf⟩)
        · exact Or.inl h1
        · cases j with
          | zero => simp at hj; exact absurd hj hbit
          | succ j => exact Or.inr ⟨j, by simpa using hj, by push_cast at hf ⊢; omega⟩

theorem Parse_keys (iso : IsoStruct) (i : GoString) (useTpdu : Bool) (p : IsoStruct)
    (h : (iso.Parse i useTpdu).2 = .ok p) (f : Int) :
    mapHas p.Elements.elements f = true ↔ (2 ≤ f ∧ p.Bitmap[(f - 1).toNat]? = some 1) := by
  obtain ⟨tpdu, msg, bitmap, elementString, m, -, -, -, hm, rfl⟩ := Parse_ok iso i useTpdu p h
  rw [unpackLoop_mapHas _ _ _ _ _ _ hm f]
  simp only [mapHas, List.lookup_nil, Option.isSome_none, Bool.false_eq_true, false_or]
  constructor
  · rintro ⟨j, hj, hf⟩
    refine ⟨by omega, ?_⟩
    have : (f - 1).toNat = 1 + j := by omega
    rw [this]
    rw [List.getElem?_drop] at hj
    exact hj
  · rintro ⟨h2, hb⟩
    refine ⟨(f - 2).toNat, ?_, by omega⟩
    have : (f - 1).toNat = 1 + (f - 2).toNat := by omega
    rw [this] at hb
    rw [List.getElem?_drop]
    exact hb

theorem replicate_zero_getElem? (n k : Nat) : (List.replicate n (0 : Int))[k]? ≠ some 1 := by
  rw [List.getElem?_replicate]
  split <;> simp

theorem NewISOStruct_blanked (spec : Spec) (secondaryBitmap : Bool) :
    BlankedLockStep (NewISOStruct spec secondaryBitmap) := by
  intro f
  constructor
  · intro h2 hb
    exfalso
    have hne : (f - 1).toNat ≠ 0 := by omega
    cases secondaryBitmap
    · exact replicate_zero_getElem? 64 _ hb
    · have hset : (NewISOStruct spec true).Bitmap = (List.replicate 128 (0 : Int)).set 0 1 := rfl
      rw [hset, List.getElem?_set_ne (Ne.symm hne)] at hb
      exact replicate_zero_getElem? 128 _ hb
  · intro h
    simp [NewISOStruct, mapHas] at h

theorem applyOp_isNil (iso : IsoStruct) (op : Op) :
    (applyOp iso op).Elements.isNil = iso.Elements.isNil := by
  cases op with
  | addMTI data => simp only [applyOp, AddMTI_fst_Elements]
  | addField field data => exact AddField_fst_isNil iso field data
  | removeField field => exact RemoveField_fst_isNil iso field

theorem runOps_isNil (ops : List Op) (iso : IsoStruct) :
    (runOps iso ops).Elements.isNil = iso.Elements.isNil := by
  induction ops generalizing iso with
  | nil => rfl
  | cons op ops ih =>
    show (runOps (applyOp iso op) ops).Elements.isNil = _
    rw [ih, applyOp_isNil]

theorem applyOp_blanked (iso : IsoStruct) (op : Op) (hmap : iso.Elements.isNil = false)
    (hi : BlankedLockStep iso) : BlankedLockStep (applyOp iso op) := by
  cases op with
  | addMTI data =>
    intro f
    simp only [applyOp, AddMTI_fst_Bitmap, AddMTI_fst_Elements]
    exact hi f
  | addField field data =>
    simp only [applyOp, AddField_allocated iso field data hmap]
    split
    · exact hi
    · rename_i hr
      intro f
      have hlt : (field - 1).toNat < iso.Bitmap.length := by omega
      by_cases hf : f = field
      · subst hf
        simp [mapHas_mapSet, List.getElem?_set, hlt]
        omega
      · have hkey : mapHas (mapSet iso.Elements.elements field data) f
            = mapHas iso.Elements.elements f := by simp [mapHas_mapSet, hf]
        have hget : mapGet (mapSet iso.Elements.elements field data) f
            = mapGet iso.Elements.elements f := by simp [mapGet_mapSet, hf]
        dsimp only
        rw [hkey, hget, List.length_set]
        constructor
        · intro h2 hb
          have hne : (field - 1).toNat ≠ (f - 1).toNat := by omega
          rw [List.getElem?_set_ne hne] at hb
          exact (hi f).1 h2 hb
        · intro hk
          obtain ⟨h2, hl, hv⟩ := (hi f).2 hk
          have hne : (field - 1).toNat ≠ (f - 1).toNat := by omega
          rw [List.getElem?_set_ne hne]
          exact ⟨h2, hl, hv⟩
  | removeField field =>
    simp only [applyOp, RemoveField_allocated iso field hmap]
    split
    · exact hi
    · rename_i hr
      intro f
      have hlt : (field - 1).toNat < iso.Bitmap.length := by omega
      by_cases hf : f = field
      · subst hf
        simp [mapHas_mapSet, mapGet_mapSet, List.getElem?_set, hlt]
        omega
      · have hkey : mapHas (mapSet iso.Elements.elements field []) f
            = mapHas iso.Elements.elements f := by simp [mapHas_mapSet, hf]
        have hget : mapGet (mapSet iso.Elements.elements field []) f
            = mapGet iso.Elements.elements f := by simp [mapGet_mapSet, hf]
        dsimp only
        rw [hkey, hget, List.length_set]
        constructor
        · intro h2 hb
          have hne : (field - 1).toNat ≠ (f - 1).toNat := by omega
          rw [List.getElem?_set_ne hne] at hb
          exact (hi f).1 h2 hb
        · intro hk
          obtain ⟨h2, hl, hv⟩ := (hi f).2 hk
          have hne : (field - 1).toNat ≠ (f - 1).toNat := by omega
          rw [List.getElem?_set_ne hne]
          exact ⟨h2, hl, hv⟩

theorem runOps_blanked (ops : List Op) (iso : IsoStruct) (hmap : iso.Elements.isNil = false)
    (hi : BlankedLockStep iso) : BlankedLockStep (runOps iso ops) := by
  induction ops generalizing iso with
  | nil => exact hi
  | cons op ops ih =>
    exact ih (applyOp iso op) (by rw [applyOp_isNil, hmap]) (applyOp_blanked iso op hmap hi)

/-- C7 (as the claim states it, refuted): after `AddField(3, "000010")` and
`RemoveField(3)` on a fresh message the element table still has the key 3
while bitmap position 2 is clear. -/
theorem LockStep_fails_after_RemoveField :
    ¬ LockStep (runOps (NewISOStruct ⟨[]⟩ false)
      [Op.addField 3 (str "000010"), Op.removeField 3]) := by
  intro h
  have h3 := (h 3 (by decide)).1 (by decide)
  revert h3
  decide

/-- C7 (amended): in every message reachable from `NewISOStruct` by `AddMTI`,
`AddField` and `RemoveField` calls, a set bitmap position `f-1` (`f ≥ 2`) has
its key `f` in the element table, every key is a field number between 2 and the
bitmap length, and a key whose position is not set holds the empty text; in
every message returned by a successful `Parse` the element table has a key for
`f` if and only if `f ≥ 2` and bitmap position `f-1` is set. -/
theorem LockStep_amended (spec : Spec) (secondaryBitmap : Bool) (ops : List Op)
    (iso : IsoStruct) (i : GoString) (useTpdu : Bool) :
    BlankedLockStep (runOps (NewISOStruct spec secondaryBitmap) ops) ∧
    (∀ p, (iso.Parse i useTpdu).2 = .ok p → LockStep p ∧
      ∀ f : Int, mapHas p.Elements.elements f = true → 2 ≤ f) := by
  refine ⟨runOps_blanked ops _ rfl (NewISOStruct_blanked spec secondaryBitmap), ?_⟩
  intro p hp
  constructor
  · intro f h2
    rw [Parse_keys iso i useTpdu p hp f]
    simp [h2]
  · intro f hf
    exact ((Parse_keys iso i useTpdu p hp f).1 hf).1

/-! ## Hex text -/

theorem fromHexChar_lt (c : Byte) (n : Nat) (h : fromHexChar c = some n) : n < 16 := by
  unfold fromHexChar at h
  split at h
  · simp at h; omega
  · split at h
    · simp at h; omega
    · split at h
      · simp at h; omega
      · cases h

theorem fromHexChar_hexDigit (n : Nat) (h : n < 16) : fromHexChar (hexDigit n) = some n := by
  interval_cases n <;> decide

theorem ofNat_div_mod (b : Byte) : (Fin.ofNat (b.val / 16 * 16 + b.val % 16) : Byte) = b := by
  apply Fin.ext
  have : b.val / 16 * 16 + b.val % 16 = b.val := by omega
  rw [this]
  show b.val % 256 = b.val
  exact Nat.mod_eq_of_lt b.isLt

theorem DecodeString_EncodeToString (bs : GoString) :
    hex.DecodeString (hex.EncodeToString bs) = (bs, false) := by
  induction bs with
  | nil => rfl
  | cons b bs ih =>
    have h1 : b.val / 16 < 16 := by have := b.isLt; omega
    have h2 : b.val % 16 < 16 := by omega
    simp only [hex.EncodeToString, hex.DecodeString, fromHexChar_hexDigit _ h1,
      fromHexChar_hexDigit _ h2, ih, ofNat_div_mod]

theorem EncodeToString_length (bs : GoString) :
    (hex.EncodeToString bs).length = 2 * bs.length := by
  induction bs with
  | nil => rfl
  | cons b bs ih => simp only [hex.EncodeToString, List.length_cons, ih]; omega

set_option maxRecDepth 100000 in
theorem fmtSprintf8b_head (v : Byte) :
    ((fmtSprintf8b v).head? = some (charByte '1')) ↔ 128 ≤ v.val := by
  revert v
  decide

/-! ## The bitmap codec -/

theorem sliceTo_ok (s : GoString) (hi : Int) (t : GoString) (h : sliceTo s hi = .ok t) :
    0 ≤ hi ∧ hi ≤ (s.length : Int) ∧ t = s.take hi.toNat := by
  unfold sliceTo at h
  split at h
  · rename_i hc
    simp only [Except.ok.injEq] at h
    exact ⟨hc.1, hc.2, h.symm⟩
  · cases h

theorem sliceFrom_ok (s : GoString) (lo : Int) (t : GoString) (h : sliceFrom s lo = .ok t) :
    0 ≤ lo ∧ lo ≤ (s.length : Int) ∧ t = s.drop lo.toNat := by
  unfold sliceFrom at h
  split at h
  · rename_i hc
    simp only [Except.ok.injEq] at h
    exact ⟨hc.1, hc.2, h.symm⟩
  · cases h

theorem sliceTo_of_le (s : GoString) (n : Nat) (h : n ≤ s.length) :
    sliceTo s (n : Int) = .ok (s.take n) := by
  unfold sliceTo
  have : (0 : Int) ≤ (n : Int) ∧ (n : Int) ≤ (s.length : Int) := by omega
  rw [if_pos this]
  simp

theorem sliceFrom_of_le (s : GoString) (n : Nat) (h : n ≤ s.length) :
    sliceFrom s (n : Int) = .ok (s.drop n) := by
  unfold sliceFrom
  have : (0 : Int) ≤ (n : Int) ∧ (n : Int) ≤ (s.length : Int) := by omega
  rw [if_pos this]
  simp

theorem HexToBitmapArray_length (s : GoString) :
    ∀ bits, HexToBitmapArray s = .ok bits → bits.length = 4 * s.length := by
  induction s with
  | nil =>
    intro bits h
    simp only [HexToBitmapArray, Except.ok.injEq] at h
    subst h
    rfl
  | cons c cs ih =>
    intro bits h
    rw [HexToBitmapArray] at h
    split at h
    · cases h
    · split at h
      · rename_i n hn bs hbs
        simp only [Except.ok.injEq] at h
        subst h
        simp [nibbleBits, ih bs hbs]
        omega
      · cases h

theorem HexToBitmapArray_head (c : Byte) (cs : GoString) (bits : List Int)
    (h : HexToBitmapArray (c :: cs) = .ok bits) :
    ∃ a, fromHexChar c = some a ∧ bits[0]? = some (((a / 8 % 2 : Nat) : Int)) := by
  rw [HexToBitmapArray] at h
  split at h
  · cases h
  · split at h
    · rename_i _ n hn _ bs hbs
      simp only [Except.ok.injEq] at h
      subst h
      exact ⟨n, hn, by simp [nibbleBits]⟩
    · cases h

theorem extractBitmap_text (rest : GoString) (bitmap : List Int) (elementsString : GoString)
    (h : extractBitmap rest false = .ok (bitmap, elementsString)) :
    ∃ n : Nat, n = bitmapUnits (secondaryPresent rest false) false ∧ n ≤ rest.length ∧
      elementsString = rest.drop n ∧ HexToBitmapArray (rest.take n) = .ok bitmap := by
  unfold extractBitmap at h
  match rest, h with
  | [], h => simp at h
  | [p], h => simp [sliceTo] at h
  | p :: q :: r, h =>
    simp only [List.length_cons, Bool.not_false, if_true] at h
    have h2 : sliceTo (p :: q :: r) 2 = .ok [p, q] := by
      have := sliceTo_of_le (p :: q :: r) 2 (by simp)
      simpa using this
    rw [h2] at h
    simp only [hex.DecodeString] at h
    cases hp : fromHexChar p with
    | none => simp [hp] at h
    | some a =>
      cases hq : fromHexChar q with
      | none => simp [hp, hq] at h
      | some b =>
        have ha := fromHexChar_lt p a hp
        have hb := fromHexChar_lt q b hq
        have hv : ((Fin.ofNat (a * 16 + b) : Byte)).val = a * 16 + b := by
          show (a * 16 + b) % 256 = a * 16 + b
          omega
        simp only [hp, hq] at h
        have hhead : ((fmtSprintf8b (Fin.ofNat (a * 16 + b))).head? = some (charByte '1'))
            ↔ 8 ≤ a := by
          rw [fmtSprintf8b_head, hv]
          omega
        have hsec : secondaryPresent (p :: q :: r) false = decide (8 ≤ a) := by
          simp [secondaryPresent, hp]
        simp only [hhead, Bool.false_eq_true, if_false] at h
        split at h
        · cases h
        · split at h
          · cases h
          · rename_i bhs hbhs
            split at h
            · cases h
            · rename_i es hes
              split at h
              · cases h
              · rename_i bm hbm
                simp only [Except.ok.injEq, Prod.mk.injEq] at h
                obtain ⟨rfl, rfl⟩ := h
                obtain ⟨-, hle, rfl⟩ := sliceTo_ok _ _ _ hbhs
                obtain ⟨-, -, rfl⟩ := sliceFrom_ok _ _ _ hes
                by_cases h8 : 8 ≤ a
                · simp only [h8, if_true] at hle hbm ⊢
                  refine ⟨32, by simp [hsec, h8, bitmapUnits], by omega, rfl, hbm⟩
                · simp only [h8, if_false] at hle hbm ⊢
                  refine ⟨16, by simp [hsec, h8, bitmapUnits], by omega, rfl, hbm⟩

theorem extractBitmap_packed (rest : GoString) (bitmap : List Int) (elementsString : GoString)
    (h : extractBitmap rest true = .ok (bitmap, elementsString)) :
    ∃ n : Nat, n = bitmapUnits (secondaryPresent rest true) true ∧ n ≤ rest.length ∧
      elementsString = rest.drop n ∧
      HexToBitmapArray (hex.EncodeToString (rest.take n)) = .ok bitmap := by
  unfold extractBitmap at h
  match rest, h with
  | [], h => simp at h
  | p :: r, h =>
    simp only [List.length_cons, Bool.not_true, Bool.false_eq_true, if_false] at h
    have h1 : sliceTo (p :: r) 1 = .ok [p] := by
      have := sliceTo_of_le (p :: r) 1 (by simp)
      simpa using this
    rw [h1] at h
    simp only [Except.map, DecodeString_EncodeToString] at h
    have hsec : secondaryPresent (p :: r) true = decide (128 ≤ p.val) := by
      simp [secondaryPresent]
    have h32 : (32 : Int).tdiv 2 = 16 := by decide
    have h16 : (16 : Int).tdiv 2 = 8 := by decide
    simp only [fmtSprintf8b_head, Bool.false_eq_true, if_false, if_true] at h
    split at h
    · cases h
    · by_cases h8 : 128 ≤ p.val
      · simp only [h8, if_true, h32] at h
        split at h
        · cases h
        · rename_i bhs hbhs
          split at h
          · cases h
          · rename_i es hes
            split at h
            · cases h
            · rename_i bm hbm
              simp only [Except.ok.injEq, Prod.mk.injEq] at h
              obtain ⟨rfl, rfl⟩ := h
              obtain ⟨-, -, rfl⟩ := sliceFrom_ok _ _ _ hes
              split at hbhs
              · cases hbhs
              · rename_i t ht
                obtain ⟨-, hle, rfl⟩ := sliceTo_ok _ _ _ ht
                simp only [Except.ok.injEq] at hbhs
                subst hbhs
                exact ⟨16, by simp [hsec, h8, bitmapUnits], by omega, rfl, hbm⟩
      · simp only [h8, if_false, h16] at h
        split at h
        · cases h
        · rename_i bhs hbhs
          split at h
          · cases h
          · rename_i es hes
            split at h
            · cases h
            · rename_i bm hbm
              simp only [Except.ok.injEq, Prod.mk.injEq] at h
              obtain ⟨rfl, rfl⟩ := h
              obtain ⟨-, -, rfl⟩ := sliceFrom_ok _ _ _ hes
              split at hbhs
              · cases hbhs
              · rename_i t ht
                obtain ⟨-, hle, rfl⟩ := sliceTo_ok _ _ _ ht
                simp only [Except.ok.injEq] at hbhs
                subst hbhs
                exact ⟨8, by simp [hsec, h8, bitmapUnits], by omega, rfl, hbm⟩

theorem HexToBitmapArray_digits (s : GoString) :
    ∀ bits, HexToBitmapArray s = .ok bits → ∀ c ∈ s, ∃ a, fromHexChar c = some a := by
  induction s with
  | nil => intro bits _ c hc; cases hc
  | cons d ds ih =>
    intro bits h c hc
    rw [HexToBitmapArray] at h
    split at h
    · cases h
    · split at h
      · rename_i _ n hn _ bs hbs
        rcases List.mem_cons.1 hc with rfl | hc
        · exact ⟨n, hn⟩
        · exact ih bs hbs c hc
      · cases h

theorem extractBitmap_text_of (rest : GoString) (bitmap : List Int)
    (hle : bitmapUnits (secondaryPresent rest false) false ≤ rest.length)
    (hb : HexToBitmapArray (rest.take (bitmapUnits (secondaryPresent rest false) false))
      = .ok bitmap) :
    extractBitmap rest false
      = .ok (bitmap, rest.drop (bitmapUnits (secondaryPresent rest false) false)) := by
  have h16 : 16 ≤ bitmapUnits (secondaryPresent rest false) false := by
    unfold bitmapUnits
    split <;> simp
  match rest, hle, hb, h16 with
  | [], hle, _, h16 => simp at hle; omega
  | [p], hle, _, h16 => simp at hle; omega
  | p :: q :: r, hle, hb, h16 =>
    obtain ⟨n, hn⟩ : ∃ n, bitmapUnits (secondaryPresent (p :: q :: r) false) false = n + 2 :=
      ⟨bitmapUnits (secondaryPresent (p :: q :: r) false) false - 2, by omega⟩
    have hdig := HexToBitmapArray_digits _ bitmap hb
    rw [hn] at hdig
    obtain ⟨a, hp⟩ := hdig p (by simp)
    obtain ⟨b, hq⟩ := hdig q (by simp)
    have ha := fromHexChar_lt p a hp
    have hb2 := fromHexChar_lt q b hq
    have hv : ((Fin.ofNat (a * 16 + b) : Byte)).val = a * 16 + b := by
      show (a * 16 + b) % 256 = a * 16 + b
      omega
    have hhead : ((fmtSprintf8b (Fin.ofNat (a * 16 + b))).head? = some (charByte '1'))
        ↔ 8 ≤ a := by
      rw [fmtSprintf8b_head, hv]
      omega
    have hsec : secondaryPresent (p :: q :: r) false = decide (8 ≤ a) := by
      simp [secondaryPresent, hp]
    have h2 : sliceTo (p :: q :: r) 2 = .ok [p, q] := by
      have := sliceTo_of_le (p :: q :: r) 2 (by simp)
      simpa using this
    unfold extractBitmap
    simp only [List.length_cons, Bool.not_false, if_true, h2, hex.DecodeString, hp, hq, hhead,
      Bool.false_eq_true, if_false]
    rw [hsec] at hle hb ⊢
    by_cases h8 : 8 ≤ a
    · simp only [h8, decide_True, bitmapUnits, if_true, Bool.false_eq_true, if_false]
        at hle hb ⊢
      have e1 := sliceTo_of_le (p :: q :: r) 32 hle
      have e2 := sliceFrom_of_le (p :: q :: r) 32 hle
      simp only [Nat.cast_ofNat] at e1 e2
      rw [if_neg (by simp), e1, e2]
      simp only [hb]
    · simp only [h8, decide_False, bitmapUnits, if_true, Bool.false_eq_true, if_false]
        at hle hb ⊢
      have e1 := sliceTo_of_le (p :: q :: r) 16 hle
      have e2 := sliceFrom_of_le (p :: q :: r) 16 hle
      simp only [Nat.cast_ofNat] at e1 e2
      rw [if_neg (by simp), e1, e2]
      simp only [hb]

theorem extractBitmap_packed_of (rest : GoString) (bitmap : List Int)
    (hle : bitmapUnits (secondaryPresent rest true) true ≤ rest.length)
    (hb : HexToBitmapArray
        (hex.EncodeToString (rest.take (bitmapUnits (secondaryPresent rest true) true)))
      = .ok bitmap) :
    extractBitmap rest true
      = .ok (bitmap, rest.drop (bitmapUnits (secondaryPresent rest true) true)) := by
  have h8 : 8 ≤ bitmapUnits (secondaryPresent rest true) true := by
    unfold bitmapUnits
    split <;> simp
  match rest, hle, hb, h8 with
  | [], hle, _, h8 => simp at hle; omega
  | p :: r, hle, hb, h8 =>
    have hsec : secondaryPresent (p :: r) true = decide (128 ≤ p.val) := by
      simp [secondaryPresent]
    have h1 : sliceTo (p :: r) 1 = .ok [p] := by
      have := sliceTo_of_le (p :: r) 1 (by simp)
      simpa using this
    have h32 : (32 : Int).tdiv 2 = 16 := by decide
    have h16 : (16 : Int).tdiv 2 = 8 := by decide
    unfold extractBitmap
    simp only [List.length_cons, Bool.not_true, Bool.false_eq_true, if_false, h1, Except.map,
      DecodeString_EncodeToString, fmtSprintf8b_head, if_true]
    rw [hsec] at hle hb ⊢
    by_cases h128 : 128 ≤ p.val
    · simp only [h128, decide_True, bitmapUnits, if_true] at hle hb ⊢
      have e1 := sliceTo_of_le (p :: r) 16 hle
      have e2 := sliceFrom_of_le (p :: r) 16 hle
      simp only [Nat.cast_ofNat] at e1 e2
      rw [if_neg (by simp), h32, e1, e2]
      simp only [hb]
    · simp only [h128, decide_False, bitmapUnits, if_true, Bool.false_eq_true, if_false]
        at hle hb ⊢
      have e1 := sliceTo_of_le (p :: r) 8 hle
      have e2 := sliceFrom_of_le (p :: r) 8 hle
      simp only [Nat.cast_ofNat] at e1 e2
      rw [if_neg (by simp), h16, e1, e2]
      simp only [hb]

theorem extractBitmap_consumed (rest : GoString) (isHex : Bool) (bitmap : List Int)
    (elementsString : GoString)
    (h : extractBitmap rest isHex = .ok (bitmap, elementsString)) :
    bitmapUnits (secondaryPresent rest isHex) isHex ≤ rest.length ∧
    elementsString = rest.drop (bitmapUnits (secondaryPresent rest isHex) isHex) ∧
    bitmap.length = (if secondaryPresent rest isHex then 128 else 64) ∧
    bitmap[0]? = some (if secondaryPresent rest isHex then 1 else 0) := by
  cases isHex with
  | false =>
    obtain ⟨n, hn, hle, hes, hb⟩ := extractBitmap_text rest bitmap elementsString h
    subst hn hes
    refine ⟨hle, rfl, ?_, ?_⟩
    · rw [HexToBitmapArray_length _ _ hb, List.length_take, Nat.min_eq_left hle]
      unfold bitmapUnits
      split <;> simp
    · match rest, hle, hb with
      | [], hle, _ => simp [secondaryPresent, bitmapUnits] at hle
      | p :: r, hle, hb =>
        have hpos : bitmapUnits (secondaryPresent (p :: r) false) false
            = (bitmapUnits (secondaryPresent (p :: r) false) false - 1) + 1 := by
          unfold bitmapUnits
          split <;> simp
        rw [hpos, List.take_succ_cons] at hb
        obtain ⟨a, ha, hbit⟩ := HexToBitmapArray_head _ _ _ hb
        have hlt := fromHexChar_lt p a ha
        rw [hbit]
        simp only [secondaryPresent, ha, Bool.false_eq_true, if_false, decide_eq_true_eq]
        split <;> (congr 1; omega)
  | true =>
    obtain ⟨n, hn, hle, hes, hb⟩ := extractBitmap_packed rest bitmap elementsString h
    subst hn hes
    refine ⟨hle, rfl, ?_, ?_⟩
    · rw [HexToBitmapArray_length _ _ hb, EncodeToString_length, List.length_take,
        Nat.min_eq_left hle]
      unfold bitmapUnits
      split <;> simp
    · match rest, hle, hb with
      | [], hle, _ => simp [secondaryPresent, bitmapUnits] at hle
      | p :: r, hle, hb =>
        have hpos : bitmapUnits (secondaryPresent (p :: r) true) true
            = (bitmapUnits (secondaryPresent (p :: r) true) true - 1) + 1 := by
          unfold bitmapUnits
          split <;> simp
        rw [hpos, List.take_succ_cons, hex.EncodeToString] at hb
        obtain ⟨a, ha, hbit⟩ := HexToBitmapArray_head _ _ _ hb
        have hp := p.isLt
        rw [fromHexChar_hexDigit _ (by omega)] at ha
        simp only [Option.some.injEq] at ha
        subst ha
        rw [hbit]
        simp only [secondaryPresent, if_true, decide_eq_true_eq]
        split <;> (congr 1; omega)

/-- C9: whenever `extractBitmap(rest, isHex)` succeeds, it has consumed 32 hex
characters (16 bytes when packed) if the most significant bit of the first
transmitted bitmap unit is 1, and 16 hex characters (8 bytes) otherwise; the
returned remainder is `rest` without exactly that many units, and the returned
bitmap has length 128 with position 0 set in the first case, length 64 with
position 0 clear in the second. -/
theorem extractBitmap_width (rest : GoString) (isHex : Bool) (bitmap : List Int)
    (elementsString : GoString)
    (h : extractBitmap rest isHex = .ok (bitmap, elementsString)) :
    bitmapUnits (secondaryPresent rest isHex) isHex ≤ rest.length ∧
    elementsString = rest.drop (bitmapUnits (secondaryPresent rest isHex) isHex) ∧
    rest = rest.take (bitmapUnits (secondaryPresent rest isHex) isHex) ++ elementsString ∧
    bitmap.length = (if secondaryPresent rest isHex then 128 else 64) ∧
    bitmap[0]? = some (if secondaryPresent rest isHex then 1 else 0) := by
  obtain ⟨hle, hes, hlen, h0⟩ := extractBitmap_consumed rest isHex bitmap elementsString h
  refine ⟨hle, hes, ?_, hlen, h0⟩
  rw [hes]
  exact (List.take_append_drop _ rest).symm

theorem BitMapArrayToHex_spec (k : Nat) :
    ∀ b : List Int, b.length = 4 * k → (∀ x ∈ b, x = 0 ∨ x = 1) →
      ∃ s, BitMapArrayToHex b = .ok s ∧ s.length = k ∧ LowerHex s ∧
        HexToBitmapArray s = .ok b := by
  induction k with
  | zero =>
    intro b hl _
    have : b = [] := List.eq_nil_of_length_eq_zero (by simpa using hl)
    subst this
    refine ⟨[], rfl, rfl, ?_, rfl⟩
    intro c hc
    cases hc
  | succ k ih =>
    intro b hl hbits
    match b, hl, hbits with
    | b3 :: b2 :: b1 :: b0 :: rest, hl, hbits =>
      have hl2 : rest.length = 4 * k := by simp at hl; omega
      obtain ⟨s, hs, hlen, hlow, hdec⟩ := ih rest hl2
        (fun x hx => hbits x (by simp [hx]))
      have h3 := hbits b3 (by simp)
      have h2 := hbits b2 (by simp)
      have h1 := hbits b1 (by simp)
      have h0 := hbits b0 (by simp)
      have hn : (8 * b3 + 4 * b2 + 2 * b1 + b0).toNat < 16 := by omega
      refine ⟨hexDigit (8 * b3 + 4 * b2 + 2 * b1 + b0).toNat :: s, ?_, by simp [hlen], ?_, ?_⟩
      · rw [BitMapArrayToHex, if_pos ⟨h3, h2, h1, h0⟩, hs]
      · intro c hc
        rcases List.mem_cons.1 hc with rfl | hc
        · exact ⟨_, hn, rfl⟩
        · exact hlow c hc
      · rw [HexToBitmapArray, fromHexChar_hexDigit _ hn, hdec]
        have : nibbleBits (8 * b3 + 4 * b2 + 2 * b1 + b0).toNat = [b3, b2, b1, b0] := by
          rcases h3 with rfl | rfl <;> rcases h2 with rfl | rfl <;> rcases h1 with rfl | rfl <;>
            rcases h0 with rfl | rfl <;> rfl
        simp [this]
    | [], hl, _ => simp at hl
    | [_], hl, _ => simp at hl; omega
    | [_, _], hl, _ => simp at hl; omega
    | [_, _, _], hl, _ => simp at hl; omega

theorem EncodeToString_DecodeString (k : Nat) :
    ∀ s : GoString, s.length = 2 * k → LowerHex s →
      hex.EncodeToString (hex.DecodeString s).1 = s ∧ (hex.DecodeString s).2 = false ∧
        (hex.DecodeString s).1.length = k := by
  induction k with
  | zero =>
    intro s hl _
    have : s = [] := List.eq_nil_of_length_eq_zero (by simpa using hl)
    subst this
    exact ⟨rfl, rfl, rfl⟩
  | succ k ih =>
    intro s hl hlow
    match s, hl, hlow with
    | p :: q :: rest, hl, hlow =>
      have hl2 : rest.length = 2 * k := by simp at hl; omega
      obtain ⟨h1, h2, h3⟩ := ih rest hl2 (fun c hc => hlow c (by simp [hc]))
      obtain ⟨a, ha, rfl⟩ := hlow p (by simp)
      obtain ⟨b, hb, rfl⟩ := hlow q (by simp)
      have hv : ((Fin.ofNat (a * 16 + b) : Byte)).val = a * 16 + b := by
        show (a * 16 + b) % 256 = a * 16 + b
        omega
      have hd : (a * 16 + b) / 16 = a := by omega
      have hm : (a * 16 + b) % 16 = b := by omega
      simp only [hex.DecodeString, fromHexChar_hexDigit _ ha, fromHexChar_hexDigit _ hb,
        hex.EncodeToString, hv, hd, hm, h1, h2, List.length_cons, h3, and_self]
    | [], hl, _ => simp at hl
    | [_], hl, _ => simp at hl; omega

theorem extractBitmap_encoded (b : List Int) (s payload : GoString) (isHex : Bool)
    (hshape : BitmapShape b) (hs : BitMapArrayToHex b = .ok s) :
    HexToBitmapArray s = .ok b ∧
    extractBitmap (bitmapWire s isHex ++ payload) isHex = .ok (b, payload) := by
  obtain ⟨hbits, hlen, h0⟩ := hshape
  obtain ⟨k, hk, hk2⟩ : ∃ k, b.length = 4 * (2 * k) ∧ (k = 8 ∨ k = 16) := by
    rcases hlen with h | h
    · exact ⟨8, by omega, Or.inl rfl⟩
    · exact ⟨16, by omega, Or.inr rfl⟩
  obtain ⟨s2, hs2, hslen, hlow, hdec⟩ := BitMapArrayToHex_spec (2 * k) b hk hbits
  rw [hs] at hs2
  simp only [Except.ok.injEq] at hs2
  subst hs2
  refine ⟨hdec, ?_⟩
  obtain ⟨he, -, hdl⟩ := EncodeToString_DecodeString k s hslen hlow
  match s, hslen, hdec, he, hdl with
  | [], hslen, _, _, _ => simp at hslen; omega
  | c :: cs, hslen, hdec, he, hdl =>
    obtain ⟨a, ha, hbit⟩ := HexToBitmapArray_head _ _ _ hdec
    have halt := fromHexChar_lt c a ha
    have hsec : (8 ≤ a) ↔ k = 16 := by
      rw [hbit] at h0
      simp only [Option.some.injEq] at h0
      omega
    cases isHex with
    | false =>
      have hsp : secondaryPresent (bitmapWire (c :: cs) false ++ payload) false
          = decide (k = 16) := by
        simp [bitmapWire, secondaryPresent, ha, hsec]
      have hu : bitmapUnits (secondaryPresent (bitmapWire (c :: cs) false ++ payload) false)
          false = (c :: cs).length := by
        rw [hsp, hslen]
        unfold bitmapUnits
        rcases hk2 with rfl | rfl <;> simp
      have h1 := extractBitmap_text_of (bitmapWire (c :: cs) false ++ payload) b
        (by rw [hu]; simp [bitmapWire])
        (by rw [hu]; simpa [bitmapWire] using hdec)
      rw [h1, hu]
      simp [bitmapWire]
    | true =>
      match hD : (hex.DecodeString (c :: cs)).1, he, hdl with
      | [], he, hdl => simp [hD] at hdl; omega
      | d :: ds, he, hdl =>
        have hd := d.isLt
        have hc : c = hexDigit (d.val / 16) := by
          simp only [hex.EncodeToString, List.cons.injEq] at he
          exact he.1.symm
        rw [hc, fromHexChar_hexDigit _ (by omega)] at ha
        simp only [Option.some.injEq] at ha
        have hsp : secondaryPresent (bitmapWire (c :: cs) true ++ payload) true
            = decide (k = 16) := by
          simp only [bitmapWire, if_true, hD, List.cons_append, secondaryPresent]
          congr 1
          apply propext
          rw [← hsec]
          omega
        have hu : bitmapUnits (secondaryPresent (bitmapWire (c :: cs) true ++ payload) true)
            true = (d :: ds).length := by
          rw [hsp, hdl]
          unfold bitmapUnits
          rcases hk2 with rfl | rfl <;> simp
        have hw : bitmapWire (c :: cs) true = d :: ds := by
          simp [bitmapWire, hD]
        have h1 := extractBitmap_packed_of (bitmapWire (c :: cs) true ++ payload) b
          (by rw [hu, hw]; simp)
          (by rw [hu, hw]; simpa [he] using hdec)
        rw [h1, hu, hw]
        simp

/-! ## Witnesses on scenario A -/

set_option maxRecDepth 100000 in
theorem scenarioA_Parse :
    ((NewISOStruct scenarioASpec true).Parse scenarioARaw false).2 = .ok scenarioAParsed := by
  decide

set_option maxRecDepth 100000 in
theorem scenarioABitmap_shape : BitmapShape scenarioABitmap := by
  unfold BitmapShape
  decide

/-- A witness of `LockStep_amended`: the message parsed in scenario A, and the
message built in scenario A. -/
theorem LockStep_amended_witness :
    BlankedLockStep (runOps (NewISOStruct scenarioASpec false) scenarioAOps) ∧
    LockStep scenarioAParsed :=
  ⟨(LockStep_amended scenarioASpec false scenarioAOps (NewISOStruct scenarioASpec true)
      scenarioARaw false).1,
   ((LockStep_amended scenarioASpec false scenarioAOps (NewISOStruct scenarioASpec true)
      scenarioARaw false).2 scenarioAParsed scenarioA_Parse).1⟩

set_option maxRecDepth 100000 in
/-- A witness of `extractBitmap_width`: the bitmap text of scenario A followed
by the first field. -/
theorem extractBitmap_width_witness :
    extractBitmap (str "3220000000808000000010") false
        = .ok (scenarioABitmap, str "000010") ∧
    bitmapUnits (secondaryPresent (str "3220000000808000000010") false) false = 16 ∧
    scenarioABitmap.length = 64 ∧ scenarioABitmap[0]? = some 0 :=
  ⟨by decide, by decide,
   (extractBitmap_width (str "3220000000808000000010") false scenarioABitmap (str "000010")
      (by decide)).2.2.2.1,
   (extractBitmap_width (str "3220000000808000000010") false scenarioABitmap (str "000010")
      (by decide)).2.2.2.2⟩

set_option maxRecDepth 100000 in
theorem scenarioA_built (spec : Spec) :
    runOps (NewISOStruct spec false) scenarioAOps =
      { Spec := spec, Mti := { mti := str "0200" }, Bitmap := scenarioABitmap,
        Elements := { elements := scenarioAParsed.Elements.elements },
        Tpdu := List.replicate 5 0 } := by
  rfl

set_option maxRecDepth 100000 in
theorem scenarioA_packElements (spec : Spec) (h : IsScenarioARegistry spec) (t : GoString) :
    ({ Spec := spec, Mti := { mti := str "0200" }, Bitmap := scenarioABitmap,
        Elements := { elements := scenarioAParsed.Elements.elements },
        Tpdu := t } : IsoStruct).packElements
      = .ok (str "000010000000001500120604120000000112340001840") := by
  have h3 := h.2 3 (by simp)
  have h4 := h.2 4 (by simp)
  have h7 := h.2 7 (by simp)
  have h11 := h.2 11 (by simp)
  have h41 := h.2 41 (by simp)
  have h49 := h.2 49 (by simp)
  simp [IsoStruct.packElements, scenarioABitmap, packLoop, ElementsType.GetElements, h3, h4, h7, h11, h41, h49]
  decide

/-- C3 (the code at scenario A): for every ASCII registry in which the fields
of the scenario are fixed text fields, the message built by `NewISOStruct(_,
false)`, `AddMTI("0200")` and the six `AddField` calls serializes to five zero
bytes, the transport header that `NewISOStruct` allocates, followed by the
text that `TestEmpty` expects; it does not serialize to that text alone. -/
theorem scenarioA_ToString (spec : Spec) (h : IsScenarioARegistry spec) :
    (runOps (NewISOStruct spec false) scenarioAOps).ToString
      = .ok (List.replicate 5 0 ++ scenarioARaw) ∧
    (runOps (NewISOStruct spec false) scenarioAOps).ToString ≠ .ok scenarioARaw := by
  have hb : BitMapArrayToHex scenarioABitmap = .ok (str "3220000000808000") := by decide
  have hp := scenarioA_packElements spec h (List.replicate 5 0)
  have h1 : (runOps (NewISOStruct spec false) scenarioAOps).ToString
      = .ok (List.replicate 5 0 ++ scenarioARaw) := by
    rw [scenarioA_built]
    unfold IsoStruct.ToString
    simp only [hb, hp, h.1, Bool.false_eq_true, if_false]
    decide
  refine ⟨h1, ?_⟩
  rw [h1]
  decide

set_option maxRecDepth 100000 in
/-- A witness of `scenarioA_ToString`: the registry of scenario A. -/
theorem scenarioA_ToString_witness :
    IsScenarioARegistry scenarioASpec ∧
    (runOps (NewISOStruct scenarioASpec false) scenarioAOps).ToString
      = .ok (List.replicate 5 0 ++ scenarioARaw) :=
  ⟨by unfold IsScenarioARegistry; decide,
   (scenarioA_ToString scenarioASpec (by unfold IsScenarioARegistry; decide)).1⟩

set_option maxRecDepth 100000 in
/-- C2 (the code at scenario B): parsing the byte sequence of scenario B gives
the message type, transport header and fields that the scenario lists, and
serializing the parsed message gives a byte sequence other than the original:
the prefix of field 62 is rebuilt from the length of the stored hex text. -/
theorem scenarioB_reserialize :
    ((NewISOStruct scenarioBSpec true).Parse scenarioBRaw true).2 = .ok scenarioBParsed ∧
    scenarioBParsed.ToString = .ok (hex.DecodeString scenarioBOutHex).1 ∧
    scenarioBParsed.ToString ≠ .ok scenarioBRaw := by
  decide

/-! ## Fixed-length fields: extraction and packing -/

theorem tdiv_ceilHalf (n : Int) :
    (if n.tmod 2 ≠ 0 then (n + 1).tdiv 2 else n.tdiv 2) = ceilHalf n := by
  unfold ceilHalf
  rcases Int.le_total 0 n with h | h
  · rw [Int.tdiv_eq_ediv (by omega) (by omega), Int.tdiv_eq_ediv h (by omega),
      Int.tmod_eq_emod h (by omega)]
    split <;> omega
  · obtain ⟨m, rfl⟩ : ∃ m : Nat, n = -(m : Int) := ⟨n.natAbs, by omega⟩
    have h1 : (-(m : Int)).tdiv 2 = -((m : Int) / 2) := by
      rw [Int.neg_tdiv, Int.tdiv_eq_ediv (by omega) (by omega)]
    have h2 : (-(m : Int)).tmod 2 = -((m : Int) % 2) := by
      rw [Int.tmod_def, h1]
      omega
    rcases Nat.eq_zero_or_pos m with rfl | hm
    · simp
    · have h3 : (-(m : Int) + 1).tdiv 2 = -(((m : Int) - 1) / 2) := by
        have : (-(m : Int) + 1) = -((m : Int) - 1) := by ring
        rw [this, Int.neg_tdiv, Int.tdiv_eq_ediv (by omega) (by omega)]
      rw [h1, h2, h3]
      split <;> omega

theorem sliceTo_append (c rest : GoString) : sliceTo (c ++ rest) (c.length : Int) = .ok c := by
  rw [sliceTo_of_le _ _ (by simp)]
  simp

theorem sliceFrom_append (c rest : GoString) :
    sliceFrom (c ++ rest) (c.length : Int) = .ok rest := by
  rw [sliceFrom_of_le _ _ (by simp)]
  simp

theorem getFieldValue_chunk (fd : FieldDescription) (c rest : GoString)
    (hlen : (c.length : Int) = fixedUnits fd) :
    getFieldValue fd.HeaderHex fd.MaxLen fd.Contain (c ++ rest)
      = .ok (fieldValue fd c, rest) := by
  unfold getFieldValue fieldValue
  unfold fixedUnits at hlen
  cases hh : fd.HeaderHex with
  | true =>
    simp only [hh, if_true, intCeilHalf] at hlen ⊢
    rw [← hlen, if_neg (by simp), sliceTo_append, sliceFrom_append]
  | false =>
    simp only [hh, Bool.false_eq_true, if_false] at hlen ⊢
    rw [← hlen, if_neg (by simp), sliceTo_append, sliceFrom_append]

theorem extractField_fixed (spec : Spec) (field : Int) (c rest : GoString)
    (hfix : (spec.field field).LenType = "fixed")
    (hlen : (c.length : Int) = fixedUnits (spec.field field)) :
    extractFieldFromElements spec field (c ++ rest)
      = .ok (fieldValue (spec.field field) c, rest) := by
  unfold extractFieldFromElements
  simp only [hfix, if_true]
  exact getFieldValue_chunk _ c rest hlen

theorem unpackLoop_fixed (spec : Spec) (bits : List Int) :
    ∀ (index : Nat) (chunks : List GoString) (m : List (Int × GoString)),
      fixedFields spec bits index chunks = true →
      ∃ m2, unpackLoop spec bits index chunks.flatten m = .ok m2 ∧
        Stored spec m2 bits index chunks ∧
        ∀ f : Int, f ≤ index → mapGet m2 f = mapGet m f := by
  induction bits with
  | nil =>
    intro index chunks m _
    exact ⟨m, rfl, trivial, fun _ _ => rfl⟩
  | cons bit rest ih =>
    intro index chunks m h
    unfold fixedFields at h
    by_cases hbit : bit = 1
    · rw [if_pos hbit] at h
      match chunks, h with
      | c :: cs, h =>
        simp only [Bool.and_eq_true, decide_eq_true_eq] at h
        obtain ⟨⟨hfix, hlen⟩, hrest⟩ := h
        obtain ⟨m2, hm2, hst, hfr⟩ := ih (index + 1) cs
          (mapSet m ((index : Int) + 1) (fieldValue (spec.field ((index : Int) + 1)) c)) hrest
        refine ⟨m2, ?_, ?_, ?_⟩
        · rw [unpackLoop, if_pos hbit]
          simp only [List.flatten_cons, extractField_fixed spec _ c cs.flatten hfix hlen]
          exact hm2
        · unfold Stored
          rw [if_pos hbit]
          refine ⟨?_, hst⟩
          rw [hfr _ (by push_cast; omega), mapGet_mapSet, if_pos rfl]
        · intro f hf
          rw [hfr f (by push_cast; omega), mapGet_mapSet, if_neg (by omega)]
    · rw [if_neg hbit] at h
      obtain ⟨m2, hm2, hst, hfr⟩ := ih (index + 1) chunks m h
      refine ⟨m2, ?_, ?_, ?_⟩
      · rw [unpackLoop, if_neg hbit]
        exact hm2
      · unfold Stored
        rw [if_neg hbit]
        exact hst
      · intro f hf
        exact hfr f (by push_cast; omega)

theorem packLoop_fixed (spec : Spec) (M : List (Int × GoString)) (bits : List Int) :
    ∀ (index : Nat) (chunks : List GoString) (acc : GoString),
      fixedFields spec bits index chunks = true → Stored spec M bits index chunks →
      packLoop spec M bits index acc = .ok (acc ++ chunks.flatten) := by
  induction bits with
  | nil =>
    intro index chunks acc h _
    simp only [fixedFields, List.isEmpty_eq_true] at h
    subst h
    simp [packLoop]
  | cons bit rest ih =>
    intro index chunks acc h hst
    unfold fixedFields at h
    unfold Stored at hst
    by_cases hbit : bit = 1
    · rw [if_pos hbit] at h hst
      match chunks, h, hst with
      | c :: cs, h, hst =>
        simp only [Bool.and_eq_true, decide_eq_true_eq] at h
        obtain ⟨⟨hfix, hlen⟩, hrest⟩ := h
        obtain ⟨hget, hst2⟩ := hst
        rw [packLoop, if_pos hbit]
        simp only [hfix, if_true, hget, fieldValue]
        cases hh : (spec.field ((index : Int) + 1)).HeaderHex with
        | true =>
          simp only [if_true, DecodeString_EncodeToString]
          rw [ih (index + 1) cs _ hrest hst2]
          simp
        | false =>
          simp only [Bool.false_eq_true, if_false]
          rw [ih (index + 1) cs _ hrest hst2]
          simp
    · rw [if_neg hbit] at h hst
      rw [packLoop, if_neg hbit]
      exact ih (index + 1) chunks acc h hst

/-! ## The round trip of a message of fixed-length fields -/

theorem isDigit_hexDigit (c : Byte) (h : isDigit c = true) : ∃ n, n < 16 ∧ c = hexDigit n := by
  simp only [isDigit, decide_eq_true_eq] at h
  refine ⟨c.val - 48, by omega, ?_⟩
  apply Fin.ext
  unfold hexDigit
  rw [if_pos (by omega)]
  show c.val = (48 + (c.val - 48)) % 256
  have := c.isLt
  omega

theorem digits_LowerHex (mti : GoString) (h : mti.all isDigit = true) : LowerHex mti := by
  intro c hc
  exact isDigit_hexDigit c (List.all_eq_true.1 h c hc)

theorem extractMTI_wire (mti rest : GoString) (isHex : Bool)
    (hmti : mti.length = 4 ∧ mti.all isDigit = true) :
    extractMTI (mtiWire mti isHex ++ rest) isHex = ({ mti := mti }, rest) := by
  cases isHex with
  | false =>
    have hl : ¬ (mti ++ rest).length < 4 := by simp [hmti.1]
    have h4 : mti.length = 4 := hmti.1
    simp only [extractMTI, mtiWire, Bool.false_eq_true, if_false, Bool.not_false, if_true,
      if_neg hl]
    rw [← h4, List.take_left, List.drop_left]
  | true =>
    obtain ⟨he, -, hdl⟩ := EncodeToString_DecodeString 2 mti hmti.1 (digits_LowerHex mti hmti.2)
    have hl : ¬ ((hex.DecodeString mti).1 ++ rest).length < 2 := by simp [hdl]
    simp only [extractMTI, mtiWire, if_true, Bool.not_true, Bool.false_eq_true, if_false,
      if_neg hl]
    rw [← hdl, List.take_left, List.drop_left, he]

theorem MtiValidator_digits (mti : GoString) (hmti : mti.length = 4 ∧ mti.all isDigit = true) :
    MtiValidator { mti := mti } = .ok true := by
  unfold MtiValidator
  rw [if_pos hmti]

theorem Parse_input (raw tpdu rest : GoString) (useTpdu : Bool)
    (htpdu : tpdu.length = if useTpdu then 5 else 0) (hraw : raw = tpdu ++ rest) :
    (if useTpdu then
        (match extractTpdu raw with
          | .ok (t, r) => (t, r)
          | .error _ => (([] : GoString), ([] : GoString)))
      else (([] : GoString), raw)) = (tpdu, rest) := by
  subst hraw
  cases useTpdu with
  | false =>
    simp only [Bool.false_eq_true, if_false] at htpdu ⊢
    have : tpdu = [] := List.eq_nil_of_length_eq_zero htpdu
    subst this
    rfl
  | true =>
    simp only [if_true] at htpdu ⊢
    have hl : ¬ (tpdu ++ rest).length < 5 := by simp [htpdu]
    unfold extractTpdu
    rw [if_neg hl]
    simp only
    rw [← htpdu, List.take_left, List.drop_left]

/-- C1 (amended): for every registry whose descriptors 0 and 1 carry the same
packed-hex flag and in which the present fields are fixed-length (text or
packed), and every well-formed raw message (the 5-byte transport header when
`useTpdu` is set, the 4-digit message type, the bitmap as `ToString` encodes a
bit vector of the prescribed shape, then exactly the fields the bitmap marks,
each of its declared size, nothing after), `Parse(raw, useTpdu)` succeeds and
`ToString` of the parsed message equals `raw`. -/
theorem fixed_round_trip (iso : IsoStruct) (useTpdu : Bool) (tpdu mti : GoString)
    (b : List Int) (s : GoString) (chunks : List GoString)
    (hflag : (iso.Spec.field 0).HeaderHex = (iso.Spec.field 1).HeaderHex)
    (htpdu : tpdu.length = if useTpdu then 5 else 0)
    (hmti : mti.length = 4 ∧ mti.all isDigit = true)
    (hshape : BitmapShape b) (hs : BitMapArrayToHex b = .ok s)
    (hfields : fixedFields iso.Spec (b.drop 1) 1 chunks = true) :
    RoundTrips iso
      (tpdu ++ (mtiWire mti (iso.Spec.field 0).HeaderHex
        ++ (bitmapWire s (iso.Spec.field 1).HeaderHex ++ chunks.flatten))) useTpdu := by
  obtain ⟨m2, hm2, hst, -⟩ := unpackLoop_fixed iso.Spec (b.drop 1) 1 chunks [] hfields
  have hpack := packLoop_fixed iso.Spec m2 (b.drop 1) 1 chunks [] hfields hst
  have hin := Parse_input (tpdu ++ (mtiWire mti (iso.Spec.field 0).HeaderHex
    ++ (bitmapWire s (iso.Spec.field 1).HeaderHex ++ chunks.flatten))) tpdu
    (mtiWire mti (iso.Spec.field 0).HeaderHex
    ++ (bitmapWire s (iso.Spec.field 1).HeaderHex ++ chunks.flatten)) useTpdu htpdu rfl
  have hbm := (extractBitmap_encoded b s chunks.flatten (iso.Spec.field 1).HeaderHex hshape hs).2
  refine ⟨{ Spec := iso.Spec, Mti := { mti := mti }, Bitmap := b, Elements := { elements := m2 },
            Tpdu := tpdu }, ?_, ?_⟩
  · unfold IsoStruct.Parse
    simp only [hin, extractMTI_wire _ _ _ hmti, hbm, MtiValidator_digits mti hmti,
      unpackElements, hm2]
  · unfold IsoStruct.ToString IsoStruct.packElements
    simp only [hs, ElementsType.GetElements, hpack, List.nil_append, MtiType.String]
    rw [← hflag]
    cases h0 : (iso.Spec.field 0).HeaderHex with
    | true =>
      simp only [if_true, mtiWire, bitmapWire]
      by_cases ht : tpdu.length > 0
      · simp [ht]
      · have : tpdu = [] := List.eq_nil_of_length_eq_zero (by omega)
        subst this
        simp
    | false =>
      simp only [Bool.false_eq_true, if_false, mtiWire, bitmapWire]
      by_cases ht : tpdu.length > 0
      · simp [ht]
      · have : tpdu = [] := List.eq_nil_of_length_eq_zero (by omega)
        subst this
        simp

/-! ## Serialization reads the element table at the present fields only -/

theorem packLoop_congr (spec : Spec) (m1 m2 : List (Int × GoString)) (bits : List Int) :
    ∀ (index : Nat) (acc : GoString),
      (∀ j : Nat, bits[j]? = some 1 →
        mapGet m1 ((index : Int) + j + 1) = mapGet m2 ((index : Int) + j + 1)) →
      packLoop spec m1 bits index acc = packLoop spec m2 bits index acc := by
  induction bits with
  | nil => intro index acc _; rfl
  | cons bit rest ih =>
    intro index acc h
    have hrest : ∀ acc2, packLoop spec m1 rest (index + 1) acc2
        = packLoop spec m2 rest (index + 1) acc2 := by
      intro acc2
      apply ih
      intro j hj
      have := h (j + 1) (by simpa using hj)
      push_cast at this ⊢
      rw [show (index : Int) + 1 + j + 1 = (index : Int) + (j + 1) + 1 by ring]
      exact this
    rw [packLoop, packLoop]
    by_cases hbit : bit = 1
    · have h0 := h 0 (by simp [hbit])
      simp only [Nat.cast_zero, add_zero] at h0
      simp only [hbit, if_true, h0, hrest]
    · simp only [hbit, if_false, hrest]

theorem ToString_congr (iso1 iso2 : IsoStruct) (hS : iso1.Spec = iso2.Spec)
    (hM : iso1.Mti = iso2.Mti) (hB : iso1.Bitmap = iso2.Bitmap) (hT : iso1.Tpdu = iso2.Tpdu)
    (hE : ∀ f : Int, 2 ≤ f → iso2.Bitmap[(f - 1).toNat]? = some 1 →
      mapGet iso1.Elements.elements f = mapGet iso2.Elements.elements f) :
    iso1.ToString = iso2.ToString := by
  have hp : iso1.packElements = iso2.packElements := by
    unfold IsoStruct.packElements
    rw [hS, hB]
    apply packLoop_congr
    intro j hj
    apply hE
    · omega
    · rw [List.getElem?_drop] at hj
      have : ((1 : Int) + (j : Int) + 1 - 1).toNat = 1 + j := by omega
      simp only [Nat.cast_one, this]
      exact hj
  unfold IsoStruct.ToString
  rw [hp, hS, hM, hB, hT]

/-! ## A parsed message and the message rebuilt from its entries -/

theorem mem_mapDelete (m : List (Int × GoString)) (k : Int) (e : Int × GoString)
    (h : e ∈ mapDelete m k) : e ∈ m ∧ e.1 ≠ k := by
  induction m with
  | nil => simp [mapDelete] at h
  | cons x m ih =>
    obtain ⟨a, v⟩ := x
    rw [mapDelete] at h
    by_cases hak : a = k
    · rw [if_pos hak] at h
      exact ⟨List.mem_cons_of_mem _ (ih h).1, (ih h).2⟩
    · rw [if_neg hak] at h
      rcases List.mem_cons.1 h with rfl | h
      · exact ⟨List.mem_cons_self _ _, hak⟩
      · exact ⟨List.mem_cons_of_mem _ (ih h).1, (ih h).2⟩

theorem NodupKeys_mapDelete (m : List (Int × GoString)) (k : Int) (h : NodupKeys m) :
    NodupKeys (mapDelete m k) := by
  induction m with
  | nil => simpa [mapDelete] using h
  | cons x m ih =>
    obtain ⟨a, v⟩ := x
    unfold NodupKeys at h ih ⊢
    simp only [List.map_cons, List.nodup_cons] at h
    rw [mapDelete]
    by_cases hak : a = k
    · rw [if_pos hak]
      exact ih h.2
    · rw [if_neg hak]
      simp only [List.map_cons, List.nodup_cons]
      refine ⟨?_, ih h.2⟩
      intro hmem
      obtain ⟨e, he, hea⟩ := List.mem_map.1 hmem
      exact h.1 (List.mem_map.2 ⟨e, (mem_mapDelete m k e he).1, hea⟩)

theorem NodupKeys_mapSet (m : List (Int × GoString)) (k : Int) (v : GoString)
    (h : NodupKeys m) : NodupKeys (mapSet m k v) := by
  have hd := NodupKeys_mapDelete m k h
  unfold NodupKeys at hd ⊢
  unfold mapSet
  simp only [List.map_cons, List.nodup_cons]
  refine ⟨?_, hd⟩
  intro hmem
  obtain ⟨e, he, hek⟩ := List.mem_map.1 hmem
  exact (mem_mapDelete m k e he).2 hek

theorem unpackLoop_NodupKeys (spec : Spec) (bits : List Int) :
    ∀ (index : Nat) (cur : GoString) (m m2 : List (Int × GoString)),
      NodupKeys m → unpackLoop spec bits index cur m = .ok m2 → NodupKeys m2 := by
  induction bits with
  | nil =>
    intro index cur m m2 hn h
    simp only [unpackLoop, Except.ok.injEq] at h
    subst h
    exact hn
  | cons bit rest ih =>
    intro index cur m m2 hn h
    rw [unpackLoop] at h
    split at h
    · dsimp only at h
      split at h
      · exact ih _ _ _ m2 (NodupKeys_mapSet _ _ _ hn) h
      · cases h
    · exact ih _ _ _ m2 hn h

theorem lookup_of_mem (m : List (Int × GoString)) (f : Int) (v : GoString)
    (hn : NodupKeys m) (h : (f, v) ∈ m) : m.lookup f = some v := by
  induction m with
  | nil => cases h
  | cons x m ih =>
    obtain ⟨a, w⟩ := x
    unfold NodupKeys at hn ih
    simp only [List.map_cons, List.nodup_cons] at hn
    rcases List.mem_cons.1 h with heq | h2
    · simp only [Prod.mk.injEq] at heq
      obtain ⟨rfl, rfl⟩ := heq
      simp [List.lookup_cons]
    · have hne : f ≠ a := by
        rintro rfl
        exact hn.1 (List.mem_map.2 ⟨(f, v), h2, rfl⟩)
      have hb : (f == a) = false := by simpa using hne
      rw [List.lookup_cons, hb]
      exact ih hn.2 h2

theorem lookup_of_not_mem (m : List (Int × GoString)) (f : Int)
    (h : ∀ v, (f, v) ∉ m) : m.lookup f = none := by
  induction m with
  | nil => rfl
  | cons x m ih =>
    obtain ⟨a, w⟩ := x
    have hne : f ≠ a := by
      rintro rfl
      exact h w (List.mem_cons_self _ _)
    have hb : (f == a) = false := by simpa using hne
    rw [List.lookup_cons, hb]
    exact ih (fun v hv => h v (List.mem_cons_of_mem _ hv))

theorem mem_of_lookup (m : List (Int × GoString)) (f : Int) (v : GoString)
    (h : m.lookup f = some v) : (f, v) ∈ m := by
  induction m with
  | nil => cases h
  | cons x m ih =>
    obtain ⟨a, w⟩ := x
    rw [List.lookup_cons] at h
    by_cases hfa : f = a
    · subst hfa
      simp only [beq_self_eq_true, Option.some.injEq] at h
      subst h
      exact List.mem_cons_self _ _
    · have hb : (f == a) = false := by simpa using hfa
      rw [hb] at h
      exact List.mem_cons_of_mem _ (ih h)

theorem mapHas_iff_mem (m : List (Int × GoString)) (f : Int) :
    mapHas m f = true ↔ ∃ v, (f, v) ∈ m := by
  unfold mapHas
  constructor
  · intro h
    obtain ⟨v, hv⟩ := Option.isSome_iff_exists.1 h
    exact ⟨v, mem_of_lookup m f v hv⟩
  · rintro ⟨v, hv⟩
    induction m with
    | nil => cases hv
    | cons x m ih =>
      obtain ⟨a, w⟩ := x
      rw [List.lookup_cons]
      by_cases hfa : f = a
      · subst hfa
        simp
      · have hb : (f == a) = false := by simpa using hfa
        rw [hb]
        rcases List.mem_cons.1 hv with heq | hv2
        · simp only [Prod.mk.injEq] at heq
          exact absurd heq.1 hfa
        · exact ih hv2

theorem AddField_frame (iso : IsoStruct) (field : Int) (data : GoString) :
    (iso.AddField field data).1.Spec = iso.Spec ∧ (iso.AddField field data).1.Mti = iso.Mti ∧
    (iso.AddField field data).1.Tpdu = iso.Tpdu := by
  unfold IsoStruct.AddField
  split
  · exact ⟨rfl, rfl, rfl⟩
  · split <;> exact ⟨rfl, rfl, rfl⟩

theorem AddField_in_range (iso : IsoStruct) (field : Int) (data : GoString)
    (hmap : iso.Elements.isNil = false)
    (h : 2 ≤ field ∧ field ≤ (iso.Bitmap.length : Int)) :
    (iso.AddField field data).1.Bitmap = iso.Bitmap.set (field - 1).toNat 1 ∧
    (iso.AddField field data).1.Elements.elements = mapSet iso.Elements.elements field data := by
  rw [AddField_allocated iso field data hmap, if_neg (by omega)]
  exact ⟨rfl, rfl⟩

theorem addAll_frame (es : List (Int × GoString)) :
    ∀ iso : IsoStruct,
      (runOps iso (es.map (fun e => Op.addField e.1 e.2))).Spec = iso.Spec ∧
      (runOps iso (es.map (fun e => Op.addField e.1 e.2))).Mti = iso.Mti ∧
      (runOps iso (es.map (fun e => Op.addField e.1 e.2))).Tpdu = iso.Tpdu := by
  induction es with
  | nil => intro iso; exact ⟨rfl, rfl, rfl⟩
  | cons e es ih =>
    intro iso
    obtain ⟨h1, h2, h3⟩ := ih (iso.AddField e.1 e.2).1
    obtain ⟨g1, g2, g3⟩ := AddField_frame iso e.1 e.2
    exact ⟨h1.trans g1, h2.trans g2, h3.trans g3⟩

theorem addAll_bitmap (es : List (Int × GoString)) :
    ∀ iso : IsoStruct, iso.Elements.isNil = false →
      (∀ e ∈ es, 2 ≤ e.1 ∧ e.1 ≤ (iso.Bitmap.length : Int)) → ∀ i : Nat,
      ((∃ e ∈ es, e.1 = (i : Int) + 1) →
        (runOps iso (es.map (fun e => Op.addField e.1 e.2))).Bitmap[i]? = some 1) ∧
      ((∀ e ∈ es, e.1 ≠ (i : Int) + 1) →
        (runOps iso (es.map (fun e => Op.addField e.1 e.2))).Bitmap[i]? = iso.Bitmap[i]?) := by
  induction es with
  | nil =>
    intro iso _ _ i
    refine ⟨?_, fun _ => rfl⟩
    rintro ⟨e, he, -⟩
    cases he
  | cons e es ih =>
    intro iso hmap hr i
    have hre := hr e (List.mem_cons_self _ _)
    obtain ⟨hbm, -⟩ := AddField_in_range iso e.1 e.2 hmap hre
    have hmap2 : (iso.AddField e.1 e.2).1.Elements.isNil = false := by
      rw [AddField_fst_isNil, hmap]
    have hlen : (iso.AddField e.1 e.2).1.Bitmap.length = iso.Bitmap.length :=
      AddField_fst_length iso e.1 e.2
    have hr2 : ∀ x ∈ es, 2 ≤ x.1 ∧ x.1 ≤ ((iso.AddField e.1 e.2).1.Bitmap.length : Int) := by
      intro x hx
      rw [hlen]
      exact hr x (List.mem_cons_of_mem _ hx)
    obtain ⟨ih1, ih2⟩ := ih (iso.AddField e.1 e.2).1 hmap2 hr2 i
    show (_ → (runOps (iso.AddField e.1 e.2).1 (es.map _)).Bitmap[i]? = some 1) ∧
      (_ → (runOps (iso.AddField e.1 e.2).1 (es.map _)).Bitmap[i]? = iso.Bitmap[i]?)
    constructor
    · rintro ⟨x, hx, hxi⟩
      by_cases hes : ∃ y ∈ es, y.1 = (i : Int) + 1
      · exact ih1 hes
      · have hall : ∀ y ∈ es, y.1 ≠ (i : Int) + 1 := fun y hy hyi => hes ⟨y, hy, hyi⟩
        rw [ih2 hall, hbm]
        rcases List.mem_cons.1 hx with rfl | hx2
        · have hi : (x.1 - 1).toNat = i := by omega
          have hlt : i < iso.Bitmap.length := by omega
          rw [hi, List.getElem?_set_self hlt]
        · exact absurd hxi (hall x hx2)
    · intro hall
      have he : e.1 ≠ (i : Int) + 1 := hall e (List.mem_cons_self _ _)
      rw [ih2 (fun y hy => hall y (List.mem_cons_of_mem _ hy)), hbm]
      have hne : (e.1 - 1).toNat ≠ i := by omega
      rw [List.getElem?_set_ne hne]

theorem addAll_get_not_mem (es : List (Int × GoString)) :
    ∀ (iso : IsoStruct) (f : Int), (∀ e ∈ es, e.1 ≠ f) →
      mapGet (runOps iso (es.map (fun e => Op.addField e.1 e.2))).Elements.elements f
        = mapGet iso.Elements.elements f := by
  induction es with
  | nil => intro iso f _; rfl
  | cons e es ih =>
    intro iso f h
    show mapGet (runOps (iso.AddField e.1 e.2).1 (es.map _)).Elements.elements f = _
    rw [ih _ f (fun y hy => h y (List.mem_cons_of_mem _ hy))]
    have he : e.1 ≠ f := h e (List.mem_cons_self _ _)
    unfold IsoStruct.AddField
    split
    · rfl
    · split
      · rfl
      · show mapGet (mapSet iso.Elements.elements e.1 e.2) f = _
        rw [mapGet_mapSet, if_neg (Ne.symm he)]

theorem addAll_get_mem (es : List (Int × GoString)) :
    ∀ iso : IsoStruct, iso.Elements.isNil = false → NodupKeys es →
      (∀ e ∈ es, 2 ≤ e.1 ∧ e.1 ≤ (iso.Bitmap.length : Int)) →
      ∀ (f : Int) (v : GoString), (f, v) ∈ es →
        mapGet (runOps iso (es.map (fun e => Op.addField e.1 e.2))).Elements.elements f = v := by
  induction es with
  | nil => intro iso _ _ _ f v h; cases h
  | cons e es ih =>
    intro iso hmap hn hr f v h
    unfold NodupKeys at hn ih
    simp only [List.map_cons, List.nodup_cons] at hn
    have hre := hr e (List.mem_cons_self _ _)
    obtain ⟨-, hel⟩ := AddField_in_range iso e.1 e.2 hmap hre
    have hmap2 : (iso.AddField e.1 e.2).1.Elements.isNil = false := by
      rw [AddField_fst_isNil, hmap]
    have hlen : (iso.AddField e.1 e.2).1.Bitmap.length = iso.Bitmap.length :=
      AddField_fst_length iso e.1 e.2
    show mapGet (runOps (iso.AddField e.1 e.2).1 (es.map _)).Elements.elements f = v
    rcases List.mem_cons.1 h with heq | h2
    · have hnot : ∀ y ∈ es, y.1 ≠ f := by
        intro y hy hyf
        apply hn.1
        rw [← heq]
        exact List.mem_map.2 ⟨y, hy, hyf⟩
      rw [addAll_get_not_mem es _ f hnot, hel, ← heq, mapGet_mapSet, if_pos rfl]
    · apply ih _ hmap2 hn.2 _ f v h2
      intro x hx
      rw [hlen]
      exact hr x (List.mem_cons_of_mem _ hx)

theorem nibbleBits_bits (n : Nat) : ∀ x ∈ nibbleBits n, x = 0 ∨ x = 1 := by
  intro x hx
  simp only [nibbleBits, List.mem_cons, List.mem_singleton, List.not_mem_nil, or_false] at hx
  rcases hx with rfl | rfl | rfl | rfl <;> omega

theorem HexToBitmapArray_bits (s : GoString) :
    ∀ bits, HexToBitmapArray s = .ok bits → ∀ x ∈ bits, x = 0 ∨ x = 1 := by
  induction s with
  | nil =>
    intro bits h x hx
    simp only [HexToBitmapArray, Except.ok.injEq] at h
    subst h
    cases hx
  | cons c cs ih =>
    intro bits h x hx
    rw [HexToBitmapArray] at h
    split at h
    · cases h
    · split at h
      · rename_i _ n hn _ bs hbs
        simp only [Except.ok.injEq] at h
        subst h
        rcases List.mem_append.1 hx with hx | hx
        · exact nibbleBits_bits n x hx
        · exact ih bs hbs x hx
      · cases h

theorem extractBitmap_shape (rest : GoString) (isHex : Bool) (bitmap : List Int)
    (elementsString : GoString)
    (h : extractBitmap rest isHex = .ok (bitmap, elementsString)) : BitmapShape bitmap := by
  obtain ⟨-, -, hlen, h0⟩ := extractBitmap_consumed rest isHex bitmap elementsString h
  have hbits : ∀ x ∈ bitmap, x = 0 ∨ x = 1 := by
    cases isHex with
    | false =>
      obtain ⟨n, -, -, -, hb⟩ := extractBitmap_text rest bitmap elementsString h
      exact HexToBitmapArray_bits _ bitmap hb
    | true =>
      obtain ⟨n, -, -, -, hb⟩ := extractBitmap_packed rest bitmap elementsString h
      exact HexToBitmapArray_bits _ bitmap hb
  refine ⟨hbits, ?_, ?_⟩
  · rw [hlen]
    split <;> simp
  · rw [hlen, h0]
    split <;> simp

theorem Parse_shape (iso : IsoStruct) (i : GoString) (useTpdu : Bool) (p : IsoStruct)
    (h : (iso.Parse i useTpdu).2 = .ok p) :
    BitmapShape p.Bitmap ∧ NodupKeys p.Elements.elements ∧ p.Spec = iso.Spec ∧
      (∃ b, MtiValidator p.Mti = .ok b) := by
  obtain ⟨tpdu, msg, bitmap, elementString, m, -, hb, hv, hm, rfl⟩ := Parse_ok iso i useTpdu p h
  refine ⟨extractBitmap_shape _ _ _ _ hb, ?_, rfl, hv⟩
  exact unpackLoop_NodupKeys _ _ _ _ _ m (by simp [NodupKeys]) hm

theorem NewISOStruct_get (spec : Spec) (sec : Bool) (i : Nat) :
    (NewISOStruct spec sec).Bitmap[i]?
      = if i < (if sec then 128 else 64) then some (if i = 0 ∧ sec = true then (1 : Int) else 0)
        else none := by
  cases sec with
  | false =>
    have hb : (NewISOStruct spec false).Bitmap = List.replicate 64 (0 : Int) := rfl
    rw [hb, List.getElem?_replicate]
    simp
  | true =>
    have hb : (NewISOStruct spec true).Bitmap = (List.replicate 128 (0 : Int)).set 0 1 := rfl
    rw [hb]
    by_cases hi : i = 0
    · subst hi
      rw [List.getElem?_set_self (by simp)]
      simp
    · rw [List.getElem?_set_ne (Ne.symm hi), List.getElem?_replicate]
      simp [hi]

theorem bit_cases (b : List Int) (hbits : ∀ x ∈ b, x = 0 ∨ x = 1) (i : Nat)
    (hi : i < b.length) : b[i]? = some 0 ∨ b[i]? = some 1 := by
  rw [List.getElem?_eq_getElem hi]
  rcases hbits _ (List.getElem_mem hi) with h | h
  · exact Or.inl (by rw [h])
  · exact Or.inr (by rw [h])

/-- C4: for every raw input on which `Parse(raw, true)` succeeds with result
`p`, the message built from `NewISOStruct` with a bitmap of the length of
`p`'s, `AddMTI(p's MTI)`, `Tpdu` set to `p`'s transport header, and
`AddField(f, v)` for every entry `(f, v)` of `p`'s element table, taken in any
order, has the same `ToString` result as `p`. -/
theorem rebuild_ToString (iso : IsoStruct) (raw : GoString) (p : IsoStruct)
    (es : List (Int × GoString))
    (hp : (iso.Parse raw true).2 = .ok p) (hes : es.Perm p.Elements.elements) :
    (rebuild iso.Spec p es).ToString = p.ToString := by
  obtain ⟨⟨hbits, hlen, h0⟩, hnd, hspec, bv, hv⟩ := Parse_shape iso raw true p hp
  have hkeys : ∀ e ∈ es, 2 ≤ e.1 ∧ p.Bitmap[(e.1 - 1).toNat]? = some 1 := by
    intro e he
    have hm : (e.1, e.2) ∈ p.Elements.elements := hes.mem_iff.1 he
    exact (Parse_keys iso raw true p hp e.1).1 ((mapHas_iff_mem _ _).2 ⟨e.2, hm⟩)
  have hnd2 : NodupKeys es := by
    unfold NodupKeys at hnd ⊢
    exact ((hes.map Prod.fst).nodup_iff).2 hnd
  have hmti : ((NewISOStruct iso.Spec (decide (p.Bitmap.length = 128))).AddMTI
      p.Mti.String).1.Mti = p.Mti := by
    unfold IsoStruct.AddMTI
    simp only [MtiType.String]
    rw [show ({ mti := p.Mti.mti } : MtiType) = p.Mti from rfl, hv]
  have hinitlen : (NewISOStruct iso.Spec (decide (p.Bitmap.length = 128))).Bitmap.length
      = p.Bitmap.length := by
    rcases hlen with h | h <;> rw [h] <;> rfl
  have hrange : ∀ e ∈ es, 2 ≤ e.1 ∧ e.1 ≤
      (({ ((NewISOStruct iso.Spec (decide (p.Bitmap.length = 128))).AddMTI p.Mti.String).1 with
        Tpdu := p.Tpdu } : IsoStruct).Bitmap.length : Int) := by
    intro e he
    obtain ⟨h2, hb⟩ := hkeys e he
    refine ⟨h2, ?_⟩
    obtain ⟨hlt, -⟩ := List.getElem?_eq_some.1 hb
    show e.1 ≤ ((((NewISOStruct iso.Spec (decide (p.Bitmap.length = 128))).AddMTI
      p.Mti.String).1.Bitmap.length : Nat) : Int)
    rw [AddMTI_fst_Bitmap, hinitlen]
    omega
  obtain ⟨fS, fM, fT⟩ := addAll_frame es
    { ((NewISOStruct iso.Spec (decide (p.Bitmap.length = 128))).AddMTI p.Mti.String).1 with
      Tpdu := p.Tpdu }
  have hinit : ({ ((NewISOStruct iso.Spec (decide (p.Bitmap.length = 128))).AddMTI
        p.Mti.String).1 with Tpdu := p.Tpdu } : IsoStruct).Elements.isNil = false := by
    show ((NewISOStruct iso.Spec _).AddMTI p.Mti.String).1.Elements.isNil = false
    rw [AddMTI_fst_Elements]
    rfl
  apply ToString_congr
  · show (rebuild iso.Spec p es).Spec = p.Spec
    unfold rebuild
    rw [fS, hspec]
    show ((NewISOStruct iso.Spec _).AddMTI p.Mti.String).1.Spec = iso.Spec
    unfold IsoStruct.AddMTI
    dsimp only
    cases MtiValidator { mti := p.Mti.String } <;> rfl
  · unfold rebuild
    rw [fM]
    exact hmti
  · unfold rebuild
    apply List.ext_getElem?
    intro i
    obtain ⟨hset, hkeep⟩ := addAll_bitmap es _ hinit hrange i
    by_cases hex : ∃ e ∈ es, e.1 = (i : Int) + 1
    · rw [hset hex]
      obtain ⟨e, he, hei⟩ := hex
      have := (hkeys e he).2
      have hi : (e.1 - 1).toNat = i := by omega
      rw [hi] at this
      exact this.symm
    · have hall : ∀ e ∈ es, e.1 ≠ (i : Int) + 1 := fun e he hei => hex ⟨e, he, hei⟩
      rw [hkeep hall]
      show ((NewISOStruct iso.Spec (decide (p.Bitmap.length = 128))).AddMTI
        p.Mti.String).1.Bitmap[i]? = p.Bitmap[i]?
      rw [AddMTI_fst_Bitmap, NewISOStruct_get]
      have hnot1 : 1 ≤ i → p.Bitmap[i]? ≠ some 1 := by
        intro h1 hb
        have hhas : mapHas p.Elements.elements ((i : Int) + 1) = true :=
          (Parse_keys iso raw true p hp _).2 ⟨by omega, by
            have : ((i : Int) + 1 - 1).toNat = i := by omega
            rw [this]
            exact hb⟩
        obtain ⟨v, hvm⟩ := (mapHas_iff_mem _ _).1 hhas
        exact hall _ (hes.mem_iff.2 hvm) rfl
      by_cases hil : i < p.Bitmap.length
      · have hlt : i < (if decide (p.Bitmap.length = 128) = true then 128 else 64) := by
          rcases hlen with h | h <;> simp [h] <;> omega
        rw [if_pos hlt]
        rcases Nat.eq_zero_or_pos i with rfl | hpos
        · rcases bit_cases p.Bitmap hbits 0 hil with hb | hb
          · have hne : ¬ p.Bitmap.length = 128 := fun h => by
              rw [h0.2 h] at hb
              simp at hb
            rw [hb]
            simp [hne]
          · rw [hb]
            simp [h0.1 hb]
        · rcases bit_cases p.Bitmap hbits i hil with hb | hb
          · rw [hb]
            have : ¬ i = 0 := by omega
            simp [this]
          · exact absurd hb (hnot1 hpos)
      · have hge : ¬ i < (if decide (p.Bitmap.length = 128) = true then 128 else 64) := by
          rcases hlen with h | h <;> simp [h] <;> omega
        rw [if_neg hge, List.getElem?_eq_none (by omega)]
  · unfold rebuild
    rw [fT]
  · intro f h2 hb
    have hhas : mapHas p.Elements.elements f = true :=
      (Parse_keys iso raw true p hp f).2 ⟨h2, hb⟩
    obtain ⟨v, hvm⟩ := (mapHas_iff_mem _ _).1 hhas
    unfold rebuild
    rw [addAll_get_mem es _ hinit hnd2 hrange f v (hes.mem_iff.2 hvm)]
    unfold mapGet
    rw [lookup_of_mem _ f v hnd hvm]
    rfl

/-! ## Scenarios: round trip and rebuilt message -/

theorem RoundTrips_iff (iso : IsoStruct) (raw : GoString) (useTpdu : Bool) :
    RoundTrips iso raw useTpdu ↔ reserialize (iso.Parse raw useTpdu).2 = .ok raw := by
  unfold RoundTrips reserialize
  constructor
  · rintro ⟨p, hp, ht⟩
    rw [hp]
    exact ht
  · intro h
    split at h
    · rename_i p hp
      exact ⟨p, hp, h⟩
    · cases h

set_option maxRecDepth 100000 in
/-- A witness of `fixed_round_trip`: the text of scenario A, parsed with
`useTpdu = false`. -/
theorem fixed_round_trip_witness :
    RoundTrips (NewISOStruct scenarioASpec true) scenarioARaw false :=
  fixed_round_trip (NewISOStruct scenarioASpec true) false [] (str "0200") scenarioABitmap
    (str "3220000000808000") scenarioAChunks (by decide) (by decide) (by decide)
    scenarioABitmap_shape (by decide) (by decide)

set_option maxRecDepth 100000 in
/-- C1 (as the claim states it, refuted): two well-formed messages of
fixed-length fields that `Parse` accepts and `ToString` does not reproduce.
For a registry that transmits the message type as text and the bitmap packed,
`ToString` emits the bitmap as text; and a bitmap text written with an
uppercase hex digit comes back in lowercase. -/
theorem fixed_round_trip_fails :
    (BitMapArrayToHex (bitsOfFields 64 []) = .ok (hex.EncodeToString (List.replicate 8 0)) ∧
      fixedFields mixedFlagSpec ((bitsOfFields 64 []).drop 1) 1 [] = true ∧
      mixedFlagRaw = mtiWire (str "0200") (mixedFlagSpec.field 0).HeaderHex
        ++ (bitmapWire (hex.EncodeToString (List.replicate 8 0)) (mixedFlagSpec.field 1).HeaderHex
          ++ List.flatten []) ∧
      reserialize ((NewISOStruct mixedFlagSpec false).Parse mixedFlagRaw false).2
        = .ok (str "0200" ++ hex.EncodeToString (List.replicate 8 0)) ∧
      ¬ RoundTrips (NewISOStruct mixedFlagSpec false) mixedFlagRaw false) ∧
    (HexToBitmapArray (str "0A00000000000000") = .ok (bitsOfFields 64 [5, 7]) ∧
      fixedFields upperCaseSpec ((bitsOfFields 64 [5, 7]).drop 1) 1 [str "abc", str "def"]
        = true ∧
      reserialize ((NewISOStruct upperCaseSpec false).Parse upperCaseRaw false).2
        = .ok (str ("0200" ++ "0a00000000000000" ++ "abc" ++ "def")) ∧
      ¬ RoundTrips (NewISOStruct upperCaseSpec false) upperCaseRaw false) :=
  ⟨⟨by decide, by decide, by decide, by decide,
      fun h => absurd ((RoundTrips_iff _ _ _).1 h) (by decide)⟩,
    ⟨by decide, by decide, by decide,
      fun h => absurd ((RoundTrips_iff _ _ _).1 h) (by decide)⟩⟩

set_option maxRecDepth 100000 in
theorem scenarioB_Parse :
    ((NewISOStruct scenarioBSpec true).Parse scenarioBRaw true).2 = .ok scenarioBParsed := by
  decide

/-- A witness of `rebuild_ToString`: the message of scenario B, rebuilt from
its entries in ascending field order as `TestMessageFromSample1` does. -/
theorem rebuild_ToString_witness :
    (rebuild scenarioBSpec scenarioBParsed scenarioBParsed.Elements.elements.reverse).ToString
      = scenarioBParsed.ToString :=
  rebuild_ToString (NewISOStruct scenarioBSpec true) scenarioBRaw scenarioBParsed
    scenarioBParsed.Elements.elements.reverse scenarioB_Parse (List.reverse_perm _)

/-! ## AddMTI -/

/-- C11: `AddMTI` is atomic: if the MTI validator rejects the text, `AddMTI`
returns that error and the whole message, the stored MTI included, is
unchanged; if the validator accepts it, `AddMTI` returns no error, the stored
MTI equals the text, and registry, bitmap, element table and transport header
are unchanged. -/
theorem AddMTI_atomic (iso : IsoStruct) (data : GoString) :
    (∀ e, MtiValidator { mti := data } = .error e →
      (iso.AddMTI data).2 = .error e ∧ (iso.AddMTI data).1 = iso) ∧
    (∀ b, MtiValidator { mti := data } = .ok b →
      (iso.AddMTI data).2 = .ok () ∧ (iso.AddMTI data).1.Mti.String = data ∧
      (iso.AddMTI data).1.Bitmap = iso.Bitmap ∧
      (iso.AddMTI data).1.Elements = iso.Elements ∧
      (iso.AddMTI data).1.Tpdu = iso.Tpdu ∧ (iso.AddMTI data).1.Spec = iso.Spec) := by
  constructor
  · intro e h
    simp [IsoStruct.AddMTI, h]
  · intro b h
    simp [IsoStruct.AddMTI, h, MtiType.String]

set_option maxRecDepth 100000 in
/-- A witness of `AddMTI_atomic`: on the parsed message of scenario A the text
`02x0` is rejected and the text `0210` is accepted. -/
theorem AddMTI_atomic_witness :
    ((scenarioAParsed.AddMTI (str "02x0")).2 = .error .err ∧
      (scenarioAParsed.AddMTI (str "02x0")).1 = scenarioAParsed) ∧
    ((scenarioAParsed.AddMTI (str "0210")).2 = .ok () ∧
      (scenarioAParsed.AddMTI (str "0210")).1.Mti.String = str "0210" ∧
      (scenarioAParsed.AddMTI (str "0210")).1.Bitmap = scenarioAParsed.Bitmap) :=
  ⟨(AddMTI_atomic scenarioAParsed (str "02x0")).1 .err (by decide),
   ((AddMTI_atomic scenarioAParsed (str "0210")).2 true (by decide)).1,
   ((AddMTI_atomic scenarioAParsed (str "0210")).2 true (by decide)).2.1,
   ((AddMTI_atomic scenarioAParsed (str "0210")).2 true (by decide)).2.2.1⟩

/-! ## The transport header on parse -/

theorem extractBitmap_nil (isHex : Bool) : extractBitmap [] isHex = .error .err := by
  unfold extractBitmap
  simp

/-- C12: with `useTpdu = true`, `Parse` returns an error on an input of fewer
than 5 bytes; on a longer input it returns what parsing the input without its
first 5 bytes returns with `useTpdu = false`, with those 5 bytes as the
transport header of the message, so that a successful parse has the first 5
bytes as transport header and MTI, bitmap and fields read from the rest.  With
`useTpdu = false` the transport header of the returned message is empty and
the MTI is read from the first byte of the input. -/
theorem Parse_transport_header (iso : IsoStruct) (i : GoString) :
    (i.length < 5 → (iso.Parse i true).2 = .error .err) ∧
    (5 ≤ i.length → (iso.Parse i true).2 =
      (match (iso.Parse (i.drop 5) false).2 with
        | .ok q => .ok { q with Tpdu := i.take 5 }
        | .error e => .error e)) ∧
    (∀ p, (iso.Parse i true).2 = .ok p → 5 ≤ i.length ∧ p.Tpdu = i.take 5) ∧
    (∀ p, (iso.Parse i false).2 = .ok p →
      p.Tpdu = [] ∧ p.Mti = (extractMTI i (iso.Spec.field 0).HeaderHex).1) := by
  have hshort : i.length < 5 → (iso.Parse i true).2 = .error .err := by
    intro h
    unfold IsoStruct.Parse
    simp only [extractTpdu, if_pos h, if_true]
    have hm : ∀ b, extractMTI [] b = ({ mti := [] }, []) := by
      intro b
      cases b <;> rfl
    simp only [hm, extractBitmap_nil]
  have hlong : 5 ≤ i.length → (iso.Parse i true).2 =
      (match (iso.Parse (i.drop 5) false).2 with
        | .ok q => .ok { q with Tpdu := i.take 5 }
        | .error e => .error e) := by
    intro h
    have hn : ¬ i.length < 5 := by omega
    unfold IsoStruct.Parse
    simp only [extractTpdu, if_neg hn, if_true, Bool.false_eq_true, if_false]
    cases extractBitmap (extractMTI (List.drop 5 i) (iso.Spec.field 0).HeaderHex).2
        (iso.Spec.field 1).HeaderHex with
    | error e => rfl
    | ok r =>
      obtain ⟨bitmap, elementString⟩ := r
      simp only
      cases MtiValidator (extractMTI (List.drop 5 i) (iso.Spec.field 0).HeaderHex).1 with
      | error e => rfl
      | ok b =>
        simp only
        cases unpackElements bitmap elementString iso.Spec with
        | error e => rfl
        | ok els => rfl
  refine ⟨hshort, hlong, ?_, ?_⟩
  · intro p hp
    by_cases h5 : i.length < 5
    · rw [hshort h5] at hp
      cases hp
    · refine ⟨by omega, ?_⟩
      rw [hlong (by omega)] at hp
      split at hp
      · simp only [Except.ok.injEq] at hp
        rw [← hp]
      · cases hp
  · intro p hp
    obtain ⟨tpdu, msg, bitmap, elementString, m, htm, -, -, -, rfl⟩ := Parse_ok iso i false p hp
    simp only [Bool.false_eq_true, if_false, Prod.mk.injEq] at htm
    obtain ⟨rfl, rfl⟩ := htm
    exact ⟨rfl, rfl⟩

set_option maxRecDepth 100000 in
/-- A witness of `Parse_transport_header`: the byte sequence of scenario B, and
a four-byte input. -/
theorem Parse_transport_header_witness :
    ((NewISOStruct scenarioBSpec true).Parse (str "6000") true).2 = .error .err ∧
    (5 ≤ scenarioBRaw.length ∧ scenarioBParsed.Tpdu = scenarioBRaw.take 5) ∧
    scenarioAParsed.Tpdu = [] :=
  ⟨(Parse_transport_header (NewISOStruct scenarioBSpec true) (str "6000")).1 (by decide),
   (Parse_transport_header (NewISOStruct scenarioBSpec true) scenarioBRaw).2.2.1
     scenarioBParsed scenarioB_Parse,
   ((Parse_transport_header (NewISOStruct scenarioASpec true) scenarioARaw).2.2.2
     scenarioAParsed scenarioA_Parse).1⟩

/-! ## Fixed-length extraction -/

/-- C14: for every payload `s` and every `max_length` `n ≥ 0`,
`getFieldValue(false, n, _, s)` returns an error if and only if `len(s) < n`,
and otherwise returns the first `n` characters of `s` as the value and the
remaining characters as the new cursor, so that value and cursor together are
`s`. -/
theorem getFieldValue_text (n : Int) (contain : String) (s : GoString) (hn : 0 ≤ n) :
    (getFieldValue false n contain s = .error .err ↔ (s.length : Int) < n) ∧
    (¬ (s.length : Int) < n →
      getFieldValue false n contain s = .ok (s.take n.toNat, s.drop n.toNat)) ∧
    (∀ v r, getFieldValue false n contain s = .ok (v, r) →
      v ++ r = s ∧ (v.length : Int) = n ∧ v = s.take n.toNat ∧ r = s.drop n.toNat) := by
  have hok : ¬ (s.length : Int) < n →
      getFieldValue false n contain s = .ok (s.take n.toNat, s.drop n.toNat) := by
    intro h
    have hle : n.toNat ≤ s.length := by omega
    have e1 := sliceTo_of_le s n.toNat hle
    have e2 := sliceFrom_of_le s n.toNat hle
    rw [Int.toNat_of_nonneg hn] at e1 e2
    unfold getFieldValue
    simp only [Bool.false_eq_true, if_false, if_neg h, e1, e2]
  refine ⟨?_, hok, ?_⟩
  · constructor
    · intro h
      by_contra hc
      rw [hok hc] at h
      cases h
    · intro h
      unfold getFieldValue
      simp only [Bool.false_eq_true, if_false, if_pos h]
  · intro v r h
    by_cases hc : (s.length : Int) < n
    · unfold getFieldValue at h
      simp only [Bool.false_eq_true, if_false, if_pos hc] at h
      cases h
    · rw [hok hc] at h
      simp only [Except.ok.injEq, Prod.mk.injEq] at h
      obtain ⟨rfl, rfl⟩ := h
      refine ⟨List.take_append_drop _ _, ?_, rfl, rfl⟩
      rw [List.length_take]
      omega

/-- A witness of `getFieldValue_text`: the first field of scenario A. -/
theorem getFieldValue_text_witness :
    getFieldValue false 6 "numeric" (str "000010000000001500")
      = .ok ((str "000010000000001500").take 6, (str "000010000000001500").drop 6) ∧
    (getFieldValue false 6 "numeric" (str "0000") = .error .err ↔
      (((str "0000").length : Nat) : Int) < 6) :=
  ⟨(getFieldValue_text 6 "numeric" (str "000010000000001500") (by decide)).2.1 (by decide),
   (getFieldValue_text 6 "numeric" (str "0000") (by decide)).1⟩

theorem EncodeToString_getElem? (bs : GoString) :
    ∀ i : Nat,
      (hex.EncodeToString bs)[2 * i]? = (bs[i]?).map (fun b => hexDigit (b.val / 16)) ∧
      (hex.EncodeToString bs)[2 * i + 1]? = (bs[i]?).map (fun b => hexDigit (b.val % 16)) := by
  induction bs with
  | nil => intro i; simp [hex.EncodeToString]
  | cons b bs ih =>
    intro i
    cases i with
    | zero => simp [hex.EncodeToString]
    | succ i =>
      have h1 : 2 * (i + 1) = (2 * i) + 1 + 1 := by omega
      rw [h1]
      simp only [hex.EncodeToString, List.getElem?_cons_succ]
      exact ih i

theorem ceilHalf_nonneg (n : Int) (hn : 0 ≤ n) : 0 ≤ ceilHalf n := by
  unfold ceilHalf
  omega

theorem wrapInt_of_range (x : Int) (h1 : -(2 ^ 63) ≤ x) (h2 : x < 2 ^ 63) : wrapInt x = x := by
  unfold wrapInt
  have e63 : (2 : Int) ^ 63 = 9223372036854775808 := by norm_num
  have e64 : (2 : Int) ^ 64 = 18446744073709551616 := by norm_num
  rw [e63, e64] at *
  omega

set_option maxRecDepth 100000 in
/-- C15 (as the claim states it, refuted): for `max_length = 2^63 - 1`, the
largest `int`, the claim has `k = 2^62` bytes consumed and an error for a
shorter payload; the code's `maxLen + 1` wraps, its length is `-2^62`, the
length test passes and the slice expression panics, on the empty payload and
on a payload of two bytes. -/
theorem getFieldValue_packed_wraps :
    (0 : Int) ≤ 2 ^ 63 - 1 ∧
    packedBytes (2 ^ 63 - 1) "numeric" = 2 ^ 62 ∧
    ((([] : GoString).length : Int) < packedBytes (2 ^ 63 - 1) "numeric") ∧
    getFieldValue true (2 ^ 63 - 1) "numeric" [] = .error .panic ∧
    getFieldValue true (2 ^ 63 - 1) "numeric" [0x12, 0x34] = .error .panic ∧
    getFieldValue true (2 ^ 63 - 1) "numeric" [] ≠ .error .err := by
  decide

/-- C15 (amended): for every payload `s` and every `max_length` `n` with
`0 ≤ n < 2^63 - 1`, `getFieldValue(true, n, contain, s)` consumes
`k = ceil(n/2)` raw bytes, or `2·ceil(n/2)` when `contain` is `chip-tag`; it
returns an error if and only if fewer than `k` bytes remain, and otherwise the
value is the lowercase hex-digit text of those `k` bytes (of length `2k`, byte
`i` giving the characters `2i` and `2i+1`) and the new cursor is `s` without
its first `k` bytes. -/
theorem getFieldValue_packed (n : Int) (contain : String) (s : GoString) (hn : 0 ≤ n)
    (hmax : n < 2 ^ 63 - 1) :
    0 ≤ packedBytes n contain ∧
    (getFieldValue true n contain s = .error .err ↔ (s.length : Int) < packedBytes n contain) ∧
    (¬ (s.length : Int) < packedBytes n contain →
      getFieldValue true n contain s
        = .ok (hex.EncodeToString (s.take (packedBytes n contain).toNat),
            s.drop (packedBytes n contain).toNat)) ∧
    (∀ v r, getFieldValue true n contain s = .ok (v, r) →
      r = s.drop (packedBytes n contain).toNat ∧
      (v.length : Int) = 2 * packedBytes n contain ∧
      ∀ i : Nat, i < (packedBytes n contain).toNat →
        v[2 * i]? = (s[i]?).map (fun b => hexDigit (b.val / 16)) ∧
        v[2 * i + 1]? = (s[i]?).map (fun b => hexDigit (b.val % 16))) := by
  have hk : 0 ≤ packedBytes n contain := by
    have := ceilHalf_nonneg n hn
    unfold packedBytes
    split <;> omega
  have hw : wrapInt (n + 1) = n + 1 := by
    have e63 : (2 : Int) ^ 63 = 9223372036854775808 := by norm_num
    apply wrapInt_of_range <;> omega
  have hlen : (if contain = "chip-tag" then
      (if n.tmod 2 ≠ 0 then (wrapInt (n + 1)).tdiv 2 else n.tdiv 2) * 2
      else (if n.tmod 2 ≠ 0 then (wrapInt (n + 1)).tdiv 2 else n.tdiv 2))
        = packedBytes n contain := by
    rw [hw, tdiv_ceilHalf]
    rfl
  have hok : ¬ (s.length : Int) < packedBytes n contain →
      getFieldValue true n contain s
        = .ok (hex.EncodeToString (s.take (packedBytes n contain).toNat),
            s.drop (packedBytes n contain).toNat) := by
    intro h
    have hle : (packedBytes n contain).toNat ≤ s.length := by omega
    have e1 := sliceTo_of_le s _ hle
    have e2 := sliceFrom_of_le s _ hle
    rw [Int.toNat_of_nonneg hk] at e1 e2
    unfold getFieldValue
    simp only [if_true, hlen, if_neg h, e1, e2]
  refine ⟨hk, ?_, hok, ?_⟩
  · constructor
    · intro h
      by_contra hc
      rw [hok hc] at h
      cases h
    · intro h
      unfold getFieldValue
      simp only [if_true, hlen, if_pos h]
  · intro v r h
    by_cases hc : (s.length : Int) < packedBytes n contain
    · unfold getFieldValue at h
      simp only [if_true, hlen, if_pos hc] at h
      cases h
    · rw [hok hc] at h
      simp only [Except.ok.injEq, Prod.mk.injEq] at h
      obtain ⟨rfl, rfl⟩ := h
      refine ⟨rfl, ?_, ?_⟩
      · rw [EncodeToString_length, List.length_take]
        omega
      · intro i hi
        obtain ⟨g1, g2⟩ := EncodeToString_getElem? (s.take (packedBytes n contain).toNat) i
        rw [g1, g2, List.getElem?_take_of_lt hi]
        exact ⟨rfl, rfl⟩

/-- A witness of `getFieldValue_packed`: the three bytes of field 3 of scenario
B, and two bytes for a field of three digits. -/
theorem getFieldValue_packed_witness :
    getFieldValue true 6 "numeric" [0x92, 0x00, 0x00, 0x00, 0x02]
      = .ok (hex.EncodeToString (List.take (packedBytes 6 "numeric").toNat
          [0x92, 0x00, 0x00, 0x00, 0x02]),
        List.drop (packedBytes 6 "numeric").toNat [0x92, 0x00, 0x00, 0x00, 0x02]) ∧
    packedBytes 6 "numeric" = 3 ∧ packedBytes 3 "numeric" = 2 ∧ packedBytes 3 "chip-tag" = 4 :=
  ⟨(getFieldValue_packed 6 "numeric" [0x92, 0x00, 0x00, 0x00, 0x02] (by decide)
      (by decide)).2.2.1 (by decide), by decide, by decide, by decide⟩

/-! ## Truncated input -/

set_option maxRecDepth 100000 in
/-- C13 (the code on truncated input): a prefix of the message of scenario A
that ends inside the bitmap text (after 1, 10 or 15 of its 16 characters), a
prefix of the byte sequence of scenario B that ends inside the packed bitmap,
and one that ends in front of or inside the two-byte length prefix of field
62, make `Parse` panic on an out-of-range slice; a prefix that ends inside the
message type, or inside a fixed-length field, makes `Parse` return an error. -/
theorem Parse_truncated :
    (((NewISOStruct scenarioASpec true).Parse (scenarioARaw.take 5) false).2 = .error .panic ∧
      ((NewISOStruct scenarioASpec true).Parse (scenarioARaw.take 14) false).2 = .error .panic ∧
      ((NewISOStruct scenarioASpec true).Parse (scenarioARaw.take 19) false).2 = .error .panic ∧
      ((NewISOStruct scenarioBSpec true).Parse (scenarioBRaw.take 10) true).2 = .error .panic ∧
      ((NewISOStruct scenarioBSpec true).Parse (scenarioBRaw.take 31) true).2 = .error .panic ∧
      ((NewISOStruct scenarioBSpec true).Parse (scenarioBRaw.take 32) true).2
        = .error .panic) ∧
    (((NewISOStruct scenarioASpec true).Parse (scenarioARaw.take 3) false).2 = .error .err ∧
      ((NewISOStruct scenarioASpec true).Parse (scenarioARaw.take 4) false).2 = .error .err ∧
      ((NewISOStruct scenarioASpec true).Parse (scenarioARaw.take 30) false).2 = .error .err ∧
      ((NewISOStruct scenarioBSpec true).Parse (scenarioBRaw.take 6) true).2 = .error .err ∧
      ((NewISOStruct scenarioBSpec true).Parse (scenarioBRaw.take 40) true).2 = .error .err) := by
  decide

/-! ## Packing a length-prefixed packed field -/

set_option maxRecDepth 100000 in
/-- C17 (the code on a three-digit prefix): for field 2 of `lllvarMessage`,
whose stored text is `abcd`, the prefix text is `004` and `packElements`
appends the bytes `00 4a bc`, the decodable part of the seven characters
`004abcd`: the decoder reports the odd length, the report is dropped, and the
last character is not represented.  The same happens to field 62 of scenario
B, whose 74 characters get the prefix `074`. -/
theorem packElements_odd_prefix :
    (leftPad (strconv.Itoa ((str "abcd").length : Int)) 3 (charByte '0') = str "004" ∧
      hex.DecodeString (str "004abcd") = ([0x00, 0x4a, 0xbc], true) ∧
      lllvarMessage.packElements = .ok [0x00, 0x4a, 0xbc] ∧
      hex.EncodeToString [0x00, 0x4a, 0xbc] = str "004abc") ∧
    (leftPad (strconv.Itoa ((mapGet scenarioBParsed.Elements.elements 62).length : Int)) 3
        (charByte '0') = str "074" ∧
      (hex.DecodeString (str "074" ++ mapGet scenarioBParsed.Elements.elements 62)).2 = true ∧
      scenarioBParsed.packElements
        = .ok ((hex.DecodeString (str ("920000" ++ "000299" ++ "0018"))).1 ++ str "77000033"
            ++ (hex.DecodeString (str "074" ++ mapGet scenarioBParsed.Elements.elements 62)).1) ∧
      ((hex.DecodeString (str "074" ++ mapGet scenarioBParsed.Elements.elements 62)).1.length
          = 38 ∧
        (str "074" ++ mapGet scenarioBParsed.Elements.elements 62).length = 77)) := by
  decide

/-! ## The composition of the serialized message -/

theorem ToString_composition (iso : IsoStruct) (s e : GoString)
    (hs : BitMapArrayToHex iso.Bitmap = .ok s) (he : iso.packElements = .ok e) :
    iso.ToString = .ok (iso.Tpdu
      ++ (if (iso.Spec.field 0).HeaderHex then (hex.DecodeString iso.Mti.String).1
          else iso.Mti.String)
      ++ (if (iso.Spec.field 0).HeaderHex then
            (if (iso.Spec.field 1).HeaderHex then (hex.DecodeString s).1 else [])
          else s)
      ++ e) := by
  unfold IsoStruct.ToString
  simp only [hs, he]
  cases (iso.Spec.field 0).HeaderHex with
  | true =>
    simp only [if_true]
    by_cases ht : iso.Tpdu.length > 0
    · simp [ht]
    · have : iso.Tpdu = [] := List.eq_nil_of_length_eq_zero (by omega)
      simp [this]
  | false =>
    simp only [Bool.false_eq_true, if_false]
    by_cases ht : iso.Tpdu.length > 0
    · simp [ht]
    · have : iso.Tpdu = [] := List.eq_nil_of_length_eq_zero (by omega)
      simp [this]

set_option maxRecDepth 100000 in
/-- C19 (the code on registries whose descriptors 0 and 1 differ): with the
message type as text and the bitmap descriptor packed, `ToString` emits the
bitmap as its 16 characters of hex text, not as the 8 bytes they decode to;
with the message type packed and the bitmap descriptor not packed, `ToString`
emits the two bytes of the message type and no bitmap at all. -/
theorem ToString_mixed_flags :
    ((mixedFlagSpec.field 0).HeaderHex = false ∧ (mixedFlagSpec.field 1).HeaderHex = true ∧
      BitMapArrayToHex (emptyMessage mixedFlagSpec).Bitmap
        = .ok (hex.EncodeToString (List.replicate 8 0)) ∧
      (emptyMessage mixedFlagSpec).ToString
        = .ok (str "0200" ++ hex.EncodeToString (List.replicate 8 0)) ∧
      (emptyMessage mixedFlagSpec).ToString ≠ .ok (str "0200" ++ List.replicate 8 0)) ∧
    ((mixedFlagSpecPacked.field 0).HeaderHex = true ∧
      (mixedFlagSpecPacked.field 1).HeaderHex = false ∧
      (emptyMessage mixedFlagSpecPacked).ToString = .ok [0x02, 0x00] ∧
      (emptyMessage mixedFlagSpecPacked).ToString
        ≠ .ok ([0x02, 0x00] ++ hex.EncodeToString (List.replicate 8 0))) := by
  decide

/-! ## Packing text fields, and the order of the fields -/

theorem fieldsFrom_eq (bits : List Int) :
    ∀ index : Nat, fieldsFrom bits index
      = ((List.range bits.length).filter (fun i => decide (bits[i]? = some 1))).map
          (fun (i : Nat) => (index : Int) + i + 1) := by
  induction bits with
  | nil => intro index; rfl
  | cons bit rest ih =>
    intro index
    have hf : (List.filter (fun i => decide ((bit :: rest)[i]? = some 1))
          (List.map Nat.succ (List.range rest.length)))
        = List.map Nat.succ (List.filter (fun i => decide (rest[i]? = some 1))
            (List.range rest.length)) := by
      rw [List.filter_map]
      have hp : ((fun i => decide ((bit :: rest)[i]? = some 1)) ∘ Nat.succ)
          = (fun i => decide (rest[i]? = some 1)) := by
        funext i
        simp
      rw [hp]
    have hm : List.map (fun i : Nat => (index : Int) + i + 1)
          (List.map Nat.succ (List.filter (fun i => decide (rest[i]? = some 1))
            (List.range rest.length)))
        = List.map (fun i : Nat => ((index + 1 : Nat) : Int) + i + 1)
            (List.filter (fun i => decide (rest[i]? = some 1)) (List.range rest.length)) := by
      rw [List.map_map]
      apply List.map_congr_left
      intro i _
      simp only [Function.comp, Nat.succ_eq_add_one]
      push_cast
      ring
    rw [fieldsFrom, List.length_cons, List.range_succ_eq_map, List.filter_cons]
    by_cases hbit : bit = 1
    · simp only [hbit, if_true, List.getElem?_cons_zero, decide_True, List.map_cons,
        Nat.cast_zero, add_zero]
      rw [ih (index + 1)]
      congr 1
      rw [← hm]
      congr 1
      subst hbit
      exact hf.symm
    · have h0 : decide ((bit :: rest)[0]? = some 1) = false := by
        simp [hbit]
      simp only [hbit, if_false, h0, Bool.false_eq_true]
      rw [ih (index + 1), ← hm, hf]

theorem presentFields_eq (bitmap : List Int) :
    presentFields bitmap = fieldsFrom (bitmap.drop 1) 1 := by
  cases bitmap with
  | nil => rfl
  | cons b0 rest =>
    rw [fieldsFrom_eq]
    unfold presentFields
    rw [List.length_cons, List.range_succ_eq_map, List.filter_cons]
    have h0 : (decide (1 ≤ 0) && decide ((b0 :: rest)[0]? = some 1)) = false := by simp
    rw [if_neg (by simp)]
    rw [List.filter_map, List.map_map]
    simp only [List.drop_succ_cons, List.drop_zero]
    have hp : ((fun i => decide (1 ≤ i) && decide ((b0 :: rest)[i]? = some 1)) ∘ Nat.succ)
        = (fun i => decide (rest[i]? = some 1)) := by
      funext i
      simp
    rw [hp]
    apply List.map_congr_left
    intro i _
    simp only [Function.comp, Nat.succ_eq_add_one]
    push_cast
    ring

theorem packLoop_text (spec : Spec) (m : List (Int × GoString)) (bits : List Int) :
    ∀ (index : Nat) (acc : GoString),
      (∀ f ∈ fieldsFrom bits index, (spec.field f).HeaderHex = false ∧ KnownKind (spec.field f)) →
      packLoop spec m bits index acc
        = .ok (acc ++ ((fieldsFrom bits index).map (mapGet m)).flatten) := by
  induction bits with
  | nil => intro index acc _; simp [packLoop, fieldsFrom]
  | cons bit rest ih =>
    intro index acc h
    rw [packLoop, fieldsFrom]
    by_cases hbit : bit = 1
    · simp only [hbit, if_true]
      have hrest : ∀ f ∈ fieldsFrom rest (index + 1),
          (spec.field f).HeaderHex = false ∧ KnownKind (spec.field f) := by
        intro f hf
        apply h
        rw [fieldsFrom, if_pos hbit]
        exact List.mem_cons_of_mem _ hf
      obtain ⟨hhex, hkind⟩ := h ((index : Int) + 1) (by
        rw [fieldsFrom, if_pos hbit]
        exact List.mem_cons_self _ _)
      simp only [hhex, Bool.false_eq_true, if_false, List.map_cons, List.flatten_cons]
      by_cases hfix : (spec.field ((index : Int) + 1)).LenType = "fixed"
      · simp only [hfix, if_true]
        rw [ih (index + 1) _ hrest, List.append_assoc]
      · have hvar : ∃ w, getVariableLengthFromString (spec.field ((index : Int) + 1)).LenType
            = .ok w := by
          unfold getVariableLengthFromString
          rcases hkind with h1 | h1 | h1 | h1
          · exact absurd h1 hfix
          · exact ⟨2, by simp [h1]⟩
          · exact ⟨3, by simp [h1]⟩
          · exact ⟨4, by simp [h1]⟩
        obtain ⟨w, hw⟩ := hvar
        simp only [hfix, if_false, hw]
        rw [ih (index + 1) _ hrest, List.append_assoc]
    · simp only [hbit, if_false]
      apply ih (index + 1) acc
      intro f hf
      apply h
      rw [fieldsFrom, if_neg hbit]
      exact hf

theorem mem_presentFields (bitmap : List Int) (f : Int) :
    f ∈ presentFields bitmap ↔
      (2 ≤ f ∧ f ≤ (bitmap.length : Int) ∧ bitmap[(f - 1).toNat]? = some 1) := by
  unfold presentFields
  simp only [List.mem_map, List.mem_filter, List.mem_range, Bool.and_eq_true,
    decide_eq_true_eq]
  constructor
  · rintro ⟨i, ⟨hi, h1, hb⟩, rfl⟩
    refine ⟨by omega, by omega, ?_⟩
    have : ((i : Int) + 1 - 1).toNat = i := by omega
    rw [this]
    exact hb
  · rintro ⟨h2, hl, hb⟩
    refine ⟨(f - 1).toNat, ⟨by omega, by omega, hb⟩, by omega⟩

/-- C18: for every message whose present fields all have `packed_hex = false`
and a valid length kind (`fixed`, `llvar`, `lllvar`, `llllvar`),
`packElements` returns exactly the concatenation of the stored value texts,
verbatim and with no length prefix, over the fields that the bitmap positions
`1 .. len-1` mark, in strictly ascending field number; the field numbers lie
between 2 and the bitmap length, so position 0 never contributes a field. -/
theorem packElements_text (iso : IsoStruct)
    (h : ∀ f ∈ presentFields iso.Bitmap,
      (iso.Spec.field f).HeaderHex = false ∧ KnownKind (iso.Spec.field f)) :
    iso.packElements
      = .ok ((presentFields iso.Bitmap).map (mapGet iso.Elements.elements)).flatten ∧
    (presentFields iso.Bitmap).Pairwise (fun a b => a < b) ∧
    (∀ f : Int, f ∈ presentFields iso.Bitmap ↔
      (2 ≤ f ∧ f ≤ (iso.Bitmap.length : Int) ∧ iso.Bitmap[(f - 1).toNat]? = some 1)) := by
  refine ⟨?_, ?_, mem_presentFields iso.Bitmap⟩
  · unfold IsoStruct.packElements
    rw [presentFields_eq] at h ⊢
    rw [packLoop_text iso.Spec _ _ 1 [] h]
    rfl
  · unfold presentFields
    apply List.Pairwise.map _ _ ((List.pairwise_lt_range _).filter _)
    intro a b hab
    omega

set_option maxRecDepth 100000 in
/-- A witness of `packElements_text`: the length-prefixed text field 2 and the
fixed text field 4 of `llvarTextMessage` are packed as `hello` and `abc`,
without a prefix. -/
theorem packElements_text_witness :
    llvarTextMessage.packElements
      = .ok ((presentFields llvarTextMessage.Bitmap).map
          (mapGet llvarTextMessage.Elements.elements)).flatten ∧
    presentFields llvarTextMessage.Bitmap = [2, 4] ∧
    ((presentFields llvarTextMessage.Bitmap).map
      (mapGet llvarTextMessage.Elements.elements)).flatten = str "helloabc" :=
  ⟨(packElements_text llvarTextMessage (by unfold KnownKind; decide)).1, by decide, by decide⟩

/-! ## Fields of unknown kind -/

theorem getVariableLengthFromString_ok (s : String) (w : Int)
    (h : getVariableLengthFromString s = .ok w) :
    (s = "llvar" ∧ w = 2) ∨ (s = "lllvar" ∧ w = 3) ∨ (s = "llllvar" ∧ w = 4) := by
  unfold getVariableLengthFromString at h
  split at h
  · simp only [Except.ok.injEq] at h
    exact Or.inl ⟨by assumption, h.symm⟩
  · split at h
    · simp only [Except.ok.injEq] at h
      exact Or.inr (Or.inl ⟨by assumption, h.symm⟩)
    · split at h
      · simp only [Except.ok.injEq] at h
        exact Or.inr (Or.inr ⟨by assumption, h.symm⟩)
      · cases h

theorem getVariableLengthFromString_error (s : String) (e : Fault)
    (h : getVariableLengthFromString s = .error e) : e = .err := by
  unfold getVariableLengthFromString at h
  split at h
  · cases h
  · split at h
    · cases h
    · split at h
      · cases h
      · simp only [Except.error.injEq] at h
        exact h.symm

theorem getVariableLengthFromString_unknown (fd : FieldDescription) (h : ¬ KnownKind fd) :
    fd.LenType ≠ "fixed" ∧ getVariableLengthFromString fd.LenType = .error .err := by
  unfold KnownKind at h
  simp only [not_or] at h
  obtain ⟨h1, h2, h3, h4⟩ := h
  refine ⟨h1, ?_⟩
  unfold getVariableLengthFromString
  rw [if_neg h2, if_neg h3, if_neg h4]

theorem extractField_ok_known (spec : Spec) (field : Int) (s : GoString)
    (r : GoString × GoString) (h : extractFieldFromElements spec field s = .ok r) :
    KnownKind (spec.field field) := by
  by_contra hk
  obtain ⟨h1, h2⟩ := getVariableLengthFromString_unknown _ hk
  unfold extractFieldFromElements at h
  simp only [h1, if_false, h2] at h
  cases h

theorem unpackLoop_known (spec : Spec) (bits : List Int) :
    ∀ (index : Nat) (cur : GoString) (m m2 : List (Int × GoString)),
      unpackLoop spec bits index cur m = .ok m2 →
      ∀ f ∈ fieldsFrom bits index, KnownKind (spec.field f) := by
  induction bits with
  | nil => intro index cur m m2 _ f hf; cases hf
  | cons bit rest ih =>
    intro index cur m m2 h f hf
    rw [unpackLoop] at h
    rw [fieldsFrom] at hf
    by_cases hbit : bit = 1
    · rw [if_pos hbit] at h hf
      dsimp only at h
      split at h
      · rename_i v substr hx
        rcases List.mem_cons.1 hf with rfl | hf2
        · exact extractField_ok_known spec _ cur _ hx
        · exact ih _ _ _ m2 h f hf2
      · cases h
    · rw [if_neg hbit] at h hf
      exact ih _ _ _ m2 h f hf

theorem packLoop_unknown (spec : Spec) (m : List (Int × GoString)) (bits : List Int) :
    ∀ (index : Nat) (acc : GoString),
      (∃ f ∈ fieldsFrom bits index, ¬ KnownKind (spec.field f)) →
      packLoop spec m bits index acc = .error .err := by
  induction bits with
  | nil => intro index acc ⟨f, hf, _⟩; cases hf
  | cons bit rest ih =>
    intro index acc ⟨f, hf, hk⟩
    rw [fieldsFrom] at hf
    rw [packLoop]
    by_cases hbit : bit = 1
    · rw [if_pos hbit] at hf
      simp only [hbit, if_true]
      by_cases hk0 : KnownKind (spec.field ((index : Int) + 1))
      · have hf2 : f ∈ fieldsFrom rest (index + 1) := by
          rcases List.mem_cons.1 hf with rfl | hf2
          · exact absurd hk0 hk
          · exact hf2
        have hrec : ∀ acc2, packLoop spec m rest (index + 1) acc2 = .error .err :=
          fun acc2 => ih (index + 1) acc2 ⟨f, hf2, hk⟩
        by_cases hfix : (spec.field ((index : Int) + 1)).LenType = "fixed"
        · simp only [hfix, if_true]
          split <;> exact hrec _
        · simp only [hfix, if_false]
          split
          · rename_i e he
            rw [(getVariableLengthFromString_error _ e he)]
          · split <;> exact hrec _
      · obtain ⟨h1, h2⟩ := getVariableLengthFromString_unknown _ hk0
        simp only [h1, if_false, h2]
    · rw [if_neg hbit] at hf
      simp only [hbit, if_false]
      exact ih (index + 1) acc ⟨f, hf, hk⟩

theorem BitMapArrayToHex_error (b : List Int) :
    ∀ e, BitMapArrayToHex b = .error e → e = .err := by
  induction b using BitMapArrayToHex.induct with
  | case1 => intro e h; cases h
  | case2 b3 b2 b1 b0 rest hb s hs ih =>
    intro e h
    rw [BitMapArrayToHex, if_pos hb, hs] at h
    cases h
  | case3 b3 b2 b1 b0 rest hb e2 hs ih =>
    intro e h
    rw [BitMapArrayToHex, if_pos hb, hs] at h
    simp only [Except.error.injEq] at h
    rw [← h]
    exact ih e2 hs
  | case4 b3 b2 b1 b0 rest hb =>
    intro e h
    rw [BitMapArrayToHex, if_neg hb] at h
    simp only [Except.error.injEq] at h
    exact h.symm
  | case5 b h1 h2 =>
    intro e h
    rw [BitMapArrayToHex] at h
    · simp only [Except.error.injEq] at h
      exact h.symm
    · exact h1
    · exact h2

theorem Parse_known (iso : IsoStruct) (i : GoString) (useTpdu : Bool) (p : IsoStruct)
    (h : (iso.Parse i useTpdu).2 = .ok p) :
    ∀ f ∈ presentFields p.Bitmap, KnownKind (iso.Spec.field f) := by
  obtain ⟨tpdu, msg, bitmap, elementString, m, -, -, -, hm, rfl⟩ := Parse_ok iso i useTpdu p h
  intro f hf
  rw [presentFields_eq] at hf
  exact unpackLoop_known _ _ _ _ _ m hm f hf

theorem ToString_unknown (iso : IsoStruct)
    (h : ∃ f ∈ presentFields iso.Bitmap, ¬ KnownKind (iso.Spec.field f)) :
    iso.ToString = .error .err := by
  unfold IsoStruct.ToString
  cases hb : BitMapArrayToHex iso.Bitmap with
  | error e =>
    simp only
    rw [BitMapArrayToHex_error _ e hb]
  | ok s =>
    have hp : iso.packElements = .error .err := by
      unfold IsoStruct.packElements
      apply packLoop_unknown
      rw [← presentFields_eq]
      exact h
    simp only [hp]

set_option maxRecDepth 100000 in
/-- C20 (the code on a field without a usable descriptor): `Parse` never
returns a message whose bitmap marks a field that has no descriptor or a
descriptor of another length kind than `fixed`, `llvar`, `lllvar`, `llllvar`,
and `ToString` returns an error for a message whose bitmap marks such a field.
`Parse` returns the error when it reaches the field (fields 2 and 3 marked,
field 3 without descriptor, field 2 complete); it panics on an out-of-range
slice when the length-prefixed field 2 in front of it is cut short. -/
theorem unknown_field (iso : IsoStruct) (i : GoString) (useTpdu : Bool) :
    (∀ p, (iso.Parse i useTpdu).2 = .ok p →
      ∀ f ∈ presentFields p.Bitmap, KnownKind (iso.Spec.field f)) ∧
    ((∃ f ∈ presentFields iso.Bitmap, ¬ KnownKind (iso.Spec.field f)) →
      iso.ToString = .error .err) ∧
    ((extractBitmap (str ("6000000000000000" ++ "1")) false).map
        (fun r => presentFields r.1) = .ok [2, 3] ∧
      ¬ KnownKind (llvarTextSpec.field 3) ∧
      ((NewISOStruct llvarTextSpec false).Parse
        (str ("0200" ++ "6000000000000000" ++ "02hi")) false).2 = .error .err ∧
      ((NewISOStruct llvarTextSpec false).Parse
        (str ("0200" ++ "6000000000000000" ++ "1")) false).2 = .error .panic) := by
  refine ⟨fun p hp => Parse_known iso i useTpdu p hp, ToString_unknown iso, ?_⟩
  unfold KnownKind
  decide

/-! ## Length-prefixed extraction -/

theorem parseDigits_all (ds : GoString) :
    ∀ acc : Nat, ds.all isDigit = true →
      parseDigits ds acc = some (ds.foldl (fun a c => a * 10 + (c.val - 48)) acc) := by
  induction ds with
  | nil => intro acc _; rfl
  | cons c cs ih =>
    intro acc h
    simp only [List.all_cons, Bool.and_eq_true] at h
    have hc : 48 ≤ c.val ∧ c.val ≤ 57 := by simpa [isDigit] using h.1
    rw [parseDigits, if_pos hc, List.foldl_cons]
    exact ih _ h.2

theorem parseDigits_none (ds : GoString) :
    ∀ acc : Nat, ds.all isDigit = false → parseDigits ds acc = none := by
  induction ds with
  | nil => intro acc h; simp at h
  | cons c cs ih =>
    intro acc h
    rw [parseDigits]
    by_cases hc : 48 ≤ c.val ∧ c.val ≤ 57
    · rw [if_pos hc]
      apply ih
      have hd : isDigit c = true := by simpa [isDigit] using hc
      simpa [List.all_cons, hd] using h
    · rw [if_neg hc]

theorem foldl_digits_lt (ds : GoString) :
    ∀ acc : Nat, ds.all isDigit = true →
      ds.foldl (fun a c => a * 10 + (c.val - 48)) acc < (acc + 1) * 10 ^ ds.length := by
  induction ds with
  | nil => intro acc _; simp
  | cons c cs ih =>
    intro acc h
    simp only [List.all_cons, Bool.and_eq_true] at h
    have hc : 48 ≤ c.val ∧ c.val ≤ 57 := by simpa [isDigit] using h.1
    rw [List.foldl_cons, List.length_cons]
    refine lt_of_lt_of_le (ih _ h.2) ?_
    rw [pow_succ, Nat.mul_comm (10 ^ cs.length) 10, ← Nat.mul_assoc]
    apply Nat.mul_le_mul_right
    omega

theorem decimalValue_lt (t : GoString) (hd : isDecimal t = true) (hl : t.length ≤ 18) :
    decimalValue t < 2 ^ 63 := by
  simp only [isDecimal, Bool.and_eq_true] at hd
  have h1 := foldl_digits_lt t 0 hd.2
  have h2 : 10 ^ t.length ≤ 10 ^ 18 := Nat.pow_le_pow_right (by decide) hl
  unfold decimalValue
  have h3 : (10 : Nat) ^ 18 < 2 ^ 63 := by decide
  omega

theorem ParseInt_not_decimal (t : GoString) (h : isDecimal (unsigned t) = false) :
    strconv.ParseInt t = .error .err := by
  cases t with
  | nil => rfl
  | cons c cs =>
    unfold strconv.ParseInt
    simp only [unsigned] at h
    simp only
    cases hds : (if c = charByte '+' ∨ c = charByte '-' then cs else c :: cs) with
    | nil => rfl
    | cons d ds1 =>
      rw [hds] at h
      have hall : (d :: ds1).all isDigit = false := by
        simpa [isDecimal] using h
      simp only [parseDigits_none _ 0 hall]

theorem ParseInt_decimal (t : GoString) (hd : isDecimal t = true) (hl : t.length ≤ 18) :
    strconv.ParseInt t = .ok (decimalValue t : Int) := by
  have hlt := decimalValue_lt t hd hl
  simp only [isDecimal, Bool.and_eq_true] at hd
  cases t with
  | nil => simp at hd
  | cons c cs =>
    have hall := hd.2
    have hc : isDigit c = true := by
      simp only [List.all_cons, Bool.and_eq_true] at hall
      exact hall.1
    have hcd : 48 ≤ c.val ∧ c.val ≤ 57 := by simpa [isDigit] using hc
    have hplus : ¬ (c = charByte '+' ∨ c = charByte '-') := by
      rintro (h | h) <;> rw [h] at hcd <;> revert hcd <;> decide
    have hneg : ¬ c = charByte '-' := fun h => hplus (Or.inr h)
    have hge : ¬ decimalValue (c :: cs) ≥ 2 ^ 63 := by omega
    unfold decimalValue at hge ⊢
    have hp1 : ¬ c = charByte '+' := fun h => hplus (Or.inl h)
    unfold strconv.ParseInt
    simp only [hp1, hneg, or_self, decide_False, Bool.false_eq_true, if_false]
    rw [parseDigits_all _ 0 hall]
    simp only [if_neg hge]

theorem ParseInt_plus (t : GoString) (hd : isDecimal t = true) (hl : t.length ≤ 18) :
    strconv.ParseInt (charByte '+' :: t) = .ok (decimalValue t : Int) := by
  have hlt := decimalValue_lt t hd hl
  simp only [isDecimal, Bool.and_eq_true] at hd
  cases t with
  | nil => simp at hd
  | cons c cs =>
    have hall := hd.2
    have hneg : ¬ charByte '+' = charByte '-' := by decide
    have hge : ¬ decimalValue (c :: cs) ≥ 2 ^ 63 := by omega
    unfold decimalValue at hge ⊢
    unfold strconv.ParseInt
    simp only [true_or, if_true, hneg, decide_False, Bool.false_eq_true, if_false]
    rw [parseDigits_all _ 0 hall]
    simp only [if_neg hge]

theorem extractField_prefixed (spec : Spec) (field : Int) (s : GoString) (w : Int)
    (hw : getVariableLengthFromString (spec.field field).LenType = .ok w)
    (hlen : prefixUnits (spec.field field) w ≤ s.length) :
    extractFieldFromElements spec field s =
      (match strconv.ParseInt (prefixText (spec.field field) w s) with
        | .error e => .error e
        | .ok n =>
          getFieldValue (spec.field field).HeaderHex
            (if (spec.field field).Contain = "string" then n * 2 else n)
            (spec.field field).Contain (s.drop (prefixUnits (spec.field field) w))) := by
  have hkind := getVariableLengthFromString_ok _ w hw
  have hfix : ¬ (spec.field field).LenType = "fixed" := by
    rcases hkind with ⟨h, -⟩ | ⟨h, -⟩ | ⟨h, -⟩ <;> rw [h] <;> decide
  have hw0 : 0 ≤ w := by
    rcases hkind with ⟨-, h⟩ | ⟨-, h⟩ | ⟨-, h⟩ <;> omega
  have hunits : (if (spec.field field).HeaderHex = true then
        (if w.tmod 2 ≠ 0 then (w + 1).tdiv 2 else w.tdiv 2) else w)
      = ((prefixUnits (spec.field field) w : Nat) : Int) := by
    unfold prefixUnits
    rw [tdiv_ceilHalf]
    have := ceilHalf_nonneg w hw0
    split <;> omega
  unfold extractFieldFromElements
  simp only [hfix, if_false, hw, hunits]
  rw [sliceTo_of_le s _ hlen, sliceFrom_of_le s _ hlen]
  unfold prefixText
  cases (spec.field field).HeaderHex with
  | true =>
    simp only [if_true, Except.map]
  | false =>
    simp only [Bool.false_eq_true, if_false]

theorem prefixText_length (fd : FieldDescription) (w : Int) (s : GoString)
    (hw : w = 2 ∨ w = 3 ∨ w = 4) : (prefixText fd w s).length ≤ 18 := by
  have hu : prefixUnits fd w ≤ 4 := by
    unfold prefixUnits ceilHalf
    split <;> omega
  unfold prefixText
  split
  · rw [EncodeToString_length, List.length_take]
    omega
  · rw [List.length_take]
    omega

theorem extractField_prefixed_decimal (spec : Spec) (field : Int) (s : GoString) (w : Int)
    (hw : getVariableLengthFromString (spec.field field).LenType = .ok w)
    (hlen : prefixUnits (spec.field field) w ≤ s.length) :
    (isDecimal (unsigned (prefixText (spec.field field) w s)) = false →
      extractFieldFromElements spec field s = .error .err) ∧
    (isDecimal (prefixText (spec.field field) w s) = true →
      extractFieldFromElements spec field s =
        getFieldValue (spec.field field).HeaderHex
          (if (spec.field field).Contain = "string"
            then (decimalValue (prefixText (spec.field field) w s) : Int) * 2
            else (decimalValue (prefixText (spec.field field) w s) : Int))
          (spec.field field).Contain (s.drop (prefixUnits (spec.field field) w))) := by
  have hkind : w = 2 ∨ w = 3 ∨ w = 4 := by
    rcases getVariableLengthFromString_ok _ w hw with ⟨-, h⟩ | ⟨-, h⟩ | ⟨-, h⟩
    · exact Or.inl h
    · exact Or.inr (Or.inl h)
    · exact Or.inr (Or.inr h)
  constructor
  · intro h
    rw [extractField_prefixed spec field s w hw hlen, ParseInt_not_decimal _ h]
  · intro h
    rw [extractField_prefixed spec field s w hw hlen,
      ParseInt_decimal _ h (prefixText_length _ w s hkind)]

set_option maxRecDepth 100000 in
/-- C16 (the code on a signed prefix): for the two-digit length-prefixed text
field 2 of `llvarTextSpec`, the prefix `+5` is accepted as 5, and the prefix
`-5` is read as -5 and makes the extraction panic on an out-of-range slice, as
does a payload shorter than the prefix; a prefix with a character that is
neither a digit nor a leading sign returns an error, and the prefix `05` gives
what fixed-length extraction with `max_length = 5` gives. -/
theorem extractField_signed_prefix :
    (extractFieldFromElements llvarTextSpec 2 (str "+5hello") = .ok (str "hello", []) ∧
      extractFieldFromElements llvarTextSpec 2 (str "-5hello") = .error .panic ∧
      extractFieldFromElements llvarTextSpec 2 (str "5") = .error .panic) ∧
    (isDecimal (str "+5") = false ∧ isDecimal (str "-5") = false ∧
      strconv.ParseInt (str "+5") = .ok 5 ∧ strconv.ParseInt (str "-5") = .ok (-5)) ∧
    (extractFieldFromElements llvarTextSpec 2 (str "0xhello") = .error .err ∧
      extractFieldFromElements llvarTextSpec 2 (str "05hello!")
        = getFieldValue false 5 "numeric" (str "hello!") ∧
      extractFieldFromElements llvarTextSpec 2 (str "05hello!") = .ok (str "hello", str "!")) := by
  decide

set_option maxRecDepth 100000 in
/-- A witness of `unknown_field`: a message over `llvarTextSpec` whose bitmap
marks the fields 2, 3 and 4, of which field 3 has no descriptor. -/
theorem unknown_field_witness :
    ({ llvarTextMessage with Bitmap := bitsOfFields 64 [2, 3, 4] } : IsoStruct).ToString
      = .error .err :=
  (unknown_field { llvarTextMessage with Bitmap := bitsOfFields 64 [2, 3, 4] } [] false).2.1
    ⟨3, by decide, by unfold KnownKind; decide⟩

/-! ## What `Parse` does to its receiver -/

theorem Parse_fst (iso : IsoStruct) (i : GoString) (useTpdu : Bool) :
    (iso.Parse i useTpdu).1
      = if useTpdu = true then { iso with Tpdu := headerOf i useTpdu } else iso := by
  unfold IsoStruct.Parse headerOf extractTpdu
  cases useTpdu
  · simp
  · by_cases h : i.length < 5
    · have h5 : ¬ 5 ≤ i.length := by omega
      simp [h, h5]
    · have h5 : 5 ≤ i.length := by omega
      simp [h, h5]

theorem Parse_snd_Tpdu (iso : IsoStruct) (i : GoString) (useTpdu : Bool) (p : IsoStruct)
    (h : (iso.Parse i useTpdu).2 = .ok p) : p.Tpdu = headerOf i useTpdu ∧ p.Spec = iso.Spec := by
  obtain ⟨tpdu, msg, bitmap, elementString, m, htm, -, -, -, hp⟩ := Parse_ok iso i useTpdu p h
  subst hp
  refine ⟨?_, rfl⟩
  show tpdu = _
  unfold headerOf extractTpdu at *
  cases useTpdu
  · simp at htm ⊢
    exact htm.1
  · by_cases h5 : i.length < 5
    · have h6 : ¬ 5 ≤ i.length := by omega
      simp [h5, h6] at htm ⊢
      exact htm.1
    · have h6 : 5 ≤ i.length := by omega
      simp [h5, h6] at htm ⊢
      exact htm.1

set_option maxRecDepth 100000 in
/-- C21 (as the claim states it, refuted): parsing the byte sequence of
scenario B with `useTpdu` set succeeds and leaves the header `60 00 18 00 00`
in the receiver, which held five zero bytes before the call; and parsing the
three bytes `01 02 03` with `useTpdu` set returns an error and leaves the
receiver with an empty header. -/
theorem Parse_writes_receiver :
    (((NewISOStruct scenarioBSpec true).Parse scenarioBRaw true).2 = .ok scenarioBParsed ∧
      (NewISOStruct scenarioBSpec true).Tpdu = [0, 0, 0, 0, 0] ∧
      ((NewISOStruct scenarioBSpec true).Parse scenarioBRaw true).1.Tpdu
        = [0x60, 0x00, 0x18, 0x00, 0x00] ∧
      ¬ Unchanged (NewISOStruct scenarioBSpec true)
          ((NewISOStruct scenarioBSpec true).Parse scenarioBRaw true).1) ∧
    (((NewISOStruct scenarioBSpec true).Parse [1, 2, 3] true).2 = .error .err ∧
      ((NewISOStruct scenarioBSpec true).Parse [1, 2, 3] true).1.Tpdu = [] ∧
      ¬ Unchanged (NewISOStruct scenarioBSpec true)
          ((NewISOStruct scenarioBSpec true).Parse [1, 2, 3] true).1) := by
  unfold Unchanged
  decide

/-- C21 (amended): `Parse` leaves the registry, the MTI, the bitmap and the
element table of its receiver as they were, whether it returns a message or an
error.  Without `useTpdu` the transport header of the receiver is unchanged
too; with `useTpdu` it is overwritten with the header taken off the input (the
first 5 bytes, or the empty header when the input is shorter), also when
`Parse` returns an error.  A returned message carries the registry of the
receiver and the header taken off the input. -/
theorem Parse_receiver (iso : IsoStruct) (i : GoString) (useTpdu : Bool) :
    (iso.Parse i useTpdu).1.Spec = iso.Spec ∧
    (iso.Parse i useTpdu).1.Mti = iso.Mti ∧
    (iso.Parse i useTpdu).1.Bitmap = iso.Bitmap ∧
    (iso.Parse i useTpdu).1.Elements = iso.Elements ∧
    (iso.Parse i useTpdu).1.Tpdu = (if useTpdu = true then headerOf i useTpdu else iso.Tpdu) ∧
    (useTpdu = false → Unchanged iso (iso.Parse i useTpdu).1) ∧
    (∀ p, (iso.Parse i useTpdu).2 = .ok p → p.Tpdu = headerOf i useTpdu ∧ p.Spec = iso.Spec) := by
  rw [Parse_fst]
  refine ⟨?_, ?_, ?_, ?_, ?_, ?_, fun p hp => Parse_snd_Tpdu iso i useTpdu p hp⟩
  all_goals cases useTpdu <;> simp [Unchanged]

set_option maxRecDepth 100000 in
/-- A witness of `Parse_receiver`: scenario A parsed without a transport
header leaves its receiver unchanged and returns a message without header. -/
theorem Parse_receiver_witness :
    Unchanged (NewISOStruct scenarioASpec true)
        ((NewISOStruct scenarioASpec true).Parse scenarioARaw false).1 ∧
      scenarioAParsed.Tpdu = headerOf scenarioARaw false :=
  ⟨(Parse_receiver (NewISOStruct scenarioASpec true) scenarioARaw false).2.2.2.2.2.1 rfl,
    ((Parse_receiver (NewISOStruct scenarioASpec true) scenarioARaw false).2.2.2.2.2.2
      scenarioAParsed scenarioA_Parse).1⟩

/-! ## Serialization does not check the stored values -/

theorem packLoop_present (spec : Spec) (m : List (Int × GoString)) (rest : List Int)
    (index : Nat) (acc : GoString) (hkind : KnownKind (spec.field ((index : Int) + 1))) :
    packLoop spec m (1 :: rest) index acc
      = packLoop spec m rest (index + 1)
          (acc ++ packField (spec.field ((index : Int) + 1)) (mapGet m ((index : Int) + 1))) := by
  rw [packLoop]
  simp only [if_true, packField]
  by_cases hfix : (spec.field ((index : Int) + 1)).LenType = "fixed"
  · simp only [hfix, if_true]
    cases (spec.field ((index : Int) + 1)).HeaderHex <;> rfl
  · have hvar : ∃ w, getVariableLengthFromString (spec.field ((index : Int) + 1)).LenType
        = .ok w := by
      unfold getVariableLengthFromString
      rcases hkind with h1 | h1 | h1 | h1
      · exact absurd h1 hfix
      · exact ⟨2, by simp [h1]⟩
      · exact ⟨3, by simp [h1]⟩
      · exact ⟨4, by simp [h1]⟩
    obtain ⟨w, hw⟩ := hvar
    simp only [hfix, if_false, hw]
    cases (spec.field ((index : Int) + 1)).HeaderHex <;> rfl

theorem packLoop_known (spec : Spec) (m : List (Int × GoString)) (bits : List Int) :
    ∀ (index : Nat) (acc : GoString),
      (∀ f ∈ fieldsFrom bits index, KnownKind (spec.field f)) →
      packLoop spec m bits index acc
        = .ok (acc ++ ((fieldsFrom bits index).map
            (fun f => packField (spec.field f) (mapGet m f))).flatten) := by
  induction bits with
  | nil => intro index acc _; simp [packLoop, fieldsFrom]
  | cons bit rest ih =>
    intro index acc h
    by_cases hbit : bit = 1
    · subst hbit
      have hrest : ∀ f ∈ fieldsFrom rest (index + 1), KnownKind (spec.field f) := by
        intro f hf
        apply h
        rw [fieldsFrom, if_pos rfl]
        exact List.mem_cons_of_mem _ hf
      have hkind := h ((index : Int) + 1) (by
        rw [fieldsFrom, if_pos rfl]
        exact List.mem_cons_self _ _)
      rw [packLoop_present spec m rest index acc hkind, ih (index + 1) _ hrest, fieldsFrom,
        if_pos rfl, List.map_cons, List.flatten_cons, List.append_assoc]
    · rw [packLoop, fieldsFrom]
      simp only [hbit, if_false]
      apply ih (index + 1) acc
      intro f hf
      apply h
      rw [fieldsFrom, if_neg hbit]
      exact hf

theorem packElements_known (iso : IsoStruct)
    (h : ∀ f ∈ presentFields iso.Bitmap, KnownKind (iso.Spec.field f)) :
    iso.packElements = .ok ((presentFields iso.Bitmap).map
      (fun f => packField (iso.Spec.field f) (mapGet iso.Elements.elements f))).flatten := by
  unfold IsoStruct.packElements
  rw [presentFields_eq] at h ⊢
  rw [packLoop_known iso.Spec _ _ 1 [] h]
  rfl

theorem ToString_ok_iff (iso : IsoStruct) :
    (∃ out, iso.ToString = .ok out) ↔
      ((∃ s, BitMapArrayToHex iso.Bitmap = .ok s) ∧
        ∀ f ∈ presentFields iso.Bitmap, KnownKind (iso.Spec.field f)) := by
  constructor
  · rintro ⟨out, hout⟩
    constructor
    · cases hb : BitMapArrayToHex iso.Bitmap with
      | ok s => exact ⟨s, rfl⟩
      | error e =>
        unfold IsoStruct.ToString at hout
        simp only [hb] at hout
        cases hout
    · intro f hf
      by_contra hk
      rw [ToString_unknown iso ⟨f, hf, hk⟩] at hout
      cases hout
  · rintro ⟨⟨s, hs⟩, hk⟩
    exact ⟨_, ToString_composition iso s _ hs (packElements_known iso hk)⟩

set_option maxRecDepth 100000 in
/-- C22 (as the claim states it, refuted): `ToString` returns an output for a
message whose fixed-length text field 3 (6 characters) holds the 8 characters
`12345678`, which it emits as they are, and for a message whose packed field 3
holds `12zz56`, of which it emits the one byte `12` decoded in front of the
first bad digit. -/
theorem ToString_unvalidated :
    (3 ∈ presentFields badLengthMessage.Bitmap ∧
      ¬ Conforms (badLengthMessage.Spec.field 3) (mapGet badLengthMessage.Elements.elements 3) ∧
      badLengthMessage.ToString
        = .ok (List.replicate 5 0 ++ str ("0200" ++ "2000000000000000" ++ "12345678"))) ∧
    (3 ∈ presentFields badHexMessage.Bitmap ∧
      ¬ Conforms (badHexMessage.Spec.field 3) (mapGet badHexMessage.Elements.elements 3) ∧
      badHexMessage.ToString
        = .ok (List.replicate 5 0 ++ [0x08, 0x00] ++ (0x20 :: List.replicate 7 0) ++ [0x12])) := by
  unfold Conforms
  decide

/-- C22 (amended): `ToString` does not check the stored values against their
descriptors.  It returns an output exactly when the bitmap can be encoded and
every present field has one of the length kinds `fixed`, `llvar`, `lllvar`
and `llllvar`, whatever the element table holds; each present field then
contributes its stored text as it is (text field) or the bytes that
`hex.DecodeString` returns for it, the decoding error dropped (packed
field). -/
theorem ToString_unchecked (iso : IsoStruct) :
    ((∃ out, iso.ToString = .ok out) ↔
      ((∃ s, BitMapArrayToHex iso.Bitmap = .ok s) ∧
        ∀ f ∈ presentFields iso.Bitmap, KnownKind (iso.Spec.field f))) ∧
    (∀ es, (∃ out, ({ iso with Elements := es } : IsoStruct).ToString = .ok out) ↔
      (∃ out, iso.ToString = .ok out)) ∧
    ((∀ f ∈ presentFields iso.Bitmap, KnownKind (iso.Spec.field f)) →
      iso.packElements = .ok ((presentFields iso.Bitmap).map
        (fun f => packField (iso.Spec.field f) (mapGet iso.Elements.elements f))).flatten) := by
  refine ⟨ToString_ok_iff iso, fun es => ?_, packElements_known iso⟩
  rw [ToString_ok_iff, ToString_ok_iff]

set_option maxRecDepth 100000 in
/-- A witness of `ToString_unchecked`: the fields of `badHexMessage` are of
known kinds, and its packed field 3 contributes the byte `12`. -/
theorem ToString_unchecked_witness :
    badHexMessage.packElements = .ok ((presentFields badHexMessage.Bitmap).map
        (fun f => packField (badHexMessage.Spec.field f)
          (mapGet badHexMessage.Elements.elements f))).flatten ∧
      presentFields badHexMessage.Bitmap = [3] ∧
      packField (badHexMessage.Spec.field 3) (str "12zz56") = [0x12] :=
  ⟨(ToString_unchecked badHexMessage).2.2 (by unfold KnownKind; decide), by decide, by decide⟩

/-! ## Serialization and the fields that are not present -/

theorem AddField_RemoveField_fst (iso : IsoStruct) (i : Int) (v : GoString)
    (hmap : iso.Elements.isNil = false) (h2 : 2 ≤ i) (hl : i ≤ (iso.Bitmap.length : Int)) :
    (iso.AddField i v).2 = .ok () ∧ ((iso.AddField i v).1.RemoveField i).2 = .ok () ∧
    ((iso.AddField i v).1.RemoveField i).1
      = { iso with
          Bitmap := (iso.Bitmap.set (i - 1).toNat 1).set (i - 1).toNat 0
          Elements := { elements := mapSet (mapSet iso.Elements.elements i v) i [] } } := by
  have hn : ¬ (i < 2 ∨ i > (iso.Bitmap.length : Int)) := by omega
  have hmap2 : (iso.AddField i v).1.Elements.isNil = false := by
    rw [AddField_fst_isNil, hmap]
  rw [RemoveField_allocated _ i hmap2, AddField_allocated iso i v hmap]
  simp [hn]

theorem set_set_clear (b : List Int) (k : Nat) (h : b[k]? = some 0) :
    (b.set k 1).set k 0 = b := by
  apply List.ext_getElem?
  intro j
  by_cases hj : k = j
  · subst hj
    have hlt : k < b.length := by
      by_contra hge
      rw [List.getElem?_eq_none (by omega)] at h
      cases h
    simp [List.getElem?_set, hlt, h]
  · simp [List.getElem?_set, hj]

set_option maxRecDepth 100000 in
/-- C23 (as the claim states it, refuted): on the message
`IsoStruct{Bitmap: make([]int64, 64)}`, whose element table is the nil map,
and the index 3, which is valid and whose bit is clear, `AddField(3, "x")` sets
bit 2 and panics on the map assignment, and `RemoveField(3)` panics in the
same way: the two calls do not return, and the message that the panicking
`AddField` leaves has another `ToString` result than the message had. -/
theorem ToString_nil_table :
    nilTableMessage.Elements.isNil = true ∧
    ((2 : Int) ≤ 3 ∧ (3 : Int) ≤ (nilTableMessage.Bitmap.length : Int)) ∧
    nilTableMessage.Bitmap[((3 : Int) - 1).toNat]? = some 0 ∧
    (nilTableMessage.AddField 3 (str "x")).2 = .error .panic ∧
    ((nilTableMessage.AddField 3 (str "x")).1.RemoveField 3).2 = .error .panic ∧
    nilTableMessage.ToString = .ok (List.replicate 16 (charByte '0')) ∧
    (nilTableMessage.AddField 3 (str "x")).1.ToString ≠ nilTableMessage.ToString := by
  decide

/-- C23 (amended): two messages with the same registry, MTI, transport header
and bitmap whose element tables read the same value at every field that the
bitmap marks (the fields `f` between 2 and the bitmap length with bit `f-1`
set) have the same `ToString` result, whatever the tables hold elsewhere; and
on a message whose element table is allocated (every message that
`NewISOStruct` or `Parse` returns), for every index `i` between 2 and the
bitmap length whose bit `i-1` is 0, `AddField(i, v)` followed by
`RemoveField(i)` both return without error and leave the result of `ToString`
unchanged. -/
theorem ToString_present_only :
    (∀ iso1 iso2 : IsoStruct, iso1.Spec = iso2.Spec → iso1.Mti = iso2.Mti →
      iso1.Tpdu = iso2.Tpdu → iso1.Bitmap = iso2.Bitmap →
      (∀ f ∈ presentFields iso1.Bitmap,
        mapGet iso1.Elements.elements f = mapGet iso2.Elements.elements f) →
      iso1.ToString = iso2.ToString) ∧
    (∀ (iso : IsoStruct) (i : Int) (v : GoString), iso.Elements.isNil = false →
      2 ≤ i → i ≤ (iso.Bitmap.length : Int) → iso.Bitmap[(i - 1).toNat]? = some 0 →
      (iso.AddField i v).2 = .ok () ∧ ((iso.AddField i v).1.RemoveField i).2 = .ok () ∧
      ((iso.AddField i v).1.RemoveField i).1.ToString = iso.ToString) := by
  constructor
  · intro iso1 iso2 hS hM hT hB hE
    apply ToString_congr iso1 iso2 hS hM hB hT
    intro f h2 hb
    apply hE
    rw [mem_presentFields, hB]
    refine ⟨h2, ?_, hb⟩
    by_contra hgt
    rw [List.getElem?_eq_none (by omega)] at hb
    cases hb
  · intro iso i v hmap h2 hl h0
    obtain ⟨ha, hr, hst⟩ := AddField_RemoveField_fst iso i v hmap h2 hl
    refine ⟨ha, hr, ?_⟩
    rw [hst, set_set_clear _ _ h0]
    refine ToString_congr _ iso rfl rfl rfl rfl ?_
    intro f _ hb
    have hne : f ≠ i := by
      intro hfi
      rw [hfi, h0] at hb
      cases hb
    show mapGet (mapSet (mapSet iso.Elements.elements i v) i []) f = _
    rw [mapGet_mapSet, if_neg hne, mapGet_mapSet, if_neg hne]

set_option maxRecDepth 100000 in
/-- A witness of `ToString_present_only`: the message of scenario A and the same
message with a value left in the table at field 5, whose bit is clear; and
field 5 set and cleared again on the message of scenario A. -/
theorem ToString_present_only_witness :
    ({ scenarioAParsed with
        Elements := { elements := (5, str "left over") :: scenarioAParsed.Elements.elements } }
      : IsoStruct).ToString = scenarioAParsed.ToString ∧
    ((scenarioAParsed.AddField 5 (str "x")).1.RemoveField 5).1.ToString
      = scenarioAParsed.ToString ∧
    ((scenarioAParsed.AddField 5 (str "x")).1.RemoveField 5).1 ≠ scenarioAParsed :=
  ⟨ToString_present_only.1 _ scenarioAParsed rfl rfl rfl rfl (by decide),
    (ToString_present_only.2 scenarioAParsed 5 (str "x") rfl (by decide) (by decide)
      (by decide)).2.2,
    by decide⟩

/-! ## Text behind the last present field -/

theorem sliceTo_longer (s t : GoString) (n : Int) (a : GoString) (h : sliceTo s n = .ok a) :
    sliceTo (s ++ t) n = .ok a := by
  obtain ⟨h0, hl, ha⟩ := sliceTo_ok s n a h
  unfold sliceTo
  have hc : 0 ≤ n ∧ n ≤ ((s ++ t).length : Int) := by
    refine ⟨h0, ?_⟩
    rw [List.length_append]
    omega
  rw [if_pos hc, List.take_append_of_le_length (by omega), ha]

theorem sliceFrom_longer (s t : GoString) (n : Int) (b : GoString) (h : sliceFrom s n = .ok b) :
    sliceFrom (s ++ t) n = .ok (b ++ t) := by
  obtain ⟨h0, hl, hb⟩ := sliceFrom_ok s n b h
  unfold sliceFrom
  have hc : 0 ≤ n ∧ n ≤ ((s ++ t).length : Int) := by
    refine ⟨h0, ?_⟩
    rw [List.length_append]
    omega
  rw [if_pos hc, List.drop_append_of_le_length (by omega), hb]

theorem slices_longer (s t : GoString) (n : Int) (r : GoString × GoString)
    (f : GoString → GoString)
    (h : (if (s.length : Int) < n then (Except.error Fault.err : Except Fault (GoString × GoString))
      else
        match sliceTo s n with
        | .error e => .error e
        | .ok a =>
          match sliceFrom s n with
          | .error e => .error e
          | .ok b => .ok (f a, b)) = .ok r) :
    (if ((s ++ t).length : Int) < n then (Except.error Fault.err : Except Fault (GoString × GoString))
      else
        match sliceTo (s ++ t) n with
        | .error e => .error e
        | .ok a =>
          match sliceFrom (s ++ t) n with
          | .error e => .error e
          | .ok b => .ok (f a, b)) = .ok (r.1, r.2 ++ t) := by
  split at h
  · cases h
  · rename_i hlen
    have hl : ¬ (((s ++ t).length : Int) < n) := by
      rw [List.length_append]
      omega
    rw [if_neg hl]
    cases h1 : sliceTo s n with
    | error e => simp only [h1] at h; cases h
    | ok a =>
      cases h2 : sliceFrom s n with
      | error e => simp only [h1, h2] at h; cases h
      | ok b =>
        simp only [h1, h2] at h
        cases h
        rw [sliceTo_longer s t n a h1, sliceFrom_longer s t n b h2]

theorem getFieldValue_longer (headerHex : Bool) (maxLen : Int) (contain : String)
    (s t : GoString) (r : GoString × GoString)
    (h : getFieldValue headerHex maxLen contain s = .ok r) :
    getFieldValue headerHex maxLen contain (s ++ t) = .ok (r.1, r.2 ++ t) := by
  unfold getFieldValue at h ⊢
  cases headerHex
  · simp only [Bool.false_eq_true, if_false] at h ⊢
    exact slices_longer s t maxLen r id h
  · simp only [if_true] at h ⊢
    exact slices_longer s t _ r hex.EncodeToString h

theorem extractField_longer (spec : Spec) (field : Int) (s t : GoString)
    (r : GoString × GoString) (h : extractFieldFromElements spec field s = .ok r) :
    extractFieldFromElements spec field (s ++ t) = .ok (r.1, r.2 ++ t) := by
  unfold extractFieldFromElements at h ⊢
  dsimp only at h ⊢
  split at h
  · rename_i hfix
    rw [if_pos hfix]
    exact getFieldValue_longer _ _ _ s t r h
  · rename_i hfix
    rw [if_neg hfix]
    cases hw : getVariableLengthFromString (spec.field field).LenType with
    | error e => simp only [hw] at h; cases h
    | ok length0 =>
      simp only [hw] at h ⊢
      generalize (if (spec.field field).HeaderHex = true then
          (if length0.tmod 2 ≠ 0 then (length0 + 1).tdiv 2 else length0.tdiv 2)
        else length0) = length at h ⊢
      cases hh : (spec.field field).HeaderHex
      · simp only [hh, Bool.false_eq_true, if_false] at h ⊢
        cases h1 : sliceTo s length with
        | error e => simp only [h1] at h; cases h
        | ok a =>
          cases h2 : sliceFrom s length with
          | error e => simp only [h1, h2] at h; cases h
          | ok b =>
            rw [sliceTo_longer s t length a h1, sliceFrom_longer s t length b h2]
            simp only [h1, h2] at h ⊢
            cases hp : strconv.ParseInt a with
            | error e => simp only [hp] at h; cases h
            | ok n =>
              simp only [hp] at h ⊢
              exact getFieldValue_longer _ _ _ b t r h
      · simp only [hh, if_true] at h ⊢
        cases h1 : sliceTo s length with
        | error e => simp only [h1, Except.map] at h; cases h
        | ok a =>
          cases h2 : sliceFrom s length with
          | error e => simp only [h1, h2, Except.map] at h; cases h
          | ok b =>
            rw [sliceTo_longer s t length a h1, sliceFrom_longer s t length b h2]
            simp only [h1, h2, Except.map] at h ⊢
            cases hp : strconv.ParseInt (hex.EncodeToString a) with
            | error e => simp only [hp] at h; cases h
            | ok n =>
              simp only [hp] at h ⊢
              exact getFieldValue_longer _ _ _ b t r h

theorem unpackLoop_longer (spec : Spec) (t : GoString) (bits : List Int) :
    ∀ (index : Nat) (s : GoString) (m m2 : List (Int × GoString)),
      unpackLoop spec bits index s m = .ok m2 →
      unpackLoop spec bits index (s ++ t) m = .ok m2 := by
  induction bits with
  | nil => intro index s m m2 h; exact h
  | cons bit rest ih =>
    intro index s m m2 h
    rw [unpackLoop] at h ⊢
    by_cases hbit : bit = 1
    · simp only [hbit, if_true] at h ⊢
      cases hx : extractFieldFromElements spec ((index : Int) + 1) s with
      | error e => simp only [hx] at h; cases h
      | ok r =>
        obtain ⟨v, rest2⟩ := r
        simp only [hx] at h
        rw [extractField_longer spec _ s t _ hx]
        exact ih _ _ _ _ h
    · simp only [hbit, if_false] at h ⊢
      exact ih _ _ _ _ h

theorem extractBitmap_longer (rest t : GoString) (isHex : Bool) (r : List Int × GoString)
    (h : extractBitmap rest isHex = .ok r) :
    extractBitmap (rest ++ t) isHex = .ok (r.1, r.2 ++ t) := by
  unfold extractBitmap at h ⊢
  split at h
  · cases h
  · rename_i hlen
    have hl : ¬ (rest ++ t).length < 1 := by
      rw [List.length_append]
      omega
    rw [if_neg hl]
    cases isHex
    · simp only [Bool.not_false, if_true, Bool.false_eq_true, if_false] at h ⊢
      cases h1 : sliceTo rest 2 with
      | error e => simp only [h1] at h; cases h
      | ok front =>
        rw [sliceTo_longer rest t 2 front h1]
        simp only [h1] at h ⊢
        split at h
        · cases h
        · rename_i hd
          rw [if_neg hd]
          cases hdec : (hex.DecodeString front).1 with
          | nil => simp only [hdec] at h; cases h
          | cons inDec0 tl =>
            simp only [hdec] at h ⊢
            generalize (if (fmtSprintf8b inDec0).head? = some (charByte '1') then (32 : Int)
              else 16) = L at h ⊢
            cases h2 : sliceTo rest L with
            | error e => simp only [h2] at h; cases h
            | ok bs =>
              cases h3 : sliceFrom rest L with
              | error e => simp only [h2, h3] at h; cases h
              | ok es =>
                rw [sliceTo_longer rest t L bs h2, sliceFrom_longer rest t L es h3]
                simp only [h2, h3] at h ⊢
                cases h4 : HexToBitmapArray bs with
                | error e => simp only [h4] at h; cases h
                | ok bitmap =>
                  simp only [h4] at h ⊢
                  cases h
                  rfl
    · simp only [Bool.not_true, Bool.false_eq_true, if_false, if_true] at h ⊢
      cases h1 : sliceTo rest 1 with
      | error e => simp only [h1, Except.map] at h; cases h
      | ok front =>
        rw [sliceTo_longer rest t 1 front h1]
        simp only [h1, Except.map] at h ⊢
        split at h
        · cases h
        · rename_i hd
          rw [if_neg hd]
          cases hdec : (hex.DecodeString (hex.EncodeToString front)).1 with
          | nil => simp only [hdec] at h; cases h
          | cons inDec0 tl =>
            simp only [hdec] at h ⊢
            generalize (if (fmtSprintf8b inDec0).head? = some (charByte '1') then (32 : Int)
              else 16).tdiv 2 = L at h ⊢
            cases h2 : sliceTo rest L with
            | error e => simp only [h2] at h; cases h
            | ok bs =>
              cases h3 : sliceFrom rest L with
              | error e => simp only [h2, h3] at h; cases h
              | ok es =>
                rw [sliceTo_longer rest t L bs h2, sliceFrom_longer rest t L es h3]
                simp only [h2, h3] at h ⊢
                cases h4 : HexToBitmapArray (hex.EncodeToString bs) with
                | error e => simp only [h4] at h; cases h
                | ok bitmap =>
                  simp only [h4] at h ⊢
                  cases h
                  rfl

theorem extractMTI_longer (s t : GoString) (isHex : Bool) (h : (extractMTI s isHex).2 ≠ []) :
    extractMTI (s ++ t) isHex = ((extractMTI s isHex).1, (extractMTI s isHex).2 ++ t) := by
  unfold extractMTI at h ⊢
  cases isHex
  · simp only [Bool.not_false, if_true] at h ⊢
    by_cases hl : s.length < 4
    · rw [if_pos hl] at h
      exact absurd rfl h
    · have hl2 : ¬ (s ++ t).length < 4 := by
        rw [List.length_append]
        omega
      rw [if_neg hl, if_neg hl2, List.take_append_of_le_length (by omega),
        List.drop_append_of_le_length (by omega)]
  · simp only [Bool.not_true, Bool.false_eq_true, if_false] at h ⊢
    by_cases hl : s.length < 2
    · rw [if_pos hl] at h
      exact absurd rfl h
    · have hl2 : ¬ (s ++ t).length < 2 := by
        rw [List.length_append]
        omega
      rw [if_neg hl, if_neg hl2, List.take_append_of_le_length (by omega),
        List.drop_append_of_le_length (by omega)]

theorem extractMTI_nil (isHex : Bool) : extractMTI [] isHex = ({ mti := [] }, []) := by
  cases isHex <;> rfl

theorem Parse_of (iso : IsoStruct) (i : GoString) (useTpdu : Bool)
    (tpdu msg : GoString) (bitmap : List Int) (elementString : GoString) (b : Bool)
    (m : List (Int × GoString))
    (htm : (tpdu, msg) = (if useTpdu then
          (match extractTpdu i with
            | .ok (t, r) => (t, r)
            | .error _ => (([] : GoString), ([] : GoString)))
        else (([] : GoString), i)))
    (hb : extractBitmap (extractMTI msg (iso.Spec.field 0).HeaderHex).2
      (iso.Spec.field 1).HeaderHex = .ok (bitmap, elementString))
    (hv : MtiValidator (extractMTI msg (iso.Spec.field 0).HeaderHex).1 = .ok b)
    (hm : unpackLoop iso.Spec (bitmap.drop 1) 1 elementString [] = .ok m) :
    (iso.Parse i useTpdu).2
      = .ok { Spec := iso.Spec, Mti := (extractMTI msg (iso.Spec.field 0).HeaderHex).1,
              Bitmap := bitmap, Elements := { elements := m }, Tpdu := tpdu } := by
  unfold IsoStruct.Parse
  dsimp only
  cases useTpdu
  · simp only [Bool.false_eq_true, if_false, Prod.mk.injEq] at htm ⊢
    obtain ⟨rfl, rfl⟩ := htm
    simp only [hb, hv, unpackElements, hm]
  · simp only [if_true] at htm ⊢
    cases hx : extractTpdu i with
    | error e =>
      simp only [hx, Prod.mk.injEq] at htm ⊢
      obtain ⟨rfl, rfl⟩ := htm
      simp only [hb, hv, unpackElements, hm]
    | ok r =>
      obtain ⟨a, c⟩ := r
      simp only [hx, Prod.mk.injEq] at htm ⊢
      obtain ⟨rfl, rfl⟩ := htm
      simp only [hb, hv, unpackElements, hm]

theorem Parse_longer (iso : IsoStruct) (raw t : GoString) (useTpdu : Bool) (p : IsoStruct)
    (h : (iso.Parse raw useTpdu).2 = .ok p) : (iso.Parse (raw ++ t) useTpdu).2 = .ok p := by
  obtain ⟨tpdu, msg, bitmap, elementString, m, htm, hb, ⟨b, hv⟩, hm, hp⟩ :=
    Parse_ok iso raw useTpdu p h
  have hrest : (extractMTI msg (iso.Spec.field 0).HeaderHex).2 ≠ [] := by
    intro hnil
    rw [hnil, extractBitmap_nil] at hb
    cases hb
  have hmsg : msg ≠ [] := by
    intro hnil
    rw [hnil, extractMTI_nil] at hrest
    exact hrest rfl
  have htm2 : (tpdu, msg ++ t) = (if useTpdu then
        (match extractTpdu (raw ++ t) with
          | .ok (t, r) => (t, r)
          | .error _ => (([] : GoString), ([] : GoString)))
      else (([] : GoString), raw ++ t)) := by
    cases useTpdu
    · simp only [Bool.false_eq_true, if_false, Prod.mk.injEq] at htm ⊢
      exact ⟨htm.1, by rw [htm.2]⟩
    · simp only [if_true] at htm ⊢
      unfold extractTpdu at htm ⊢
      by_cases hl : raw.length < 5
      · rw [if_pos hl] at htm
        simp only [Prod.mk.injEq] at htm
        exact absurd htm.2 hmsg
      · have hl2 : ¬ (raw ++ t).length < 5 := by
          rw [List.length_append]
          omega
        rw [if_neg hl] at htm
        rw [if_neg hl2]
        simp only [Prod.mk.injEq] at htm ⊢
        rw [List.take_append_of_le_length (by omega), List.drop_append_of_le_length (by omega)]
        exact ⟨htm.1, by rw [htm.2]⟩
  have hx := extractMTI_longer msg t (iso.Spec.field 0).HeaderHex hrest
  have hb2 := extractBitmap_longer _ t _ _ hb
  have hm2 := unpackLoop_longer iso.Spec t _ _ _ _ _ hm
  rw [hp]
  have := Parse_of iso (raw ++ t) useTpdu tpdu (msg ++ t) bitmap (elementString ++ t) b m htm2
    (by rw [hx]; exact hb2) (by rw [hx]; exact hv) hm2
  rw [this, hx]

/-- C24: when `Parse(raw, useTpdu)` returns a message, `Parse(raw ++ t, useTpdu)`
returns the same message for every text `t` appended to the input: the same
MTI, bitmap, element table and transport header (and registry).  Text behind the
last present field is never reported. -/
theorem Parse_trailing (iso : IsoStruct) (raw t : GoString) (useTpdu : Bool) (p : IsoStruct)
    (h : (iso.Parse raw useTpdu).2 = .ok p) :
    (iso.Parse (raw ++ t) useTpdu).2 = .ok p ∧
    (∃ q, (iso.Parse (raw ++ t) useTpdu).2 = .ok q ∧ q.Mti = p.Mti ∧ q.Bitmap = p.Bitmap ∧
      q.Elements = p.Elements ∧ q.Tpdu = p.Tpdu) :=
  ⟨Parse_longer iso raw t useTpdu p h, p, Parse_longer iso raw t useTpdu p h, rfl, rfl, rfl, rfl⟩

/-- A witness of `Parse_trailing`: the text of scenario A with `trailing text`
behind its last field parses to the message of scenario A. -/
theorem Parse_trailing_witness :
    ((NewISOStruct scenarioASpec true).Parse (scenarioARaw ++ str "trailing text") false).2
      = .ok scenarioAParsed :=
  (Parse_trailing (NewISOStruct scenarioASpec true) scenarioARaw (str "trailing text") false
    scenarioAParsed scenarioA_Parse).1

/-! ## The bitmap that `ToString` emits, read back by `extractBitmap` -/

set_option maxRecDepth 100000 in
/-- C10 (the code, with the registries on which it fails): for every message
whose bitmap `b` has length 64 or 128 and position 0 set exactly when the
length is 128, decoding the hex text that encodes `b` gives back `b`; and when
the descriptors 0 and 1 of the registry carry the same `packed_hex` flag (ASCII
mode, packed-hex mode), `ToString` emits transport header, message type, the
bitmap encoding and the packed fields, and `extractBitmap` applied to that
bitmap encoding followed by any payload returns `b` and the payload.  With the
message type as text and the bitmap descriptor packed, `ToString` emits the
bitmap of the empty message as 16 characters of text, of which `extractBitmap`
takes 8 as packed bytes and returns another bitmap; with the message type
packed and the bitmap descriptor not packed, `ToString` emits no bitmap and
`Parse` of its output returns an error. -/
theorem bitmap_round_trip (iso : IsoStruct) (payload : GoString)
    (hshape : BitmapShape iso.Bitmap) :
    (∃ s, BitMapArrayToHex iso.Bitmap = .ok s ∧ HexToBitmapArray s = .ok iso.Bitmap ∧
      ∀ (isHex : Bool) (e : GoString), (iso.Spec.field 0).HeaderHex = isHex →
        (iso.Spec.field 1).HeaderHex = isHex → iso.packElements = .ok e →
        iso.ToString
          = .ok (iso.Tpdu ++ mtiWire iso.Mti.String isHex ++ bitmapWire s isHex ++ e) ∧
        extractBitmap (bitmapWire s isHex ++ payload) isHex = .ok (iso.Bitmap, payload)) ∧
    (BitmapShape (emptyMessage mixedFlagSpec).Bitmap ∧
      (mixedFlagSpec.field 0).HeaderHex = false ∧ (mixedFlagSpec.field 1).HeaderHex = true ∧
      (emptyMessage mixedFlagSpec).ToString = .ok (str ("0200" ++ "0000000000000000")) ∧
      (extractBitmap (str "0000000000000000") true).map Prod.snd = .ok (str "00000000") ∧
      (extractBitmap (str "0000000000000000") true).map (fun r => presentFields r.1)
        = .ok [3, 4, 11, 12, 19, 20, 27, 28, 35, 36, 43, 44, 51, 52, 59, 60] ∧
      extractBitmap (str "0000000000000000") true ≠ .ok ((emptyMessage mixedFlagSpec).Bitmap, []) ∧
      ((emptyMessage mixedFlagSpec).Parse (str ("0200" ++ "0000000000000000")) false).2
        = .error .err) ∧
    ((mixedFlagSpecPacked.field 0).HeaderHex = true ∧
      (mixedFlagSpecPacked.field 1).HeaderHex = false ∧
      (emptyMessage mixedFlagSpecPacked).ToString = .ok [0x02, 0x00] ∧
      extractBitmap [] false = .error .err ∧
      ((emptyMessage mixedFlagSpecPacked).Parse [0x02, 0x00] false).2 = .error .err) := by
  refine ⟨?_, ?_, ?_⟩
  · obtain ⟨k, hk⟩ : ∃ k, iso.Bitmap.length = 4 * k := by
      rcases hshape.2.1 with h | h
      · exact ⟨16, by omega⟩
      · exact ⟨32, by omega⟩
    obtain ⟨s, hs, -, -, -⟩ := BitMapArrayToHex_spec k iso.Bitmap hk hshape.1
    refine ⟨s, hs, (extractBitmap_encoded iso.Bitmap s payload false hshape hs).1, ?_⟩
    intro isHex e h0 h1 he
    refine ⟨?_, (extractBitmap_encoded iso.Bitmap s payload isHex hshape hs).2⟩
    rw [ToString_composition iso s e hs he, h0, h1]
    cases isHex <;> simp [mtiWire, bitmapWire]
  · unfold BitmapShape
    decide
  · decide

set_option maxRecDepth 100000 in
/-- A witness of `bitmap_round_trip`: the parsed message of scenario A, in ASCII
mode, with its packed fields as the payload behind the bitmap, and the empty
message over the registry of scenario B, in packed-hex mode, with three bytes
behind the bitmap. -/
theorem bitmap_round_trip_witness :
    BitmapShape scenarioAParsed.Bitmap ∧
    (∃ s, BitMapArrayToHex scenarioAParsed.Bitmap = .ok s ∧
      scenarioAParsed.ToString
        = .ok (scenarioAParsed.Tpdu ++ mtiWire scenarioAParsed.Mti.String false
            ++ bitmapWire s false ++ str "000010000000001500120604120000000112340001840") ∧
      extractBitmap (bitmapWire s false ++ str "000010000000001500120604120000000112340001840")
        false = .ok (scenarioAParsed.Bitmap, str "000010000000001500120604120000000112340001840")) ∧
    (∃ s, BitMapArrayToHex (emptyMessage scenarioBSpec).Bitmap = .ok s ∧
      (emptyMessage scenarioBSpec).ToString
        = .ok ((emptyMessage scenarioBSpec).Tpdu
            ++ mtiWire (emptyMessage scenarioBSpec).Mti.String true ++ bitmapWire s true ++ []) ∧
      extractBitmap (bitmapWire s true ++ [0x92, 0x00, 0x00]) true
        = .ok ((emptyMessage scenarioBSpec).Bitmap, [0x92, 0x00, 0x00])) :=
  ⟨scenarioABitmap_shape,
    (bitmap_round_trip scenarioAParsed (str "000010000000001500120604120000000112340001840")
      scenarioABitmap_shape).1.elim
      (fun s h => ⟨s, h.1,
        (h.2.2 false (str "000010000000001500120604120000000112340001840") rfl rfl
          (by decide)).1,
        (h.2.2 false (str "000010000000001500120604120000000112340001840") rfl rfl
          (by decide)).2⟩),
    (bitmap_round_trip (emptyMessage scenarioBSpec) [0x92, 0x00, 0x00]
      (by unfold BitmapShape; decide)).1.elim
      (fun s h => ⟨s, h.1, (h.2.2 true [] rfl rfl (by decide)).1,
        (h.2.2 true [] rfl rfl (by decide)).2⟩)⟩

end Iso8583
